import Mathlib

/-!
# NuHepMCInputHandler: generator-event ingestion

A shallow embedding of `src/InputHandler/NuHepMCInputHandler.cxx`.

* `double` values are modelled by rationals. The only arithmetic the handler performs on
  them is the multiplication by the unit factor (`1` or `1e2`) and the running sum of weights.
* `UInt_t` values are natural numbers below `2 ^ 32`, with wrap-around written out; `int`
  values obtained from them go through `toInt32`, and the `int` event counter wraps through
  `wrapInt32`.
* The particle arrays of the internal event have `kMaxParticles` slots each; a store at an
  index from `kMaxParticles` on changes no slot and is only recorded in the trace `written`.
* The HepMC3 reader is an external collaborator. It is modelled as a forward-only cursor over
  the list of events of a file, with a sticky failure flag.
* Raised exceptions and aborts are the `Except.error` results of the constructor.
-/

set_option autoImplicit false

/-! ## Constants of the NuHepMC standard (lines 8-21) -/

namespace NuHepMC

namespace VertexStatus

def kPrimaryVertex : Int := 1

def kNuclearVertex : Int := 2

end VertexStatus

namespace ParticleStatus

def kUndecayedPhysicalParticle : Int := 1

def kIncomingBeamParticle : Int := 4

def kTargetParticle : Int := 11

def kStruckNucleon : Int := 21

end ParticleStatus

end NuHepMC

/-! ## The external event format (HepMC3) -/

namespace HepMC3

/-- Four-momentum of a particle: the values returned by `px()`, `py()`, `pz()`, `e()`. -/
structure FourVector where
  px : ℚ
  py : ℚ
  pz : ℚ
  e : ℚ
deriving DecidableEq

/-- One particle of a generator event. `production_vertex_status` is the value of
`production_vertex()->status()`; every particle of a decoded event has a production vertex
(HepMC3 attaches particles without one to the root vertex of the event). -/
structure GenParticle where
  status : Int
  pid : Int
  momentum : FourVector
  production_vertex_status : Int
deriving DecidableEq

/-- Typed attribute payloads. An attribute read with `attribute<AT>` yields a value only when
the stored payload is of kind `AT`; `StringAttribute` stands for a payload that none of the
typed readers used by the handler accepts. -/
inductive Attribute where
  | IntAttribute (value : Int)
  | DoubleAttribute (value : ℚ)
  | VectorStringAttribute (value : List String)
  | StringAttribute (value : String)
deriving DecidableEq

/-- Run-level metadata of a file: named attributes and the declared weight names. -/
structure GenRunInfo where
  attributes : List (String × Attribute)
  weight_names : List String
deriving DecidableEq

/-- The per-event cross-section record; `xsecs` holds one estimate per weight. -/
structure GenCrossSection where
  xsecs : List ℚ
deriving DecidableEq

/-- One decoded generator event. `ProcID` is the value of the integer attribute of that name,
which every NuHepMC event carries; `cross_section` is absent when the event has no
cross-section record. -/
structure GenEvent where
  ProcID : Int
  event_number : Int
  particles : List GenParticle
  cross_section : Option GenCrossSection
  weights : List ℚ
deriving DecidableEq

/-- The content of one input file: the run metadata handed out by `run_info()` once an event
has been read (absent when the reader returns a null pointer) and the events in file order. -/
structure File where
  run_info : Option GenRunInfo
  events : List GenEvent
deriving DecidableEq

/-- A forward-only reader over a file. `pos` counts the events consumed so far and `failed` is
the sticky failure state of the underlying stream. -/
structure Reader where
  file : File
  pos : Nat
  failed : Bool
deriving DecidableEq

/-- A fresh reader at the start of the file, as `deduce_reader` returns it. -/
def deduce_reader (file : File) : Reader :=
  { file := file, pos := 0, failed := false }

/-- Decode the next event. At the end of the stream, or once the reader has failed, no event
is produced and the reader is failed. -/
def Reader.read_event (r : Reader) : Reader × Option GenEvent :=
  if r.failed then (r, none)
  else
    match r.file.events[r.pos]? with
    | some e => ({ r with pos := r.pos + 1 }, some e)
    | none => ({ r with failed := true }, none)

/-- Advance over `n` events without decoding them. The reader walks forward, counting down at
each event header, until `n` headers have been passed and the next one is in sight; when the
stream ends first the reader is failed. A count that is not positive consumes nothing, with
one exception: for the least `int` the countdown overflows at the first event header in
sight, and the reader runs through the rest of the stream and fails. -/
def Reader.skip (r : Reader) (n : Int) : Reader :=
  if r.failed then r
  else if n ≤ 0 then
    if n = -2147483648 ∧ r.pos < r.file.events.length then
      { r with pos := r.file.events.length, failed := true }
    else r
  else if r.pos + n.toNat < r.file.events.length then { r with pos := r.pos + n.toNat }
  else { r with pos := r.file.events.length, failed := true }

end HepMC3

open HepMC3

/-! ## The internal event (FitEvent) -/

/-- Modelled from the spec: the particle-state enumeration of the missing header `FitEvent.h`
(the kinematic roles incoming/initial state, intermediate, final state, nuclear initial state
and other). -/
inductive ParticleState where
  | kInitialState
  | kFSIState
  | kFinalState
  | kNuclearInitial
  | kUndefinedState
deriving DecidableEq

/-- The internal event. Each of the four particle arrays has `kMaxParticles` elements (the
constant is declared in the missing header `FitEvent.h`, so it is a member of the model): of
the four index maps only the values at indices below `kMaxParticles` are array elements, and
no definition reads or changes a value at another index. `written` is a ghost trace: the
indices the last fill stored at, most recent first, whether inside the arrays or not. -/
structure FitEvent where
  kMaxParticles : Nat
  Mode : Int
  fEventNo : Int
  fTargetA : Int
  fTargetZ : Int
  fTargetH : Int
  fBound : Bool
  InputWeight : ℚ
  fNParticles : Nat
  fPrimaryVertex : Nat → Bool
  fParticleMom : Nat → FourVector
  fParticlePDG : Nat → Int
  fParticleState : Nat → ParticleState
  written : List Nat

/-- One entry of the particle stack, read across the four parallel arrays. -/
structure ParticleRecord where
  fPrimaryVertex : Bool
  fParticleMom : FourVector
  fParticlePDG : Int
  fParticleState : ParticleState
deriving DecidableEq

/-- The entry stored in slot `i` of the four arrays, for `i` below `kMaxParticles`. -/
def FitEvent.slot (ev : FitEvent) (i : Nat) : ParticleRecord :=
  { fPrimaryVertex := ev.fPrimaryVertex i
    fParticleMom := ev.fParticleMom i
    fParticlePDG := ev.fParticlePDG i
    fParticleState := ev.fParticleState i }

/-- The particle list of an event: the first `fNParticles` slots, in slot order, as far as
the arrays reach. -/
def FitEvent.particleList (ev : FitEvent) : List ParticleRecord :=
  (List.range (min ev.fNParticles ev.kMaxParticles)).map ev.slot

/-- Modelled from the spec: `FitEvent::ResetEvent` of the missing `FitEvent.cxx`; the
destination particle array is reset to empty (truncated to zero). -/
def FitEvent.ResetEvent (ev : FitEvent) : FitEvent :=
  { ev with fNParticles := 0 }

/-- Modelled from the spec: the group order of the canonical reordering,
InitialState, intermediate, FinalState, then every other role. -/
def stateGroups : List (ParticleState → Bool) :=
  [ fun s => decide (s = ParticleState.kInitialState),
    fun s => decide (s = ParticleState.kFSIState),
    fun s => decide (s = ParticleState.kFinalState),
    fun s => decide (s ≠ ParticleState.kInitialState ∧ s ≠ ParticleState.kFSIState ∧
      s ≠ ParticleState.kFinalState) ]

/-- Modelled from the spec: the reordered stack, the entries grouped by role in the order of
`stateGroups`, relative order kept within each group. -/
def orderedStack (l : List ParticleRecord) : List ParticleRecord :=
  (stateGroups.map fun g => l.filter fun r => g r.fParticleState).flatten

/-- Modelled from the spec: `FitEvent::OrderStack` of the missing `FitEvent.cxx`; the particle
list is replaced by its reordering, slot by slot, and the count is left as it is. -/
def FitEvent.OrderStack (ev : FitEvent) : FitEvent :=
  let l := orderedStack ev.particleList
  { ev with
    fPrimaryVertex := fun i => l[i]?.elim (ev.fPrimaryVertex i) (·.fPrimaryVertex)
    fParticleMom := fun i => l[i]?.elim (ev.fParticleMom i) (·.fParticleMom)
    fParticlePDG := fun i => l[i]?.elim (ev.fParticlePDG i) (·.fParticlePDG)
    fParticleState := fun i => l[i]?.elim (ev.fParticleState i) (·.fParticleState) }

/-! ## CalcNUISANCEKinematics (lines 255-318) -/

/-- Lines 292-311: store the particle at index `fNParticles` of the four arrays with the given
state and add up the particle count. The source compares the index with nothing. When the index
is below `kMaxParticles` the four stores fill that slot. When it is not, the stores are outside
the arrays, where C++ gives them no meaning: no array element takes the values, the index is
entered in `written`, and the count is added up all the same. -/
def storeParticle (ev : FitEvent) (p : GenParticle) (status : ParticleState) : FitEvent :=
  if ev.fNParticles < ev.kMaxParticles then
    { ev with
      fPrimaryVertex := Function.update ev.fPrimaryVertex ev.fNParticles
        (decide (p.production_vertex_status = NuHepMC.VertexStatus.kPrimaryVertex))
      fParticleMom := Function.update ev.fParticleMom ev.fNParticles
        { px := p.momentum.px, py := p.momentum.py, pz := p.momentum.pz, e := p.momentum.e }
      fParticlePDG := Function.update ev.fParticlePDG ev.fNParticles p.pid
      fParticleState := Function.update ev.fParticleState ev.fNParticles status
      written := ev.fNParticles :: ev.written
      fNParticles := ev.fNParticles + 1 }
  else
    { ev with
      written := ev.fNParticles :: ev.written
      fNParticles := ev.fNParticles + 1 }

/-- Lines 267-312: the body of the particle loop for one source particle. -/
def particleStep (ev : FitEvent) (p : GenParticle) : FitEvent :=
  if p.status = NuHepMC.ParticleStatus.kIncomingBeamParticle then
    storeParticle ev p ParticleState.kInitialState
  else if p.status = NuHepMC.ParticleStatus.kTargetParticle then
    storeParticle
      { ev with
        fTargetA := (p.pid.tdiv 10).tmod 1000
        fTargetZ := (p.pid.tdiv 10000).tmod 1000
        fTargetH := 0
        fBound := decide (p.pid = 1000010010) }
      p ParticleState.kNuclearInitial
  else if p.status = NuHepMC.ParticleStatus.kStruckNucleon then
    storeParticle ev p ParticleState.kInitialState
  else if p.status = NuHepMC.ParticleStatus.kUndecayedPhysicalParticle then
    storeParticle ev p ParticleState.kFinalState
  else
    -- Ignore internal particles
    ev

/-- Lines 258-312: `CalcNUISANCEKinematics` up to, and without, the final `OrderStack`. -/
def fillStack (ev : FitEvent) (evt : GenEvent) : FitEvent :=
  let ev1 := ev.ResetEvent
  let ev2 := { ev1 with Mode := evt.ProcID }
  let ev3 := { ev2 with fEventNo := evt.event_number }
  let ev4 := { ev3 with fNParticles := 0, written := [] }
  evt.particles.foldl particleStep ev4

/-- Lines 255-318. -/
def CalcNUISANCEKinematics (ev : FitEvent) (evt : GenEvent) : FitEvent :=
  (fillStack ev evt).OrderStack

/-! ## Machine integers -/

/-- The number of values of a 32-bit integer type. -/
def UInt_t.size : Nat := 2 ^ 32

/-- Conversion of an `int` to `UInt_t`, as the casts `(UInt_t)x` do. -/
def UInt_t.ofInt (x : Int) : Nat := (x % 2 ^ 32).toNat

/-- The value an `int` holds after an arithmetic result `x`: the result wrapped into the range
`-2 ^ 31 .. 2 ^ 31 - 1`, as the increment of a 32-bit counter does when it overflows. -/
def wrapInt32 (x : Int) : Int :=
  (x + 2147483648) % 4294967296 - 2147483648

/-- Conversion of a `UInt_t` value to `int`: values from `2 ^ 31` on come out negative. -/
def toInt32 (n : Nat) : Int :=
  if n % 2 ^ 32 < 2 ^ 31 then ((n % 2 ^ 32 : Nat) : Int) else ((n % 2 ^ 32 : Nat) : Int) - 2 ^ 32

/-! ## The placeholder histograms (ROOT `TH1D`) -/

/-- A one-dimensional histogram with `nbins` bins; bin `0` is the underflow and bin
`nbins + 1` the overflow. -/
structure TH1D where
  nbins : Nat
  content : Nat → ℚ

/-- A histogram as constructed: all bins empty. -/
def TH1D.new (nbins : Nat) : TH1D :=
  { nbins := nbins, content := fun _ => 0 }

def TH1D.SetBinContent (h : TH1D) (bin : Nat) (value : ℚ) : TH1D :=
  { h with content := Function.update h.content bin value }

def TH1D.GetBinContent (h : TH1D) (bin : Nat) : ℚ :=
  h.content bin

/-- The integral over the full axis: the sum of bins `1 .. nbins`. -/
def TH1D.Integral (h : TH1D) : ℚ :=
  ((List.range h.nbins).map fun i => h.content (i + 1)).sum

/-! ## Attribute access (lines 27-91) -/

/-- Ways in which construction ends without a handler. -/
inductive Failure where
  | runtime_error (what : String)
  | abort (message : String)
  | noReader (path : String)
  | outOfFuel
deriving DecidableEq

namespace HepMC3

def GenRunInfo.attribute_names (obj : GenRunInfo) : List String :=
  obj.attributes.map Prod.fst

/-- The stored payload under a name, when there is one. -/
def GenRunInfo.payload (obj : GenRunInfo) (name : String) : Option Attribute :=
  obj.attributes.lookup name

def Attribute.asDouble : Attribute → Option ℚ
  | Attribute.DoubleAttribute v => some v
  | _ => none

def Attribute.asVectorString : Attribute → Option (List String)
  | Attribute.VectorStringAttribute v => some v
  | _ => none

def Attribute.asInt : Attribute → Option Int
  | Attribute.IntAttribute v => some v
  | _ => none

end HepMC3

namespace NuHepMC

/-- Lines 28-32. -/
def HasAttribute (obj : GenRunInfo) (name : String) : Bool :=
  decide (name ∈ obj.attribute_names)

/-- Lines 34-55: `CheckedAttributeValue<AT>` without a default; `read` is the typed reader
`attribute<AT>`. -/
def CheckedAttributeValue {α : Type} (read : Attribute → Option α) (obj : Option GenRunInfo)
    (name : String) : Except Failure α :=
  match obj with
  | none => Except.error (Failure.runtime_error "CheckedAttributeValue")
  | some o =>
    if !HasAttribute o name then Except.error (Failure.runtime_error "CheckedAttributeValue")
    else
      match (o.payload name).bind read with
      | none => Except.error (Failure.runtime_error "CheckedAttributeValue")
      | some v => Except.ok v

/-- Lines 57-75: `CheckedAttributeValue<AT>` with a default value. -/
def CheckedAttributeValueD {α : Type} (read : Attribute → Option α) (obj : Option GenRunInfo)
    (name : String) (defval : α) : Except Failure α :=
  match obj with
  | none => Except.error (Failure.runtime_error "CheckedAttributeValue")
  | some o =>
    if !HasAttribute o name then Except.ok defval
    else
      match (o.payload name).bind read with
      | none => Except.error (Failure.runtime_error "CheckedAttributeValue")
      | some v => Except.ok v

/-- Lines 77-89. -/
def SignalsConvention (run_info : Option GenRunInfo) (Convention : String) :
    Except Failure Bool := do
  let conventions ← CheckedAttributeValue Attribute.asVectorString run_info "NuHepMC.Conventions"
  pure (conventions.any fun c => decide (c = Convention))

end NuHepMC

/-! ## The handler (lines 93-340) -/

/-- Modelled from the spec: the pieces of a character sequence between the delimiters. -/
def splitPieces (del : Char) : List Char → List (List Char)
  | [] => [[]]
  | c :: cs =>
    if c = del then [] :: splitPieces del cs
    else
      match splitPieces del cs with
      | [] => [[c]]
      | w :: ws => (c :: w) :: ws

/-- Modelled from the spec: `GeneralUtils::ParseToStr` of the missing `GeneralUtils.cxx`; the
string is split at the delimiter. -/
def GeneralUtils.ParseToStr (str : String) (del : Char) : List String :=
  (splitPieces del str.data).map String.mk

/-- Lines 109-111: a leading bracket is removed from the first input. -/
def stripFront : List String → List String
  | [] => []
  | f :: rest => (if f.data.head? = some '(' then String.mk (f.data.drop 1) else f) :: rest

/-- Lines 112-114: a trailing bracket is removed from the last input. For an empty last
input the source reads the character before the start of the string; the embedding finds no
bracket there and leaves the input as it is. -/
def stripBack (inputs : List String) : List String :=
  match inputs.getLast? with
  | none => inputs
  | some b =>
    if b.data.getLast? = some ')' then inputs.dropLast ++ [String.mk b.data.dropLast]
    else inputs

/-- Lines 107-114: the list of all inputs. -/
def formInputs (rawinputs : String) : List String :=
  stripBack (stripFront (GeneralUtils.ParseToStr rawinputs ','))

/-- What the constructor takes from its surroundings: the configured event cap, the files that
can be opened by path, and the event object as allocated and hard-reset. -/
structure Env where
  MAXEVENTS : Int
  files : String → Option File
  newFitEvent : FitEvent

/-- The state of a handler. `fFile` is the content of the file named `fFilename`; `reopens` and
`skipped` are ghost traces of `GetNuisanceEvent`: the number of readers it created and the
counts it passed to `skip`, most recent first. -/
structure NuHepMCInputHandler where
  fName : String
  fMaxEvents : Int
  jointinput : Bool
  jointindexswitch : Nat
  jointindexlow : List Int
  jointindexhigh : List Int
  jointindexscale : List ℚ
  fFilename : String
  fFile : File
  fReader : Reader
  fHepMC3Evt : GenEvent
  frun_info : Option GenRunInfo
  fNEvents : Int
  nextentry : Nat
  fEventHist : TH1D
  fFluxHist : TH1D
  fNUISANCEEvent : FitEvent
  reopens : Nat
  skipped : List Int

/-- The local variables of the constructor during the pre-scan (lines 126-135), together with
the members the loop updates. -/
structure ScanState where
  fReader : Reader
  fHepMC3Evt : GenEvent
  frun_info : Option GenRunInfo
  has_running_xsec_estimate : Bool
  best_xs_estimate : ℚ
  has_FATX : Bool
  to_1em38_cm2 : ℚ
  NWeights : Nat
  fNEvents : Int
  sum_of_weights : ℚ

/-- An event object as default-constructed, before the first read. -/
def HepMC3.GenEvent.empty : GenEvent :=
  { ProcID := 0, event_number := 0, particles := [], cross_section := none, weights := [] }

/-- Lines 126-135. -/
def ScanState.start (file : File) : ScanState :=
  { fReader := deduce_reader file
    fHepMC3Evt := GenEvent.empty
    frun_info := none
    has_running_xsec_estimate := false
    best_xs_estimate := 0
    has_FATX := false
    to_1em38_cm2 := 1
    NWeights := 0
    fNEvents := 0
    sum_of_weights := 0 }

/-- Lines 147-161: the run metadata is captured after the first decoded event. -/
def captureRunInfo (s : ScanState) : Except Failure ScanState := do
  let frun_info := s.fReader.file.run_info
  let has_FATX ← NuHepMC.SignalsConvention frun_info "G.C.4"
  let has_running_xsec_estimate ← NuHepMC.SignalsConvention frun_info "E.C.4"
  let ec5 ← NuHepMC.SignalsConvention frun_info "E.C.5"
  let to_1em38_cm2 := if ec5 then 100 else s.to_1em38_cm2
  let NWeights := s.NWeights + (frun_info.elim [] GenRunInfo.weight_names).length
  pure { s with
    frun_info := frun_info
    has_FATX := has_FATX
    has_running_xsec_estimate := has_running_xsec_estimate
    to_1em38_cm2 := to_1em38_cm2
    NWeights := NWeights }

/-- Lines 163-177: the running estimate of the cross section. -/
def runningEstimate (s : ScanState) : ScanState :=
  if s.has_running_xsec_estimate then
    match s.fHepMC3Evt.cross_section with
    | some xs =>
      if s.NWeights > 0 then
        { s with
          best_xs_estimate := xs.xsecs.headD 0
          sum_of_weights := s.sum_of_weights + s.fHepMC3Evt.weights.headD 0 }
      else s
    | none => s
  else s

/-- Lines 136-178: the pre-scan loop; `fuel` bounds the number of iterations. The counter
`fNEvents` is an `int`: the increment of line 140 is taken in 32 bits (`wrapInt32`). -/
def scanLoop : Nat → ScanState → Except Failure ScanState
  | 0, _ => Except.error Failure.outOfFuel
  | fuel + 1, s =>
    if s.fReader.failed then Except.ok s
    else
      let (r, e) := s.fReader.read_event
      let s1 := { s with fReader := r, fHepMC3Evt := e.getD s.fHepMC3Evt }
      if !r.failed then do
        let s2 := { s1 with fNEvents := wrapInt32 (s1.fNEvents + 1) }
        let s3 ← if s2.frun_info.isNone then captureRunInfo s2 else pure s2
        scanLoop fuel (runningEstimate s3)
      else Except.ok s1

/-- Lines 193-201: the conversion factor from events to cross section. -/
def fatx_cm2 (s : ScanState) : Except Failure ℚ :=
  if s.has_FATX then do
    let FATX ← NuHepMC.CheckedAttributeValue Attribute.asDouble s.frun_info
      "NuHepMC.FluxAveragedTotalCrossSection"
    pure (FATX * s.to_1em38_cm2)
  else if s.has_running_xsec_estimate then pure (s.best_xs_estimate * s.to_1em38_cm2)
  else pure 1

/-- Lines 93-212: the constructor. -/
def NuHepMCInputHandler.new (fuel : Nat) (env : Env) (handle : String) (rawinputs : String) :
    Except Failure NuHepMCInputHandler := do
  let inputs := formInputs rawinputs
  let fFilename ← match inputs.head? with
    | some f => pure f
    | none => Except.error (Failure.noReader "")
  let file ← match env.files fFilename with
    | some f => pure f
    | none => Except.error (Failure.noReader fFilename)
  let s ← scanLoop fuel (ScanState.start file)
  -- Open the file again
  let fReader := deduce_reader file
  if s.frun_info.isNone then
    Except.error (Failure.abort "Could not read run_info from input NuHepMC file")
  else do
    let fatx ← fatx_cm2 s
    pure
      { fName := handle
        fMaxEvents := env.MAXEVENTS
        jointinput := false
        jointindexswitch := 0
        jointindexlow := []
        jointindexhigh := []
        jointindexscale := []
        fFilename := fFilename
        fFile := file
        fReader := fReader
        fHepMC3Evt := s.fHepMC3Evt
        frun_info := s.frun_info
        fNEvents := s.fNEvents
        nextentry := 0
        fEventHist := (TH1D.new 10).SetBinContent 5 fatx
        fFluxHist := (TH1D.new 10).SetBinContent 5 1
        fNUISANCEEvent := env.newFitEvent
        reopens := 0
        skipped := [] }

/-- The normalization a consumer retrieves: the integral of the event histogram. -/
def NuHepMCInputHandler.GetNormalization (h : NuHepMCInputHandler) : ℚ :=
  h.fEventHist.Integral

/-- Lines 320-333: `fuel` bounds the number of cursor advances plus one; the third component of
the result counts the advances made. An index outside a vector gives no result. -/
def NuHepMCInputHandler.GetInputWeight :
    Nat → NuHepMCInputHandler → Nat → Option (NuHepMCInputHandler × ℚ × Nat)
  | 0, _, _ => none
  | fuel + 1, h, entry =>
    match h.jointindexlow[h.jointindexswitch]?, h.jointindexhigh[h.jointindexswitch]? with
    | some low, some high =>
      if entry < UInt_t.ofInt low ∨ entry ≥ UInt_t.ofInt high then
        let sw := h.jointindexswitch + 1
        -- Loop Around
        let sw := if sw = h.jointindexlow.length then 0 else sw
        (NuHepMCInputHandler.GetInputWeight fuel { h with jointindexswitch := sw } entry).map
          fun r => (r.1, r.2.1, r.2.2 + 1)
      else
        (h.jointindexscale[h.jointindexswitch]?).map fun w => (h, w, 0)
    | _, _ => none

/-- Lines 216-232 of `GetNuisanceEvent`: the reader is brought to `entry`, from the start of
the file when the request lies behind the counter, and the counter is set to the entry after
it. -/
def NuHepMCInputHandler.seek (h : NuHepMCInputHandler) (entry : Nat) : NuHepMCInputHandler :=
  let ntoskip : Int := 0
  let (h, ntoskip) :=
    if h.nextentry ≠ entry then
      if h.nextentry > entry then
        -- start the file again
        ({ h with fReader := deduce_reader h.fFile, reopens := h.reopens + 1 }, toInt32 entry)
      else (h, toInt32 (entry - h.nextentry))
    else (h, ntoskip)
  let h :=
    if ntoskip ≠ 0 then
      { h with fReader := h.fReader.skip ntoskip, skipped := ntoskip :: h.skipped }
    else h
  { h with nextentry := (entry + 1) % UInt_t.size }

/-- Lines 214-253. The result is absent only when the joint-input lookup gives none; the
returned event is `none` for the null pointer. -/
def NuHepMCInputHandler.GetNuisanceEvent (fuel : Nat) (h : NuHepMCInputHandler) (entry : Nat) :
    Option (NuHepMCInputHandler × Option FitEvent) :=
  let h := h.seek entry
  let (r, e) := h.fReader.read_event
  let h := { h with fReader := r, fHepMC3Evt := e.getD h.fHepMC3Evt }
  -- Catch too large entries
  if h.fReader.failed then some (h, none)
  else
    -- Setup Input scaling for joint inputs
    let weighted : Option NuHepMCInputHandler :=
      if h.jointinput then
        (h.GetInputWeight fuel entry).map fun r =>
          { r.1 with fNUISANCEEvent := { r.1.fNUISANCEEvent with InputWeight := r.2.1 } }
      else some { h with fNUISANCEEvent := { h.fNUISANCEEvent with InputWeight := 1 } }
    weighted.map fun h =>
      let h := { h with fNUISANCEEvent := CalcNUISANCEKinematics h.fNUISANCEEvent h.fHepMC3Evt }
      (h, some h.fNUISANCEEvent)

/-- Lines 335-340. -/
def NuHepMCInputHandler.GetBaseEvent (fuel : Nat) (h : NuHepMCInputHandler) (entry : Nat) :
    Option (NuHepMCInputHandler × Option FitEvent) :=
  if entry ≥ UInt_t.ofInt h.fNEvents then some (h, none)
  else h.GetNuisanceEvent fuel entry

/-! ## The particle stack as the claims word it -/

/-- Status codes the stack builder recognises: 1, 4, 11 and 21. -/
def recognisedStatus (p : GenParticle) : Bool :=
  decide (p.status = 1 ∨ p.status = 4 ∨ p.status = 11 ∨ p.status = 21)

/-- The role of a recognised status code: 4 and 21 are InitialState, 11 is NuclearInitial and
1 is FinalState. -/
def roleOfStatus (status : Int) : ParticleState :=
  if status = 4 ∨ status = 21 then ParticleState.kInitialState
  else if status = 11 then ParticleState.kNuclearInitial
  else ParticleState.kFinalState

/-- The record a kept particle is mapped to: its role, its particle-type code and its
four-momentum as they stand in the source, and whether its production vertex is primary. -/
def keptRecord (p : GenParticle) : ParticleRecord :=
  { fPrimaryVertex := decide (p.production_vertex_status = 1)
    fParticleMom := p.momentum
    fParticlePDG := p.pid
    fParticleState := roleOfStatus p.status }

/-- The source event with every particle of unrecognised status removed. -/
def HepMC3.GenEvent.withoutUnrecognised (evt : GenEvent) : GenEvent :=
  { evt with particles := evt.particles.filter recognisedStatus }

/-- A final-state particle (status 1) at rest; the type code is that of a neutron. -/
def undecayedParticle : GenParticle :=
  { status := 1, pid := 2112, momentum := { px := 0, py := 0, pz := 0, e := 0 },
    production_vertex_status := 1 }

/-- A raw event with one more undecayed physical particle than the particle arrays of the
internal event have slots. -/
def overfullEvent (kMaxParticles : Nat) : GenEvent :=
  { ProcID := 1, event_number := 0
    particles := List.replicate (kMaxParticles + 1) undecayedParticle
    cross_section := none, weights := [] }

/-! ## The normalization as the claims word it -/

/-- The per-event cross-section value (`xsecs()[0]`) of the last event of the list that
carries a cross-section record; absent when no event carries one. -/
def lastCrossSection (events : List GenEvent) : Option ℚ :=
  ((events.filterMap GenEvent.cross_section).getLast?).map fun xs => xs.xsecs.headD 0

/-- The run metadata declares the list `cs` of conventions: its attribute
`NuHepMC.Conventions` is a string vector with that value. -/
def declaresConventions (ri : GenRunInfo) (cs : List String) : Prop :=
  ri.payload "NuHepMC.Conventions" = some (Attribute.VectorStringAttribute cs)

/-- The run metadata carries the flux-averaged total cross section `X` as a double. -/
def declaresFATX (ri : GenRunInfo) (X : ℚ) : Prop :=
  ri.payload "NuHepMC.FluxAveragedTotalCrossSection" = some (Attribute.DoubleAttribute X)

/-- The run metadata of the file can be read by the constructor: it is present, carries a
convention list, and carries the flux-averaged total cross section when the list declares
G.C.4. -/
def readableMetadata (file : File) : Prop :=
  ∃ ri cs, file.run_info = some ri ∧ declaresConventions ri cs ∧
    ("G.C.4" ∈ cs → ∃ X, declaresFATX ri X)

/-! ## Sample inputs -/

/-- An event object with every member zero and an empty stack, with arrays of 400 slots. -/
def FitEvent.blank : FitEvent :=
  { kMaxParticles := 400
    Mode := 0, fEventNo := 0, fTargetA := 0, fTargetZ := 0, fTargetH := 0, fBound := false
    InputWeight := 0, fNParticles := 0
    fPrimaryVertex := fun _ => false
    fParticleMom := fun _ => { px := 0, py := 0, pz := 0, e := 0 }
    fParticlePDG := fun _ => 0
    fParticleState := fun _ => ParticleState.kUndefinedState
    written := [] }

/-- A charged-current event on carbon: beam neutrino, target nucleus, struck neutron, an
internal particle of status 3, and a muon and a proton in the final state. -/
def sampleParticles : List GenParticle :=
  [ { status := 4, pid := 14, momentum := { px := 0, py := 0, pz := 1000, e := 1000 },
      production_vertex_status := 0 },
    { status := 11, pid := 1000060120, momentum := { px := 0, py := 0, pz := 0, e := 11175 },
      production_vertex_status := 0 },
    { status := 21, pid := 2112, momentum := { px := 10, py := 0, pz := 0, e := 940 },
      production_vertex_status := 2 },
    { status := 3, pid := 2212, momentum := { px := 5, py := 5, pz := 5, e := 939 },
      production_vertex_status := 1 },
    { status := 1, pid := 13, momentum := { px := 100, py := 0, pz := 700, e := 715 },
      production_vertex_status := 1 },
    { status := 1, pid := 2212, momentum := { px := -90, py := 0, pz := 300, e := 990 },
      production_vertex_status := 1 } ]

/-- The sample event with a given event number and per-event cross-section estimate. -/
def sampleEvent (event_number : Int) (xs : Option ℚ) : GenEvent :=
  { ProcID := 200, event_number := event_number, particles := sampleParticles
    cross_section := xs.map fun x => { xsecs := [x] }
    weights := [2] }

/-- Run metadata with a convention list, possibly a flux-averaged total cross section, and
weight names. -/
def sampleRunInfo (cs : List String) (fatx : Option ℚ) (names : List String) : GenRunInfo :=
  { attributes := ("NuHepMC.Conventions", Attribute.VectorStringAttribute cs) ::
      (fatx.toList.map fun x =>
        ("NuHepMC.FluxAveragedTotalCrossSection", Attribute.DoubleAttribute x))
    weight_names := names }

/-- Surroundings in which exactly one path can be opened. -/
def singleFileEnv (path : String) (file : File) : Env :=
  { MAXEVENTS := -1
    files := fun p => if p = path then some file else none
    newFitEvent := FitEvent.blank }

/-- A file of three events declaring the precomputed cross section 7/2 and the running
estimate. -/
def fileWithFATX : File :=
  { run_info := some (sampleRunInfo ["G.C.1", "G.C.4", "E.C.4"] (some (7 / 2)) ["CV"])
    events := [sampleEvent 0 (some 3), sampleEvent 1 none, sampleEvent 2 (some 4)] }

/-- A file of three events declaring only the running estimate, with one weight name. -/
def fileWithEstimate : File :=
  { run_info := some (sampleRunInfo ["E.C.4"] none ["CV"])
    events := [sampleEvent 0 (some 3), sampleEvent 1 (some 4), sampleEvent 2 none] }

/-- A file of one event declaring only the running estimate, without any weight name. -/
def fileWithoutWeightNames : File :=
  { run_info := some (sampleRunInfo ["E.C.4"] none [])
    events := [sampleEvent 0 (some 5)] }

/-- A file of two events declaring neither normalization convention. -/
def fileWithoutNormalization : File :=
  { run_info := some (sampleRunInfo ["G.C.1", "E.C.5"] none ["CV"])
    events := [sampleEvent 0 (some 3), sampleEvent 1 none] }

/-! ## Sequences of requests -/

/-- Serve the requests of a list in order with `GetNuisanceEvent`, collecting the returned
pointers (`none` for null). -/
def NuHepMCInputHandler.serve (fuel : Nat) :
    NuHepMCInputHandler → List Nat → Option (NuHepMCInputHandler × List (Option FitEvent))
  | h, [] => some (h, [])
  | h, entry :: rest =>
    match h.GetNuisanceEvent fuel entry with
    | none => none
    | some (h1, r) =>
      match NuHepMCInputHandler.serve fuel h1 rest with
      | none => none
      | some (h2, rs) => some (h2, r :: rs)

/-- The reader of the handler is in step with the request counter: it reads the handler's
file, it is positioned at `nextentry` unless it has failed, and it has failed only after a
request beyond the last event. Handlers in this state do not use joint inputs. -/
structure NuHepMCInputHandler.InStep (h : NuHepMCInputHandler) : Prop where
  reader_file : h.fReader.file = h.fFile
  no_joint : h.jointinput = false
  position : h.fReader.failed = false → h.fReader.pos = h.nextentry
  beyond : h.fReader.failed = true → h.fFile.events.length < h.nextentry

/-- The event `GetNuisanceEvent` hands out for a raw event when joint inputs are off. -/
def NuHepMCInputHandler.built (h : NuHepMCInputHandler) (evt : GenEvent) : FitEvent :=
  CalcNUISANCEKinematics { h.fNUISANCEEvent with InputWeight := 1 } evt

/-- A file of two events without any normalization convention. -/
def fileOfTwo : File :=
  { run_info := some (sampleRunInfo ["G.C.1"] none ["CV"])
    events := [sampleEvent 0 none, sampleEvent 1 none] }

/-- Surroundings with two input files: `a.hepmc3` holds the three events of
`fileWithEstimate`, `b.hepmc3` the two events of `fileOfTwo`. -/
def twoFileEnv : Env :=
  { MAXEVENTS := -1
    files := fun p =>
      if p = "a.hepmc3" then some fileWithEstimate
      else if p = "b.hepmc3" then some fileOfTwo
      else none
    newFitEvent := FitEvent.blank }

/-! ## The joint index table as the claims word it -/

/-- The table of bounds and scales is non-empty and its ranges `[low, high)` partition
`[0, total)` contiguously: the first range starts at 0, each range starts where the one
before it ends, no range ends before it starts, and the last range ends at `total`. -/
structure PartitionsIndexSpace (low high : List Int) (scale : List ℚ) (total : Nat) :
    Prop where
  nonempty : 0 < low.length
  length_high : high.length = low.length
  length_scale : scale.length = low.length
  first : low[0]? = some 0
  last : high[low.length - 1]? = some (total : Int)
  contiguous : ∀ i, i + 1 < low.length → high[i]? = low[i + 1]?
  ordered : ∀ (i : Nat) (l u : Int), low[i]? = some l → high[i]? = some u → l ≤ u

/-- The number of cursor advances from position `sw` to the sub-file `j`, wrapping to 0 after
the last of `n` sub-files. -/
def cursorDistance (n j sw : Nat) : Nat :=
  if sw ≤ j then j - sw else j + n - sw

/-- A handler with a joint index table, the cursor at `sw`; every other member is blank. -/
def jointHandler (low high : List Int) (scale : List ℚ) (sw : Nat) : NuHepMCInputHandler :=
  { fName := "joint", fMaxEvents := -1, jointinput := true, jointindexswitch := sw
    jointindexlow := low, jointindexhigh := high, jointindexscale := scale
    fFilename := "", fFile := { run_info := none, events := [] }
    fReader := deduce_reader { run_info := none, events := [] }
    fHepMC3Evt := GenEvent.empty, frun_info := none, fNEvents := 0, nextentry := 0
    fEventHist := TH1D.new 10, fFluxHist := TH1D.new 10
    fNUISANCEEvent := FitEvent.blank, reopens := 0, skipped := [] }

/-- The joint handler for sub-files of sizes 10, 5 and 20 with scales 1/2, 1/3 and 1/6. -/
def sampleJointHandler (sw : Nat) : NuHepMCInputHandler :=
  jointHandler [0, 10, 15] [10, 15, 35] [1 / 2, 1 / 3, 1 / 6] sw

/-! ## What a consumer sees of an event -/

/-- The target members of an event: mass number, charge, H and the bound flag. -/
def FitEvent.targetFields (ev : FitEvent) : Int × Int × Int × Bool :=
  (ev.fTargetA, ev.fTargetZ, ev.fTargetH, ev.fBound)

/-- The members two events are compared by: mode, event number, target members, input weight
and particle list. -/
def FitEvent.observed (ev : FitEvent) :
    Int × Int × (Int × Int × Int × Bool) × ℚ × List ParticleRecord :=
  (ev.Mode, ev.fEventNo, ev.targetFields, ev.InputWeight, ev.particleList)

/-- The effect of one source particle on the target members (lines 273-280). -/
def targetStep (t : Int × Int × Int × Bool) (p : GenParticle) : Int × Int × Int × Bool :=
  if p.status = NuHepMC.ParticleStatus.kIncomingBeamParticle then t
  else if p.status = NuHepMC.ParticleStatus.kTargetParticle then
    ((p.pid.tdiv 10).tmod 1000, (p.pid.tdiv 10000).tmod 1000, 0, decide (p.pid = 1000010010))
  else t

/-! ## The target nucleus as the claims word it -/

/-- The nuclear particle-type code `1000000000 + L*10000000 + Z*10000 + A*10 + I`. -/
def nuclearCode (L Z A I : Int) : Int :=
  1000000000 + L * 10000000 + Z * 10000 + A * 10 + I

/-- The sample event followed by a second target particle, oxygen, and a pion. -/
def eventWithTwoTargets : GenEvent :=
  { sampleEvent 0 none with
    particles := sampleParticles ++
      [ { status := 11, pid := 1000080160, momentum := { px := 0, py := 0, pz := 0, e := 14895 },
          production_vertex_status := 0 },
        { status := 1, pid := 211, momentum := { px := 1, py := 2, pz := 3, e := 140 },
          production_vertex_status := 1 } ] }

/-! ## The input list as the claims word it -/

/-- The wrapping parentheses stripped from the whole string: a string that starts with `(`
and ends with `)` loses both, any other string is left as it is. -/
def stripWrapping (raw : String) : String :=
  if raw.data.head? = some '(' ∧ raw.data.getLast? = some ')' then
    String.mk (raw.data.drop 1).dropLast
  else raw

/-- The list of inputs as the specification words it: the wrapping parentheses are stripped
from the whole string, which is then split at commas. -/
def stripThenSplit (rawinputs : String) : List String :=
  GeneralUtils.ParseToStr (stripWrapping rawinputs) ','

/-- A leading `(` removed from a character sequence, when there is one. -/
def dropOpen : List Char → List Char
  | '(' :: cs => cs
  | cs => cs

/-- A trailing `)` removed from a character sequence, when there is one. -/
def dropClose (cs : List Char) : List Char :=
  if cs.getLast? = some ')' then cs.dropLast else cs

/-- The list of inputs when a leading `(` and a trailing `)` are removed from the whole
string, each on its own when present, before the string is split at commas. -/
def stripEachThenSplit (rawinputs : String) : List String :=
  GeneralUtils.ParseToStr (String.mk (dropClose (dropOpen rawinputs.data))) ','

/-! ## Answers to requests as the claims word them -/

/-- The answer expected for a request of index `k`: the event built from the `k`-th event of
the file (on some destination event with input weight 1) when there is one, the null pointer
otherwise. -/
def answersIndex (file : File) (k : Nat) (r : Option FitEvent) : Prop :=
  match file.events[k]? with
  | some evt =>
    ∃ dest : FitEvent, dest.InputWeight = 1 ∧ r = some (CalcNUISANCEKinematics dest evt)
  | none => r = none

/-- A file of one event whose run metadata carries no attribute at all. -/
def fileWithoutConventions : File :=
  { run_info := some { attributes := [], weight_names := ["CV"] }
    events := [sampleEvent 0 (some 3)] }

/-- A file of one event declaring G.C.4 and E.C.4 without the flux-averaged total cross
section. -/
def fileWithoutFATX : File :=
  { run_info := some (sampleRunInfo ["G.C.4", "E.C.4"] none ["CV"])
    events := [sampleEvent 0 (some 3)] }

/-! # Lemmas and theorems -/

/-! ## Lemmas on the particle loop -/

theorem kMaxParticles_storeParticle (ev : FitEvent) (p : GenParticle) (st : ParticleState) :
    (storeParticle ev p st).kMaxParticles = ev.kMaxParticles := by
  unfold storeParticle
  split_ifs <;> rfl

theorem fNParticles_storeParticle (ev : FitEvent) (p : GenParticle) (st : ParticleState) :
    (storeParticle ev p st).fNParticles = ev.fNParticles + 1 := by
  unfold storeParticle
  split_ifs <;> rfl

theorem written_storeParticle (ev : FitEvent) (p : GenParticle) (st : ParticleState) :
    (storeParticle ev p st).written = ev.fNParticles :: ev.written := by
  unfold storeParticle
  split_ifs <;> rfl

theorem length_particleList (ev : FitEvent) :
    ev.particleList.length = min ev.fNParticles ev.kMaxParticles := by
  simp [FitEvent.particleList]

theorem particleList_storeParticle (ev : FitEvent) (p : GenParticle) (st : ParticleState) :
    (storeParticle ev p st).particleList = (ev.particleList ++
      [({ fPrimaryVertex := decide (p.production_vertex_status = 1)
          fParticleMom := p.momentum
          fParticlePDG := p.pid
          fParticleState := st } : ParticleRecord)]).take ev.kMaxParticles := by
  by_cases hcap : ev.fNParticles < ev.kMaxParticles
  · rw [List.take_of_length_le (by simp [length_particleList]; omega)]
    unfold storeParticle
    rw [if_pos hcap]
    unfold FitEvent.particleList
    have h1 : min (ev.fNParticles + 1) ev.kMaxParticles = ev.fNParticles + 1 := by omega
    have h2 : min ev.fNParticles ev.kMaxParticles = ev.fNParticles := by omega
    simp only [h1, h2, List.range_succ, List.map_append, List.map_cons, List.map_nil]
    congr 1
    · apply List.map_congr_left
      intro i hi
      have hne : i ≠ ev.fNParticles := Nat.ne_of_lt (List.mem_range.mp hi)
      simp [FitEvent.slot, Function.update_noteq hne]
    · simp [FitEvent.slot, NuHepMC.VertexStatus.kPrimaryVertex]
  · rw [List.take_append_of_le_length (by rw [length_particleList]; omega),
      List.take_of_length_le (by rw [length_particleList]; omega)]
    unfold storeParticle
    rw [if_neg hcap]
    unfold FitEvent.particleList
    have h1 : min (ev.fNParticles + 1) ev.kMaxParticles = ev.kMaxParticles := by omega
    have h2 : min ev.fNParticles ev.kMaxParticles = ev.kMaxParticles := by omega
    simp only [h1, h2]
    rfl

theorem particleStep_unrecognised (ev : FitEvent) (p : GenParticle)
    (h : recognisedStatus p = false) : particleStep ev p = ev := by
  simp only [recognisedStatus, decide_eq_false_iff_not, not_or] at h
  obtain ⟨h1, h4, h11, h21⟩ := h
  simp [particleStep, NuHepMC.ParticleStatus.kIncomingBeamParticle,
    NuHepMC.ParticleStatus.kTargetParticle, NuHepMC.ParticleStatus.kStruckNucleon,
    NuHepMC.ParticleStatus.kUndecayedPhysicalParticle, h1, h4, h11, h21]

theorem particleList_withTarget (ev : FitEvent) (a z t : Int) (b : Bool) :
    ({ ev with fTargetA := a, fTargetZ := z, fTargetH := t, fBound := b } : FitEvent).particleList
      = ev.particleList := rfl

theorem particleStep_recognised (ev : FitEvent) (p : GenParticle)
    (h : recognisedStatus p = true) :
    (particleStep ev p).particleList =
        (ev.particleList ++ [keptRecord p]).take ev.kMaxParticles ∧
      (particleStep ev p).fNParticles = ev.fNParticles + 1 ∧
      (particleStep ev p).written = ev.fNParticles :: ev.written ∧
      (particleStep ev p).kMaxParticles = ev.kMaxParticles := by
  simp only [recognisedStatus, decide_eq_true_eq] at h
  unfold particleStep
  simp only [NuHepMC.ParticleStatus.kIncomingBeamParticle,
    NuHepMC.ParticleStatus.kTargetParticle, NuHepMC.ParticleStatus.kStruckNucleon,
    NuHepMC.ParticleStatus.kUndecayedPhysicalParticle]
  by_cases h4 : p.status = 4
  · rw [if_pos h4, particleList_storeParticle, fNParticles_storeParticle,
      written_storeParticle, kMaxParticles_storeParticle]
    exact ⟨by simp [keptRecord, roleOfStatus, h4], rfl, rfl, rfl⟩
  by_cases h11 : p.status = 11
  · rw [if_neg h4, if_pos h11, particleList_storeParticle, particleList_withTarget,
      fNParticles_storeParticle, written_storeParticle, kMaxParticles_storeParticle]
    exact ⟨by simp [keptRecord, roleOfStatus, h11], rfl, rfl, rfl⟩
  by_cases h21 : p.status = 21
  · rw [if_neg h4, if_neg h11, if_pos h21, particleList_storeParticle,
      fNParticles_storeParticle, written_storeParticle, kMaxParticles_storeParticle]
    exact ⟨by simp [keptRecord, roleOfStatus, h21], rfl, rfl, rfl⟩
  have h1 : p.status = 1 := by tauto
  rw [if_neg h4, if_neg h11, if_neg h21, if_pos h1, particleList_storeParticle,
    fNParticles_storeParticle, written_storeParticle, kMaxParticles_storeParticle]
  exact ⟨by simp [keptRecord, roleOfStatus, h1], rfl, rfl, rfl⟩

theorem take_take_append {α : Type} (k : Nat) (a b : List α) :
    (a.take k ++ b).take k = (a ++ b).take k := by
  induction a generalizing k with
  | nil => simp
  | cons x a ih =>
    cases k with
    | zero => simp
    | succ k => simp [ih]

theorem foldl_particleStep (ps : List GenParticle) (ev : FitEvent) :
    (ps.foldl particleStep ev).particleList =
        (ev.particleList ++ (ps.filter recognisedStatus).map keptRecord).take ev.kMaxParticles ∧
      (ps.foldl particleStep ev).fNParticles =
        ev.fNParticles + (ps.filter recognisedStatus).length ∧
      (ps.foldl particleStep ev).kMaxParticles = ev.kMaxParticles := by
  induction ps generalizing ev with
  | nil =>
    simp only [List.foldl_nil, List.filter_nil, List.map_nil, List.append_nil, List.length_nil,
      Nat.add_zero, and_true]
    rw [List.take_of_length_le]
    rw [length_particleList]
    omega
  | cons p ps ih =>
    simp only [List.foldl_cons]
    cases h : recognisedStatus p with
    | false =>
      rw [particleStep_unrecognised ev p h, List.filter_cons_of_neg (by simp [h])]
      exact ih ev
    | true =>
      obtain ⟨hl, hn, _, hk⟩ := particleStep_recognised ev p h
      rw [List.filter_cons_of_pos (by simp [h])]
      obtain ⟨ihl, ihn, ihk⟩ := ih (particleStep ev p)
      refine ⟨?_, ?_, ?_⟩
      · rw [ihl, hl, hk, take_take_append]; simp
      · rw [ihn, hn]; simp; omega
      · rw [ihk, hk]

theorem foldl_particleStep_filter (ps : List GenParticle) (ev : FitEvent) :
    (ps.filter recognisedStatus).foldl particleStep ev = ps.foldl particleStep ev := by
  induction ps generalizing ev with
  | nil => rfl
  | cons p ps ih =>
    cases h : recognisedStatus p with
    | false =>
      rw [List.filter_cons_of_neg (by simp [h]), List.foldl_cons,
        particleStep_unrecognised ev p h]
      exact ih ev
    | true =>
      rw [List.filter_cons_of_pos (by simp [h]), List.foldl_cons, List.foldl_cons]
      exact ih _

/-! ## Claims -/

theorem foldl_particleStep_written (ps : List GenParticle) (ev : FitEvent) :
    (ps.foldl particleStep ev).written =
      (List.range' ev.fNParticles (ps.filter recognisedStatus).length).reverse ++ ev.written := by
  induction ps generalizing ev with
  | nil => simp
  | cons p ps ih =>
    simp only [List.foldl_cons]
    cases h : recognisedStatus p with
    | false =>
      rw [particleStep_unrecognised ev p h, List.filter_cons_of_neg (by simp [h])]
      exact ih ev
    | true =>
      obtain ⟨_, hn, hw, _⟩ := particleStep_recognised ev p h
      rw [List.filter_cons_of_pos (by simp [h]), ih (particleStep ev p), hn, hw]
      simp [List.range'_succ]

theorem written_fillStack (ev : FitEvent) (evt : GenEvent) :
    (fillStack ev evt).written =
      (List.range' 0 (evt.particles.filter recognisedStatus).length).reverse := by
  unfold fillStack
  simp only []
  rw [foldl_particleStep_written]
  simp

theorem fNParticles_fillStack (ev : FitEvent) (evt : GenEvent) :
    (fillStack ev evt).fNParticles = (evt.particles.filter recognisedStatus).length := by
  unfold fillStack
  simp only []
  rw [(foldl_particleStep evt.particles _).2.1]
  simp

theorem particleList_fillStack (ev : FitEvent) (evt : GenEvent) :
    (fillStack ev evt).particleList =
      ((evt.particles.filter recognisedStatus).map keptRecord).take ev.kMaxParticles := by
  unfold fillStack
  simp only []
  rw [(foldl_particleStep evt.particles _).1]
  simp [FitEvent.particleList, FitEvent.ResetEvent]

theorem kept_overfullEvent (k : Nat) :
    (overfullEvent k).particles.filter recognisedStatus =
      List.replicate (k + 1) undecayedParticle := by
  unfold overfullEvent
  apply List.filter_eq_self.mpr
  intro a ha
  rw [List.eq_of_mem_replicate ha]
  decide

theorem fillStack_overfullEvent (ev : FitEvent) :
    (((overfullEvent ev.kMaxParticles).particles.filter recognisedStatus).map keptRecord).length
        = ev.kMaxParticles + 1 ∧
      (fillStack ev (overfullEvent ev.kMaxParticles)).particleList.length = ev.kMaxParticles ∧
      (fillStack ev (overfullEvent ev.kMaxParticles)).fNParticles = ev.kMaxParticles + 1 ∧
      ev.kMaxParticles ∈ (fillStack ev (overfullEvent ev.kMaxParticles)).written := by
  refine ⟨?_, ?_, ?_, ?_⟩
  · rw [kept_overfullEvent, List.length_map, List.length_replicate]
  · rw [particleList_fillStack, kept_overfullEvent, List.length_take, List.length_map,
      List.length_replicate]
    omega
  · rw [fNParticles_fillStack, kept_overfullEvent, List.length_replicate]
  · rw [written_fillStack, kept_overfullEvent, List.length_replicate, List.mem_reverse,
      List.mem_range'_1]
    omega

/-- C5 as stated fails: the event object with arrays of 400 slots and
the raw event of 401 undecayed physical particles. All 401 particles have a recognised status,
the count ends at 401 and a store is made at index 400, outside the arrays; the particle list
the arrays hold has 400 records and so is not the list of the 401 kept particles. -/
theorem C5_counterexample_overfull_event :
    FitEvent.blank.kMaxParticles = 400 ∧
      (((overfullEvent 400).particles.filter recognisedStatus).map keptRecord).length = 401 ∧
      (fillStack FitEvent.blank (overfullEvent 400)).particleList.length = 400 ∧
      (fillStack FitEvent.blank (overfullEvent 400)).particleList ≠
        ((overfullEvent 400).particles.filter recognisedStatus).map keptRecord ∧
      (fillStack FitEvent.blank (overfullEvent 400)).fNParticles = 401 ∧
      400 ∈ (fillStack FitEvent.blank (overfullEvent 400)).written := by
  obtain ⟨hkept, hlen, hcount, hw⟩ := fillStack_overfullEvent FitEvent.blank
  refine ⟨rfl, hkept, hlen, ?_, hcount, hw⟩
  intro h
  have h2 := congrArg List.length h
  have h3 : (400 : Nat) = 401 := hlen.symm.trans (h2.trans hkept)
  omega

/-- C5 (amended): for every raw generator event with no more particles of recognised status
than the particle arrays of the destination event have slots (and every prior content of that
event), the particle list filled by `CalcNUISANCEKinematics` before the final reordering is the
list of source particles with a status among 1, 4, 11, 21, in source order, each mapped to its
record (role from the status, type code and four-momentum as in the source); the filled event is
the same as for the source event without its unrecognised particles, and the stored count is the
number of kept particles. -/
theorem C5_fillStack_keeps_recognised (ev : FitEvent) (evt : GenEvent)
    (hcap : (evt.particles.filter recognisedStatus).length ≤ ev.kMaxParticles) :
    (fillStack ev evt).particleList = (evt.particles.filter recognisedStatus).map keptRecord ∧
      fillStack ev evt.withoutUnrecognised = fillStack ev evt ∧
      (fillStack ev evt).fNParticles = (evt.particles.filter recognisedStatus).length := by
  refine ⟨?_, ?_, ?_⟩
  · rw [particleList_fillStack, List.take_of_length_le (by simpa using hcap)]
  · unfold fillStack GenEvent.withoutUnrecognised
    simp only []
    exact foldl_particleStep_filter evt.particles _
  · unfold fillStack
    simp only []
    rw [(foldl_particleStep evt.particles _).2.1]
    simp

theorem C5_fillStack_keeps_recognised_witness :
    ((sampleEvent 7 none).particles.filter recognisedStatus).length ≤
        FitEvent.blank.kMaxParticles ∧
      (fillStack FitEvent.blank (sampleEvent 7 none)).particleList =
        ((sampleEvent 7 none).particles.filter recognisedStatus).map keptRecord ∧
      fillStack FitEvent.blank (sampleEvent 7 none).withoutUnrecognised =
        fillStack FitEvent.blank (sampleEvent 7 none) ∧
      (fillStack FitEvent.blank (sampleEvent 7 none)).fNParticles =
        ((sampleEvent 7 none).particles.filter recognisedStatus).length :=
  ⟨by decide, C5_fillStack_keeps_recognised FitEvent.blank (sampleEvent 7 none) (by decide)⟩

theorem length_orderedStack (l : List ParticleRecord) : (orderedStack l).length = l.length := by
  induction l with
  | nil => rfl
  | cons r l ih =>
    simp only [orderedStack, stateGroups, List.map_cons, List.map_nil, List.flatten_cons,
      List.flatten_nil, List.length_append, List.length_nil, List.filter_cons] at ih ⊢
    cases hs : r.fParticleState <;> simp at ih ⊢ <;> omega

theorem fNParticles_OrderStack (ev : FitEvent) : ev.OrderStack.fNParticles = ev.fNParticles :=
  rfl

theorem kMaxParticles_OrderStack (ev : FitEvent) :
    ev.OrderStack.kMaxParticles = ev.kMaxParticles := rfl

theorem kMaxParticles_calc (ev : FitEvent) (evt : GenEvent) :
    (CalcNUISANCEKinematics ev evt).kMaxParticles = ev.kMaxParticles := by
  unfold CalcNUISANCEKinematics fillStack
  simp only []
  rw [kMaxParticles_OrderStack, (foldl_particleStep evt.particles _).2.2]
  rfl

theorem written_OrderStack (ev : FitEvent) : ev.OrderStack.written = ev.written := rfl

/-- Within capacity the stack builder is safe: when the source event has at most
`kMaxParticles` particles of recognised status, the stored count stays within the capacity and
every store goes to a declared slot. -/
theorem stores_within_capacity (kMaxParticles : Nat) (ev : FitEvent) (evt : GenEvent)
    (h : (evt.particles.filter recognisedStatus).length ≤ kMaxParticles) :
    (CalcNUISANCEKinematics ev evt).fNParticles ≤ kMaxParticles ∧
      ∀ i ∈ (CalcNUISANCEKinematics ev evt).written, i < kMaxParticles := by
  unfold CalcNUISANCEKinematics
  rw [fNParticles_OrderStack, written_OrderStack, fNParticles_fillStack, written_fillStack]
  refine ⟨h, ?_⟩
  intro i hi
  simp only [List.mem_reverse, List.mem_range'_1] at hi
  omega

/-- C10 (the code departs from the claim): whatever the capacity `kMaxParticles` of the
particle arrays, for the raw event with `kMaxParticles + 1` undecayed physical particles
`CalcNUISANCEKinematics` leaves a stored count above the capacity and has stored a particle
record at slot `kMaxParticles`, the first index beyond the arrays. -/
theorem C10_overfull_event_overruns (kMaxParticles : Nat) (ev : FitEvent) :
    kMaxParticles < (CalcNUISANCEKinematics ev (overfullEvent kMaxParticles)).fNParticles ∧
      kMaxParticles ∈ (CalcNUISANCEKinematics ev (overfullEvent kMaxParticles)).written := by
  have hk : ((overfullEvent kMaxParticles).particles.filter recognisedStatus).length =
      kMaxParticles + 1 := by
    have : List.filter recognisedStatus (List.replicate (kMaxParticles + 1) undecayedParticle) =
        List.replicate (kMaxParticles + 1) undecayedParticle := by
      apply List.filter_eq_self.mpr
      intro a ha
      rw [List.eq_of_mem_replicate ha]
      decide
    simp [overfullEvent, this]
  unfold CalcNUISANCEKinematics
  rw [fNParticles_OrderStack, written_OrderStack, fNParticles_fillStack, written_fillStack, hk]
  refine ⟨Nat.lt_succ_self _, ?_⟩
  simp [List.mem_range'_1]

/-! ## Lemmas on attribute access -/

theorem mem_attribute_names_of_payload (ri : GenRunInfo) (name : String) (a : Attribute)
    (h : ri.payload name = some a) : name ∈ ri.attribute_names := by
  unfold GenRunInfo.payload at h
  unfold GenRunInfo.attribute_names
  generalize ri.attributes = l at h
  induction l with
  | nil => simp [List.lookup] at h
  | cons kv l ih =>
    obtain ⟨k, v⟩ := kv
    by_cases hk : name = k
    · simp [hk]
    · have hb : (name == k) = false := by simpa using hk
      simp only [List.lookup, hb] at h
      simp [ih h]

theorem signalsConvention_of_declares (ri : GenRunInfo) (cs : List String) (c : String)
    (h : declaresConventions ri cs) :
    NuHepMC.SignalsConvention (some ri) c = Except.ok (decide (c ∈ cs)) := by
  have hmem := mem_attribute_names_of_payload ri _ _ h
  unfold declaresConventions at h
  simp only [NuHepMC.SignalsConvention, NuHepMC.CheckedAttributeValue, NuHepMC.HasAttribute,
    hmem, decide_True, Bool.not_true, h, Option.bind_some, Attribute.asVectorString]
  simp only [Bool.false_eq_true, ↓reduceIte, bind, Except.bind, pure, Except.pure,
    Option.some_bind]
  congr 1
  rw [Bool.eq_iff_iff]
  simp only [List.any_eq_true, decide_eq_true_eq]
  exact ⟨fun ⟨_, hx, hxc⟩ => hxc ▸ hx, fun hc => ⟨c, hc, rfl⟩⟩

theorem checkedFATX_of_declares (ri : GenRunInfo) (X : ℚ) (h : declaresFATX ri X) :
    NuHepMC.CheckedAttributeValue Attribute.asDouble (some ri)
      "NuHepMC.FluxAveragedTotalCrossSection" = Except.ok X := by
  have hmem := mem_attribute_names_of_payload ri _ _ h
  unfold declaresFATX at h
  simp [NuHepMC.CheckedAttributeValue, NuHepMC.HasAttribute, hmem, h, Attribute.asDouble]

/-! ## Lemmas on the pre-scan -/

theorem lastCrossSection_cons (e : GenEvent) (es : List GenEvent) (b : ℚ) :
    (lastCrossSection (e :: es)).getD b =
      (lastCrossSection es).getD ((e.cross_section.map fun xs => xs.xsecs.headD 0).getD b) := by
  unfold lastCrossSection
  cases hx : e.cross_section with
  | none => simp [List.filterMap_cons, hx]
  | some xs =>
    simp only [List.filterMap_cons, hx, Option.map_some', Option.getD_some]
    cases hl : List.filterMap GenEvent.cross_section es with
    | nil => simp
    | cons y ys =>
      rw [List.getLast?_cons_cons]
      cases hg : (y :: ys).getLast? with
      | none => simp at hg
      | some z => simp

theorem wrapInt32_idem (x : Int) : wrapInt32 (wrapInt32 x) = wrapInt32 x := by
  unfold wrapInt32; omega

theorem wrapInt32_add (a b : Int) : wrapInt32 (wrapInt32 a + b) = wrapInt32 (a + b) := by
  unfold wrapInt32; omega

theorem wrapInt32_of_lt (n : Nat) (h : n < 2 ^ 31) : wrapInt32 (n : Int) = (n : Int) := by
  unfold wrapInt32; omega

theorem read_event_of_lt (r : Reader) (e : GenEvent) (hf : r.failed = false)
    (he : r.file.events[r.pos]? = some e) :
    r.read_event = ({ r with pos := r.pos + 1 }, some e) := by
  simp [Reader.read_event, hf, he]

theorem read_event_of_ge (r : Reader) (hf : r.failed = false)
    (he : r.file.events.length ≤ r.pos) :
    r.read_event = ({ r with failed := true }, none) := by
  have : r.file.events[r.pos]? = none := List.getElem?_eq_none he
  simp [Reader.read_event, hf, this]

theorem runningEstimate_fields (s : ScanState) :
    (runningEstimate s).fReader = s.fReader ∧ (runningEstimate s).fHepMC3Evt = s.fHepMC3Evt ∧
      (runningEstimate s).frun_info = s.frun_info ∧
      (runningEstimate s).has_running_xsec_estimate = s.has_running_xsec_estimate ∧
      (runningEstimate s).has_FATX = s.has_FATX ∧
      (runningEstimate s).to_1em38_cm2 = s.to_1em38_cm2 ∧
      (runningEstimate s).NWeights = s.NWeights ∧ (runningEstimate s).fNEvents = s.fNEvents := by
  unfold runningEstimate
  cases h1 : s.has_running_xsec_estimate with
  | false => simp [h1]
  | true =>
    cases h2 : s.fHepMC3Evt.cross_section with
    | none => simp [h1]
    | some xs =>
      by_cases h : s.NWeights > 0
      · simp only [↓reduceIte, h]; simp [h1]
      · simp only [↓reduceIte, h]; simp [h1]

theorem runningEstimate_best (s : ScanState) :
    (runningEstimate s).best_xs_estimate =
      if s.has_running_xsec_estimate = true ∧ 0 < s.NWeights then
        (s.fHepMC3Evt.cross_section.map fun xs => xs.xsecs.headD 0).getD s.best_xs_estimate
      else s.best_xs_estimate := by
  unfold runningEstimate
  cases h1 : s.has_running_xsec_estimate with
  | false => simp
  | true =>
    cases h2 : s.fHepMC3Evt.cross_section with
    | none => simp
    | some xs =>
      by_cases h : s.NWeights > 0
      · simp only [↓reduceIte, h]; simp [h]
      · simp only [↓reduceIte, h]; simp [h]

/-- The loop body once the run metadata is known: count the event and update the estimate. -/
theorem scanLoop_succ_known (fuel : Nat) (s : ScanState) (e : GenEvent)
    (hf : s.fReader.failed = false) (he : s.fReader.file.events[s.fReader.pos]? = some e)
    (hri : s.frun_info.isNone = false) :
    scanLoop (fuel + 1) s = scanLoop fuel (runningEstimate { s with
      fReader := { s.fReader with pos := s.fReader.pos + 1 }
      fHepMC3Evt := e
      fNEvents := wrapInt32 (s.fNEvents + 1) }) := by
  rw [scanLoop, if_neg (by simp [hf]), read_event_of_lt _ _ hf he]
  simp only [Option.getD_some, hf, Bool.not_false, ↓reduceIte, hri, Bool.false_eq_true]
  rfl

theorem scanLoop_succ_end (fuel : Nat) (s : ScanState)
    (hf : s.fReader.failed = false) (he : s.fReader.file.events.length ≤ s.fReader.pos) :
    scanLoop (fuel + 1) s = Except.ok { s with fReader := { s.fReader with failed := true } } := by
  rw [scanLoop, if_neg (by simp [hf]), read_event_of_ge _ hf he]
  simp

theorem scanLoop_known (file : File) :
    ∀ (fuel : Nat) (s : ScanState), s.fReader.file = file → s.fReader.failed = false →
      s.frun_info.isNone = false → s.fReader.pos ≤ file.events.length →
      file.events.length - s.fReader.pos < fuel → wrapInt32 s.fNEvents = s.fNEvents →
      ∃ t, scanLoop fuel s = Except.ok t ∧
        t.fNEvents =
          wrapInt32 (s.fNEvents + ((file.events.length - s.fReader.pos : Nat) : Int)) ∧
        t.frun_info = s.frun_info ∧ t.has_FATX = s.has_FATX ∧
        t.has_running_xsec_estimate = s.has_running_xsec_estimate ∧
        t.to_1em38_cm2 = s.to_1em38_cm2 ∧ t.NWeights = s.NWeights ∧
        t.best_xs_estimate =
          (if s.has_running_xsec_estimate = true ∧ 0 < s.NWeights then
            (lastCrossSection (file.events.drop s.fReader.pos)).getD s.best_xs_estimate
           else s.best_xs_estimate) := by
  intro fuel
  induction fuel with
  | zero => intro s _ _ _ _ h; omega
  | succ fuel ih =>
    intro s hfile hfail hri hpos hfuel hwrap
    by_cases hlt : s.fReader.pos < file.events.length
    · have hget : s.fReader.file.events[s.fReader.pos]? =
          some (file.events[s.fReader.pos]) := by
        rw [hfile]; exact List.getElem?_eq_getElem hlt
      have hdrop : file.events.drop s.fReader.pos =
          file.events[s.fReader.pos] :: file.events.drop (s.fReader.pos + 1) :=
        List.drop_eq_getElem_cons hlt
      rw [scanLoop_succ_known fuel s _ hfail hget hri]
      generalize hu : ({ s with
        fReader := { s.fReader with pos := s.fReader.pos + 1 }
        fHepMC3Evt := file.events[s.fReader.pos]
        fNEvents := wrapInt32 (s.fNEvents + 1) } : ScanState) = u
      have u1 : u.fReader = { s.fReader with pos := s.fReader.pos + 1 } := by rw [← hu]
      have u2 : u.fHepMC3Evt = file.events[s.fReader.pos] := by rw [← hu]
      have u3 : u.fNEvents = wrapInt32 (s.fNEvents + 1) := by rw [← hu]
      have u4 : u.frun_info = s.frun_info := by rw [← hu]
      have u5 : u.has_running_xsec_estimate = s.has_running_xsec_estimate := by rw [← hu]
      have u6 : u.has_FATX = s.has_FATX := by rw [← hu]
      have u7 : u.to_1em38_cm2 = s.to_1em38_cm2 := by rw [← hu]
      have u8 : u.NWeights = s.NWeights := by rw [← hu]
      have u9 : u.best_xs_estimate = s.best_xs_estimate := by rw [← hu]
      obtain ⟨e1, e2, e3, e4, e5, e6, e7, e8⟩ := runningEstimate_fields u
      have e9 := runningEstimate_best u
      obtain ⟨t, ht, h1, h2, h3, h4, h5, h6, h7⟩ := ih (runningEstimate u)
        (by rw [e1, u1]; exact hfile) (by rw [e1, u1]; exact hfail) (by rw [e3, u4]; exact hri)
        (by rw [e1, u1]; exact hlt) (by rw [e1, u1]; simp only []; omega)
        (by rw [e8, u3]; exact wrapInt32_idem _)
      refine ⟨t, ht, ?_, ?_, ?_, ?_, ?_, ?_, ?_⟩
      · rw [h1, e8, u3, e1, u1, wrapInt32_add]
        congr 1
        simp only []
        omega
      · rw [h2, e3, u4]
      · rw [h3, e5, u6]
      · rw [h4, e4, u5]
      · rw [h5, e6, u7]
      · rw [h6, e7, u8]
      · rw [h7, e4, e7, e9, e1, u1, u2, u5, u8, u9]
        by_cases hc : s.has_running_xsec_estimate = true ∧ 0 < s.NWeights
        · simp only [if_pos hc, hdrop, lastCrossSection_cons]
        · simp only [if_neg hc]
    · have hge : s.fReader.file.events.length ≤ s.fReader.pos := by rw [hfile]; omega
      rw [scanLoop_succ_end fuel s hfail hge]
      refine ⟨_, rfl, ?_, rfl, rfl, rfl, rfl, rfl, ?_⟩
      · have : file.events.length - s.fReader.pos = 0 := by omega
        simp [this, hwrap]
      · have : file.events.drop s.fReader.pos = [] := List.drop_eq_nil_of_le (by omega)
        simp [this, lastCrossSection]

theorem scanLoop_start (fuel : Nat) (file : File) (e : GenEvent) (rest : List GenEvent)
    (ri : GenRunInfo) (cs : List String) (hev : file.events = e :: rest)
    (hri : file.run_info = some ri) (hcs : declaresConventions ri cs) :
    scanLoop (fuel + 1) (ScanState.start file) = scanLoop fuel (runningEstimate
      { fReader := { file := file, pos := 1, failed := false }
        fHepMC3Evt := e
        frun_info := some ri
        has_running_xsec_estimate := decide ("E.C.4" ∈ cs)
        best_xs_estimate := 0
        has_FATX := decide ("G.C.4" ∈ cs)
        to_1em38_cm2 := if "E.C.5" ∈ cs then 100 else 1
        NWeights := ri.weight_names.length
        fNEvents := 1
        sum_of_weights := 0 }) := by
  have hget : (ScanState.start file).fReader.file.events[(ScanState.start file).fReader.pos]? =
      some e := by
    simp [ScanState.start, deduce_reader, hev]
  rw [scanLoop, if_neg (by simp [ScanState.start, deduce_reader]),
    read_event_of_lt _ _ (by simp [ScanState.start, deduce_reader]) hget]
  have hw : wrapInt32 1 = 1 := by decide
  simp only [ScanState.start, deduce_reader, Option.getD_some, Bool.not_false, ↓reduceIte,
    Option.isNone_none, captureRunInfo, hri, signalsConvention_of_declares ri cs _ hcs,
    bind, Except.bind, pure, Except.pure, Option.elim, zero_add, decide_eq_true_eq, hw]

theorem scanLoop_result (fuel : Nat) (file : File) (ri : GenRunInfo) (cs : List String)
    (hne : file.events ≠ []) (hri : file.run_info = some ri) (hcs : declaresConventions ri cs)
    (hfuel : file.events.length < fuel) :
    ∃ t, scanLoop fuel (ScanState.start file) = Except.ok t ∧
      t.fNEvents = wrapInt32 (file.events.length : Int) ∧ t.frun_info = some ri ∧
      t.has_FATX = decide ("G.C.4" ∈ cs) ∧
      t.has_running_xsec_estimate = decide ("E.C.4" ∈ cs) ∧
      t.to_1em38_cm2 = (if "E.C.5" ∈ cs then 100 else 1) ∧
      t.best_xs_estimate =
        (if "E.C.4" ∈ cs ∧ 0 < ri.weight_names.length then
          (lastCrossSection file.events).getD 0 else 0) := by
  obtain ⟨e, rest, hev⟩ := List.exists_cons_of_ne_nil hne
  obtain ⟨fuel, rfl⟩ : ∃ k, fuel = k + 1 := ⟨fuel - 1, by omega⟩
  rw [scanLoop_start fuel file e rest ri cs hev hri hcs]
  generalize hu : ({
    fReader := { file := file, pos := 1, failed := false }, fHepMC3Evt := e,
    frun_info := some ri, has_running_xsec_estimate := decide ("E.C.4" ∈ cs),
    best_xs_estimate := 0, has_FATX := decide ("G.C.4" ∈ cs),
    to_1em38_cm2 := if "E.C.5" ∈ cs then 100 else 1, NWeights := ri.weight_names.length,
    fNEvents := 1, sum_of_weights := 0 } : ScanState) = u
  have u1 : u.fReader = { file := file, pos := 1, failed := false } := by rw [← hu]
  have u2 : u.fHepMC3Evt = e := by rw [← hu]
  have u3 : u.fNEvents = 1 := by rw [← hu]
  have u4 : u.frun_info = some ri := by rw [← hu]
  have u5 : u.has_running_xsec_estimate = decide ("E.C.4" ∈ cs) := by rw [← hu]
  have u6 : u.has_FATX = decide ("G.C.4" ∈ cs) := by rw [← hu]
  have u7 : u.to_1em38_cm2 = if "E.C.5" ∈ cs then 100 else 1 := by rw [← hu]
  have u8 : u.NWeights = ri.weight_names.length := by rw [← hu]
  have u9 : u.best_xs_estimate = 0 := by rw [← hu]
  obtain ⟨e1, e2, e3, e4, e5, e6, e7, e8⟩ := runningEstimate_fields u
  have e9 := runningEstimate_best u
  have hlen : file.events.length = rest.length + 1 := by rw [hev]; rfl
  obtain ⟨t, ht, h1, h2, h3, h4, h5, h6, h7⟩ := scanLoop_known file fuel (runningEstimate u)
    (by rw [e1, u1]) (by rw [e1, u1]) (by rw [e3, u4]; rfl)
    (by rw [e1, u1]; simp only []; omega) (by rw [e1, u1]; simp only []; omega)
    (by rw [e8, u3]; rfl)
  refine ⟨t, ht, ?_, ?_, ?_, ?_, ?_, ?_⟩
  · rw [h1, e8, u3, e1, u1]
    congr 1
    simp only []
    omega
  · rw [h2, e3, u4]
  · rw [h3, e5, u6]
  · rw [h4, e4, u5]
  · rw [h5, e6, u7]
  · rw [h7, e4, e7, e9, e1, u1, u2, u5, u8, u9]
    simp only [decide_eq_true_eq]
    by_cases hc : "E.C.4" ∈ cs ∧ 0 < ri.weight_names.length
    · simp only [if_pos hc, hev, lastCrossSection_cons, List.drop_succ_cons, List.drop_zero]
    · simp only [if_neg hc]

theorem integral_single_bin (v : ℚ) : ((TH1D.new 10).SetBinContent 5 v).Integral = v := by
  simp [TH1D.Integral, TH1D.SetBinContent, TH1D.new, List.range_succ, Function.update]

theorem getBinContent_single_bin (v : ℚ) :
    ((TH1D.new 10).SetBinContent 5 v).GetBinContent 5 = v := by
  simp [TH1D.GetBinContent, TH1D.SetBinContent, TH1D.new]

/-! ## Lemmas on the constructor -/

theorem fatx_cm2_value (t : ScanState) (ri : GenRunInfo) (cs : List String) (X b : ℚ)
    (h2 : t.frun_info = some ri) (h3 : t.has_FATX = decide ("G.C.4" ∈ cs))
    (h4 : t.has_running_xsec_estimate = decide ("E.C.4" ∈ cs))
    (h5 : t.to_1em38_cm2 = (if "E.C.5" ∈ cs then 100 else 1)) (h6 : t.best_xs_estimate = b)
    (hX : "G.C.4" ∈ cs → declaresFATX ri X) :
    fatx_cm2 t = Except.ok
      (if "G.C.4" ∈ cs then X * (if "E.C.5" ∈ cs then 100 else 1)
       else if "E.C.4" ∈ cs then b * (if "E.C.5" ∈ cs then 100 else 1)
       else 1) := by
  unfold fatx_cm2
  rw [h3, h4, h5, h6, h2]
  by_cases hg : "G.C.4" ∈ cs
  · simp only [hg, decide_True, ↓reduceIte, checkedFATX_of_declares ri X (hX hg)]
    rfl
  · by_cases he : "E.C.4" ∈ cs
    · simp only [hg, he, decide_True, decide_False, ↓reduceIte, Bool.false_eq_true]
      rfl
    · simp only [hg, he, decide_False, ↓reduceIte, Bool.false_eq_true]
      rfl

theorem new_ok (fuel : Nat) (env : Env) (handle rawinputs path : String) (file : File)
    (ri : GenRunInfo) (cs : List String) (X : ℚ)
    (hpath : (formInputs rawinputs).head? = some path) (hfile : env.files path = some file)
    (hne : file.events ≠ []) (hri : file.run_info = some ri)
    (hcs : declaresConventions ri cs) (hX : "G.C.4" ∈ cs → declaresFATX ri X)
    (hfuel : file.events.length < fuel) :
    ∃ h, NuHepMCInputHandler.new fuel env handle rawinputs = Except.ok h ∧
      h.fNEvents = wrapInt32 (file.events.length : Int) ∧ h.nextentry = 0 ∧
      h.fReader = deduce_reader file ∧ h.fFile = file ∧ h.fFilename = path ∧
      h.jointinput = false ∧ h.reopens = 0 ∧ h.skipped = [] ∧
      h.fNUISANCEEvent = env.newFitEvent ∧ h.frun_info = some ri ∧
      h.fEventHist = (TH1D.new 10).SetBinContent 5
        (if "G.C.4" ∈ cs then X * (if "E.C.5" ∈ cs then 100 else 1)
         else if "E.C.4" ∈ cs then
           (if "E.C.4" ∈ cs ∧ 0 < ri.weight_names.length then
              (lastCrossSection file.events).getD 0 else 0) * (if "E.C.5" ∈ cs then 100 else 1)
         else 1) := by
  obtain ⟨t, ht, h1, h2, h3, h4, h5, h6⟩ := scanLoop_result fuel file ri cs hne hri hcs hfuel
  have hf := fatx_cm2_value t ri cs X _ h2 h3 h4 h5 h6 hX
  cases hres : NuHepMCInputHandler.new fuel env handle rawinputs with
  | error err =>
    unfold NuHepMCInputHandler.new at hres
    simp only [hpath, hfile, ht, h2, hf, bind, Except.bind, pure, Except.pure,
      Option.isNone_some, Bool.false_eq_true, ↓reduceIte] at hres
    cases hres
  | ok h =>
    unfold NuHepMCInputHandler.new at hres
    simp only [hpath, hfile, ht, h2, hf, bind, Except.bind, pure, Except.pure,
      Option.isNone_some, Bool.false_eq_true, ↓reduceIte, Except.ok.injEq] at hres
    subst hres
    exact ⟨_, rfl, h1, rfl, rfl, rfl, rfl, rfl, rfl, rfl, rfl, rfl, rfl⟩

/-! ## Claims on the normalization -/

/-- C2: for every input stream with at least one event whose run metadata declares the
convention G.C.4 with the flux-averaged total cross section `X` and does not declare E.C.5,
the constructor succeeds and the normalization it stores is exactly `X`: bin 5 of the event
histogram holds `X`, every other bin is empty and the integral is `X`, whatever the events
contain and whether or not E.C.4 is declared. -/
theorem C2_precomputed_cross_section (fuel : Nat) (env : Env) (handle rawinputs path : String)
    (file : File) (ri : GenRunInfo) (cs : List String) (X : ℚ)
    (hpath : (formInputs rawinputs).head? = some path) (hfile : env.files path = some file)
    (hne : file.events ≠ []) (hri : file.run_info = some ri)
    (hcs : declaresConventions ri cs) (hG : "G.C.4" ∈ cs) (hX : declaresFATX ri X)
    (hE5 : "E.C.5" ∉ cs) (hfuel : file.events.length < fuel) :
    ∃ h, NuHepMCInputHandler.new fuel env handle rawinputs = Except.ok h ∧
      h.fEventHist.GetBinContent 5 = X ∧
      (∀ bin, bin ≠ 5 → h.fEventHist.GetBinContent bin = 0) ∧
      h.GetNormalization = X := by
  obtain ⟨h, hnew, -, -, -, -, -, -, -, -, -, -, hh⟩ :=
    new_ok fuel env handle rawinputs path file ri cs X hpath hfile hne hri hcs (fun _ => hX) hfuel
  rw [if_pos hG, if_neg hE5, mul_one] at hh
  refine ⟨h, hnew, ?_, ?_, ?_⟩
  · rw [hh, getBinContent_single_bin]
  · intro bin hbin
    rw [hh]
    simp [TH1D.GetBinContent, TH1D.SetBinContent, TH1D.new, Function.update, hbin]
  · rw [NuHepMCInputHandler.GetNormalization, hh, integral_single_bin]

theorem C2_precomputed_cross_section_witness :
    ∃ h, NuHepMCInputHandler.new 4 (singleFileEnv "nu.hepmc3" fileWithFATX) "sample"
        "(nu.hepmc3)" = Except.ok h ∧
      h.fEventHist.GetBinContent 5 = 7 / 2 ∧
      (∀ bin, bin ≠ 5 → h.fEventHist.GetBinContent bin = 0) ∧
      h.GetNormalization = 7 / 2 :=
  C2_precomputed_cross_section 4 (singleFileEnv "nu.hepmc3" fileWithFATX) "sample"
    "(nu.hepmc3)" "nu.hepmc3" fileWithFATX
    (sampleRunInfo ["G.C.1", "G.C.4", "E.C.4"] (some (7 / 2)) ["CV"])
    ["G.C.1", "G.C.4", "E.C.4"] (7 / 2) (by decide) (by simp [singleFileEnv])
    (by simp [fileWithFATX]) rfl (by simp [declaresConventions, sampleRunInfo, GenRunInfo.payload, List.lookup])
    (by decide) (by simp [declaresFATX, sampleRunInfo, GenRunInfo.payload, List.lookup])
    (by decide) (by simp [fileWithFATX])

/-- C3 as stated fails: the file `fileWithoutWeightNames` declares only E.C.4, its single
event carries the cross-section value 5, no weight name is declared, and the constructor
stores the normalization 0, not 5. -/
theorem C3_counterexample_no_weight_names :
    declaresConventions (sampleRunInfo ["E.C.4"] none []) ["E.C.4"] ∧
      lastCrossSection fileWithoutWeightNames.events = some 5 ∧
      ∃ h, NuHepMCInputHandler.new 2 (singleFileEnv "nu.hepmc3" fileWithoutWeightNames) "sample"
          "nu.hepmc3" = Except.ok h ∧ h.GetNormalization = 0 ∧ h.GetNormalization ≠ 5 := by
  have hcs : declaresConventions (sampleRunInfo ["E.C.4"] none []) ["E.C.4"] := by
    simp [declaresConventions, sampleRunInfo, GenRunInfo.payload, List.lookup]
  refine ⟨hcs, ?_, ?_⟩
  · simp [lastCrossSection, fileWithoutWeightNames, sampleEvent]
  · obtain ⟨h, hnew, -, -, -, -, -, -, -, -, -, -, hh⟩ :=
      new_ok 2 (singleFileEnv "nu.hepmc3" fileWithoutWeightNames) "sample" "nu.hepmc3"
        "nu.hepmc3" fileWithoutWeightNames (sampleRunInfo ["E.C.4"] none []) ["E.C.4"] 0
        (by decide) (by simp [singleFileEnv]) (by simp [fileWithoutWeightNames]) rfl hcs
        (fun hg => absurd hg (by decide)) (by simp [fileWithoutWeightNames])
    have hn : h.GetNormalization = 0 := by
      rw [NuHepMCInputHandler.GetNormalization, hh, integral_single_bin]
      simp [sampleRunInfo]
    exact ⟨h, hnew, hn, by rw [hn]; norm_num⟩

/-- C3 (amended): for every input stream with at least one event whose run metadata declares
the convention E.C.4, neither G.C.4 nor E.C.5, and at least one weight name, the constructor
succeeds and the normalization it stores is the cross-section value of the last event of the
pre-scan that carries a cross-section record; the event weights do not enter it. -/
theorem C3_running_estimate (fuel : Nat) (env : Env) (handle rawinputs path : String)
    (file : File) (ri : GenRunInfo) (cs : List String) (x : ℚ)
    (hpath : (formInputs rawinputs).head? = some path) (hfile : env.files path = some file)
    (hri : file.run_info = some ri) (hcs : declaresConventions ri cs)
    (hE4 : "E.C.4" ∈ cs) (hG : "G.C.4" ∉ cs) (hE5 : "E.C.5" ∉ cs)
    (hw : ri.weight_names ≠ []) (hx : lastCrossSection file.events = some x)
    (hfuel : file.events.length < fuel) :
    ∃ h, NuHepMCInputHandler.new fuel env handle rawinputs = Except.ok h ∧
      h.fEventHist.GetBinContent 5 = x ∧ h.GetNormalization = x := by
  have hne : file.events ≠ [] := by
    intro hnil
    rw [hnil] at hx
    simp [lastCrossSection] at hx
  obtain ⟨h, hnew, -, -, -, -, -, -, -, -, -, -, hh⟩ :=
    new_ok fuel env handle rawinputs path file ri cs 0 hpath hfile hne hri hcs
      (fun hg => absurd hg hG) hfuel
  have hpos : 0 < ri.weight_names.length := List.length_pos.mpr hw
  rw [if_neg hG, if_pos hE4, if_pos ⟨hE4, hpos⟩, if_neg hE5, mul_one, hx,
    Option.getD_some] at hh
  refine ⟨h, hnew, ?_, ?_⟩
  · rw [hh, getBinContent_single_bin]
  · rw [NuHepMCInputHandler.GetNormalization, hh, integral_single_bin]

theorem C3_running_estimate_witness :
    ∃ h, NuHepMCInputHandler.new 4 (singleFileEnv "nu.hepmc3" fileWithEstimate) "sample"
        "nu.hepmc3" = Except.ok h ∧
      h.fEventHist.GetBinContent 5 = 4 ∧ h.GetNormalization = 4 :=
  C3_running_estimate 4 (singleFileEnv "nu.hepmc3" fileWithEstimate) "sample" "nu.hepmc3"
    "nu.hepmc3" fileWithEstimate (sampleRunInfo ["E.C.4"] none ["CV"]) ["E.C.4"] 4
    (by decide) (by simp [singleFileEnv]) rfl
    (by simp [declaresConventions, sampleRunInfo, GenRunInfo.payload, List.lookup])
    (by decide) (by decide) (by decide) (by simp [sampleRunInfo])
    (by simp [lastCrossSection, fileWithEstimate, sampleEvent])
    (by simp [fileWithEstimate])

/-- C4: for every input stream with at least one event whose run metadata declares a
convention list with neither G.C.4 nor E.C.4 in it, the constructor succeeds and the
normalization it stores is exactly 1, whatever the events, the weight names and the other
declared conventions (E.C.5 among them) are. -/
theorem C4_no_normalization (fuel : Nat) (env : Env) (handle rawinputs path : String)
    (file : File) (ri : GenRunInfo) (cs : List String)
    (hpath : (formInputs rawinputs).head? = some path) (hfile : env.files path = some file)
    (hne : file.events ≠ []) (hri : file.run_info = some ri)
    (hcs : declaresConventions ri cs) (hG : "G.C.4" ∉ cs) (hE4 : "E.C.4" ∉ cs)
    (hfuel : file.events.length < fuel) :
    ∃ h, NuHepMCInputHandler.new fuel env handle rawinputs = Except.ok h ∧
      h.fEventHist.GetBinContent 5 = 1 ∧ h.GetNormalization = 1 := by
  obtain ⟨h, hnew, -, -, -, -, -, -, -, -, -, -, hh⟩ :=
    new_ok fuel env handle rawinputs path file ri cs 0 hpath hfile hne hri hcs
      (fun hg => absurd hg hG) hfuel
  rw [if_neg hG, if_neg hE4] at hh
  refine ⟨h, hnew, ?_, ?_⟩
  · rw [hh, getBinContent_single_bin]
  · rw [NuHepMCInputHandler.GetNormalization, hh, integral_single_bin]

theorem C4_no_normalization_witness :
    ∃ h, NuHepMCInputHandler.new 3 (singleFileEnv "nu.hepmc3" fileWithoutNormalization)
        "sample" "nu.hepmc3" = Except.ok h ∧
      h.fEventHist.GetBinContent 5 = 1 ∧ h.GetNormalization = 1 :=
  C4_no_normalization 3 (singleFileEnv "nu.hepmc3" fileWithoutNormalization) "sample"
    "nu.hepmc3" "nu.hepmc3" fileWithoutNormalization
    (sampleRunInfo ["G.C.1", "E.C.5"] none ["CV"]) ["G.C.1", "E.C.5"]
    (by decide) (by simp [singleFileEnv]) (by simp [fileWithoutNormalization]) rfl
    (by simp [declaresConventions, sampleRunInfo, GenRunInfo.payload, List.lookup])
    (by decide) (by decide) (by simp [fileWithoutNormalization])

/-! ## Lemmas on serving -/

theorem toInt32_of_lt (n : Nat) (h : n < 2 ^ 31) : toInt32 n = (n : Int) := by
  unfold toInt32
  have h1 : n % 2 ^ 32 = n := Nat.mod_eq_of_lt (by omega)
  rw [h1, if_pos h]

/-- The three ways of seeking: the request is the next entry, lies ahead, or lies behind. -/
theorem seek_cases (h : NuHepMCInputHandler) (entry : Nat) :
    (h.nextentry = entry ∧ h.seek entry = { h with nextentry := (entry + 1) % UInt_t.size }) ∨
    (h.nextentry < entry ∧ h.seek entry =
      (if toInt32 (entry - h.nextentry) ≠ 0 then
        { h with
          fReader := h.fReader.skip (toInt32 (entry - h.nextentry))
          skipped := toInt32 (entry - h.nextentry) :: h.skipped
          nextentry := (entry + 1) % UInt_t.size }
      else { h with nextentry := (entry + 1) % UInt_t.size })) ∨
    (entry < h.nextentry ∧ h.seek entry =
      (if toInt32 entry ≠ 0 then
        { h with
          fReader := (deduce_reader h.fFile).skip (toInt32 entry)
          reopens := h.reopens + 1
          skipped := toInt32 entry :: h.skipped
          nextentry := (entry + 1) % UInt_t.size }
      else
        { h with
          fReader := deduce_reader h.fFile
          reopens := h.reopens + 1
          nextentry := (entry + 1) % UInt_t.size })) := by
  rcases Nat.lt_trichotomy h.nextentry entry with hlt | heq | hgt
  · right; left
    refine ⟨hlt, ?_⟩
    have h1 : h.nextentry ≠ entry := Nat.ne_of_lt hlt
    have h2 : ¬ h.nextentry > entry := by omega
    unfold NuHepMCInputHandler.seek
    simp only [h1, h2, ne_eq, not_false_eq_true, ↓reduceIte]
    split_ifs <;> rfl
  · left
    refine ⟨heq, ?_⟩
    unfold NuHepMCInputHandler.seek
    simp [heq]
  · right; right
    refine ⟨hgt, ?_⟩
    have h1 : h.nextentry ≠ entry := Nat.ne_of_gt hgt
    unfold NuHepMCInputHandler.seek
    simp only [h1, hgt, ne_eq, not_false_eq_true, ↓reduceIte, gt_iff_lt]
    split_ifs <;> rfl

theorem skip_fresh (file : File) (n : Nat) (hn : 0 < n) :
    (deduce_reader file).skip (n : Int) =
      if n < file.events.length then { file := file, pos := n, failed := false }
      else { file := file, pos := file.events.length, failed := true } := by
  have h0 : ¬ ((n : Int) ≤ 0) := by omega
  simp only [Reader.skip, deduce_reader, Bool.false_eq_true, ↓reduceIte, h0, Int.toNat_ofNat,
    zero_add]

theorem skip_forward (r : Reader) (n : Nat) (hn : 0 < n) (hf : r.failed = false) :
    r.skip (n : Int) =
      if r.pos + n < r.file.events.length then { r with pos := r.pos + n }
      else { r with pos := r.file.events.length, failed := true } := by
  have h0 : ¬ ((n : Int) ≤ 0) := by omega
  simp only [Reader.skip, hf, Bool.false_eq_true, ↓reduceIte, h0, Int.toNat_ofNat]

theorem skip_failed (r : Reader) (n : Int) (hf : r.failed = true) : r.skip n = r := by
  simp [Reader.skip, hf]

/-- Where seeking leaves a handler that is in step, for a request below `2 ^ 31`. -/
theorem seek_inStep (h : NuHepMCInputHandler) (entry : Nat) (hin : h.InStep)
    (he : entry < 2 ^ 31) :
    (h.seek entry).fFile = h.fFile ∧ (h.seek entry).fReader.file = h.fFile ∧
      (h.seek entry).jointinput = false ∧ (h.seek entry).fNEvents = h.fNEvents ∧
      (h.seek entry).fNUISANCEEvent = h.fNUISANCEEvent ∧
      (h.seek entry).nextentry = entry + 1 ∧
      (h.seek entry).reopens = h.reopens + (if h.nextentry > entry then 1 else 0) ∧
      (entry < h.fFile.events.length →
        (h.seek entry).fReader.failed = false ∧ (h.seek entry).fReader.pos = entry) ∧
      (h.fFile.events.length ≤ entry →
        (h.seek entry).fReader.failed = true ∨
          h.fFile.events.length ≤ (h.seek entry).fReader.pos) := by
  obtain ⟨hfile, hjoint, hpos, hbeyond⟩ := hin
  have hmod : (entry + 1) % UInt_t.size = entry + 1 := by
    unfold UInt_t.size; omega
  rcases seek_cases h entry with ⟨hc, hs⟩ | ⟨hc, hs⟩ | ⟨hc, hs⟩
  · rw [hs, hmod]
    refine ⟨rfl, hfile, hjoint, rfl, rfl, rfl, by simp [hc], ?_, ?_⟩
    · intro hlt
      cases hf : h.fReader.failed with
      | true => have := hbeyond hf; omega
      | false => exact ⟨rfl, by rw [hpos hf, hc]⟩
    · intro hge
      cases hf : h.fReader.failed with
      | true => exact Or.inl rfl
      | false => right; show _ ≤ h.fReader.pos; rw [hpos hf, hc]; exact hge
  · have hd : toInt32 (entry - h.nextentry) = ((entry - h.nextentry : Nat) : Int) :=
      toInt32_of_lt _ (by omega)
    have hne : toInt32 (entry - h.nextentry) ≠ 0 := by rw [hd]; omega
    rw [if_pos hne, hd] at hs
    rw [hs, hmod]
    have hnot : ¬ h.nextentry > entry := by omega
    refine ⟨rfl, ?_, hjoint, rfl, rfl, rfl, by simp [hnot], ?_, ?_⟩
    · show (h.fReader.skip _).file = _
      unfold Reader.skip; split_ifs <;> exact hfile
    · intro hlt
      cases hf : h.fReader.failed with
      | true => have := hbeyond hf; omega
      | false =>
        show (h.fReader.skip _).failed = false ∧ (h.fReader.skip _).pos = entry
        rw [skip_forward _ _ (by omega) hf, hfile, hpos hf]
        have : h.nextentry + (entry - h.nextentry) = entry := by omega
        rw [this, if_pos hlt]
        exact ⟨hf, rfl⟩
    · intro hge
      cases hf : h.fReader.failed with
      | true => left; show (h.fReader.skip _).failed = true; rw [skip_failed _ _ hf]; exact hf
      | false =>
        left
        show (h.fReader.skip _).failed = true
        rw [skip_forward _ _ (by omega) hf, hfile, hpos hf]
        have : h.nextentry + (entry - h.nextentry) = entry := by omega
        rw [this, if_neg (by omega)]
  · have hd : toInt32 entry = (entry : Int) := toInt32_of_lt _ he
    rw [hd] at hs
    by_cases h0 : entry = 0
    · subst h0
      rw [if_neg (by simp)] at hs
      rw [hs]
      refine ⟨rfl, rfl, hjoint, rfl, rfl, rfl, by simp [hc], ?_, ?_⟩
      · intro _; exact ⟨rfl, rfl⟩
      · intro hge; right; exact hge
    · rw [if_pos (by omega)] at hs
      rw [hs, hmod]
      refine ⟨rfl, ?_, hjoint, rfl, rfl, rfl, by simp [hc], ?_, ?_⟩
      · show ((deduce_reader h.fFile).skip _).file = _
        rw [skip_fresh _ _ (by omega)]; split_ifs <;> rfl
      · intro hlt
        show ((deduce_reader h.fFile).skip _).failed = false ∧ _ = entry
        rw [skip_fresh _ _ (by omega), if_pos hlt]
        exact ⟨rfl, rfl⟩
      · intro hge
        left
        show ((deduce_reader h.fFile).skip _).failed = true
        rw [skip_fresh _ _ (by omega), if_neg (by omega)]

/-- Reading after the seek when the reader delivers an event and joint inputs are off. -/
theorem getNuisanceEvent_read (fuel : Nat) (h : NuHepMCInputHandler) (entry : Nat)
    (evt : GenEvent) (hj : (h.seek entry).jointinput = false)
    (hf : (h.seek entry).fReader.failed = false)
    (hget : (h.seek entry).fReader.file.events[(h.seek entry).fReader.pos]? = some evt) :
    h.GetNuisanceEvent fuel entry = some
      ({ h.seek entry with
          fReader := { (h.seek entry).fReader with pos := (h.seek entry).fReader.pos + 1 }
          fHepMC3Evt := evt
          fNUISANCEEvent := (h.seek entry).built evt },
        some ((h.seek entry).built evt)) := by
  unfold NuHepMCInputHandler.GetNuisanceEvent
  simp only [read_event_of_lt _ _ hf hget, Option.getD_some, hf, hj, Bool.false_eq_true,
    ↓reduceIte, Option.map_some', NuHepMCInputHandler.built]

/-- Reading after the seek when the reader has nothing to deliver. -/
theorem getNuisanceEvent_end (fuel : Nat) (h : NuHepMCInputHandler) (entry : Nat)
    (hend : (h.seek entry).fReader.failed = true ∨
      (h.seek entry).fReader.file.events.length ≤ (h.seek entry).fReader.pos) :
    h.GetNuisanceEvent fuel entry = some
      ({ h.seek entry with fReader := { (h.seek entry).fReader with failed := true } },
        none) := by
  unfold NuHepMCInputHandler.GetNuisanceEvent
  cases hf : (h.seek entry).fReader.failed with
  | true =>
    have hr : (h.seek entry).fReader.read_event = ((h.seek entry).fReader, none) := by
      simp [Reader.read_event, hf]
    simp only [hr, Option.getD_none, hf, ↓reduceIte]
    congr 2
    cases hrd : (h.seek entry).fReader with
    | mk f p b => rw [hrd] at hf; simp only at hf; subst hf; rfl
  | false =>
    have hge := hend.resolve_left (by simp [hf])
    simp only [read_event_of_ge _ hf hge, Option.getD_none, ↓reduceIte]

/-- One request below `2 ^ 31` to a handler that is in step: the handler stays in step, the
event of that index is handed out when there is one and the null pointer otherwise, and a new
reader is created exactly when the request lies behind the counter. -/
theorem getNuisanceEvent_inStep (fuel : Nat) (h : NuHepMCInputHandler) (entry : Nat)
    (hin : h.InStep) (he : entry < 2 ^ 31) :
    ∃ g r, h.GetNuisanceEvent fuel entry = some (g, r) ∧ g.InStep ∧
      g.fFile = h.fFile ∧ g.fNEvents = h.fNEvents ∧ g.nextentry = entry + 1 ∧
      g.reopens = h.reopens + (if h.nextentry > entry then 1 else 0) ∧
      (∀ evt, h.fFile.events[entry]? = some evt →
        r = some (h.built evt) ∧ g.fNUISANCEEvent = h.built evt ∧ g.fReader.failed = false) ∧
      (h.fFile.events.length ≤ entry → r = none ∧ g.fNUISANCEEvent = h.fNUISANCEEvent) := by
  obtain ⟨s1, s2, s3, s4, s5, s6, s7, s8, s9⟩ := seek_inStep h entry hin he
  by_cases hlt : entry < h.fFile.events.length
  · obtain ⟨hf, hp⟩ := s8 hlt
    have hget : (h.seek entry).fReader.file.events[(h.seek entry).fReader.pos]? =
        some (h.fFile.events[entry]) := by
      rw [s2, hp]; exact List.getElem?_eq_getElem hlt
    have hb : (h.seek entry).built (h.fFile.events[entry]) = h.built (h.fFile.events[entry]) := by
      unfold NuHepMCInputHandler.built; rw [s5]
    refine ⟨_, _, getNuisanceEvent_read fuel h entry _ s3 hf hget, ?_, s1, s4, s6, s7, ?_, ?_⟩
    · exact ⟨s2.trans s1.symm, s3, fun _ => by show _ + 1 = _; rw [hp, s6],
        fun hc => by simp only [hf] at hc; cases hc⟩
    · intro evt hevt
      rw [List.getElem?_eq_getElem hlt] at hevt
      cases hevt
      exact ⟨by rw [hb], hb, hf⟩
    · intro hge; omega
  · have hge : h.fFile.events.length ≤ entry := by omega
    have hend : (h.seek entry).fReader.failed = true ∨
        (h.seek entry).fReader.file.events.length ≤ (h.seek entry).fReader.pos := by
      rw [s2]; exact s9 hge
    refine ⟨_, _, getNuisanceEvent_end fuel h entry hend, ?_, s1, s4, s6, s7, ?_, ?_⟩
    · exact ⟨s2.trans s1.symm, s3, fun hc => by simp at hc,
        fun _ => by
          show (h.seek entry).fFile.events.length < (h.seek entry).nextentry
          rw [s1, s6]; omega⟩
    · intro evt hevt
      rw [List.getElem?_eq_none hge] at hevt
      cases hevt
    · intro _; exact ⟨rfl, s5⟩

theorem serve_append (fuel : Nat) (h g k : NuHepMCInputHandler) (l1 l2 : List Nat)
    (rs1 rs2 : List (Option FitEvent)) (h1 : h.serve fuel l1 = some (g, rs1))
    (h2 : g.serve fuel l2 = some (k, rs2)) :
    h.serve fuel (l1 ++ l2) = some (k, rs1 ++ rs2) := by
  induction l1 generalizing h rs1 with
  | nil =>
    simp only [NuHepMCInputHandler.serve, Option.some.injEq, Prod.mk.injEq] at h1
    obtain ⟨rfl, rfl⟩ := h1
    simpa using h2
  | cons e l1 ih =>
    simp only [NuHepMCInputHandler.serve, List.cons_append] at h1 ⊢
    cases hg : h.GetNuisanceEvent fuel e with
    | none => simp [hg] at h1
    | some p =>
      obtain ⟨a, r⟩ := p
      simp only [hg] at h1 ⊢
      cases hs : a.serve fuel l1 with
      | none => simp [hs] at h1
      | some q =>
        obtain ⟨b, rs⟩ := q
        simp only [hs, Option.some.injEq, Prod.mk.injEq] at h1
        obtain ⟨rfl, rfl⟩ := h1
        have hi := ih a rs hs
        simp only [List.append_eq, hi, List.cons_append]

/-- Serving the entries `k, k + 1, ..., k + m - 1` in this order, starting with the counter
at `k`: every request hands out an event and no reader is created. -/
theorem serve_increasing (fuel : Nat) (m : Nat) :
    ∀ (k : Nat) (h : NuHepMCInputHandler), h.InStep → h.nextentry = k →
      k + m ≤ h.fFile.events.length → h.fFile.events.length < 2 ^ 31 →
      ∃ g rs, h.serve fuel (List.range' k m) = some (g, rs) ∧ g.InStep ∧
        g.fFile = h.fFile ∧ g.fNEvents = h.fNEvents ∧ g.nextentry = k + m ∧
        g.reopens = h.reopens ∧ rs.length = m ∧ ∀ r ∈ rs, ∃ ev, r = some ev := by
  induction m with
  | zero =>
    intro k h hin hk _ _
    exact ⟨h, [], rfl, hin, rfl, rfl, hk, rfl, rfl, by simp⟩
  | succ m ih =>
    intro k h hin hk hle hN
    obtain ⟨a, r, hg, ain, afile, aev, anext, areo, hsome, _⟩ :=
      getNuisanceEvent_inStep fuel h k hin (by omega)
    have hlt : k < h.fFile.events.length := by omega
    obtain ⟨hr, _, _⟩ := hsome _ (List.getElem?_eq_getElem hlt)
    obtain ⟨g, rs, hs, gin, gfile, gev, gnext, greo, glen, gall⟩ :=
      ih (k + 1) a ain anext (by rw [afile]; omega) (by rw [afile]; exact hN)
    refine ⟨g, r :: rs, ?_, gin, gfile.trans afile, gev.trans aev, by rw [gnext]; omega, ?_,
      by simp [glen], ?_⟩
    · simp only [List.range'_succ, NuHepMCInputHandler.serve, hg, hs]
    · rw [greo, areo, hk]; simp
    · intro x hx
      rcases List.mem_cons.mp hx with rfl | hx
      · exact ⟨_, hr⟩
      · exact gall x hx

theorem inStep_of_new (h : NuHepMCInputHandler) (file : File)
    (h1 : h.nextentry = 0) (h2 : h.fReader = deduce_reader file) (h3 : h.fFile = file)
    (h4 : h.jointinput = false) : h.InStep :=
  ⟨by rw [h2, h3]; rfl, h4, fun _ => by rw [h2, h1]; rfl, fun hf => by rw [h2] at hf; cases hf⟩

theorem ofInt_natCast (n : Nat) (h : n < 2 ^ 32) : UInt_t.ofInt (n : Int) = n := by
  unfold UInt_t.ofInt
  have : ((n : Int) % 2 ^ 32) = (n : Int) := Int.emod_eq_of_lt (by omega) (by omega)
  rw [this]
  simp

theorem getBaseEvent_beyond (fuel : Nat) (h : NuHepMCInputHandler) (n entry : Nat)
    (hn : h.fNEvents = (n : Int)) (h32 : n < 2 ^ 32) (hge : n ≤ entry) :
    h.GetBaseEvent fuel entry = some (h, none) := by
  unfold NuHepMCInputHandler.GetBaseEvent
  rw [hn, ofInt_natCast n h32, if_pos hge]

/-! ## Claims on serving -/

/-- C1 (amended): for every input stream that holds `N ≥ 1` events (below `2 ^ 31`, the range
of the event counter) and whose run metadata is readable (it carries a convention list, and the
flux-averaged total cross section when the list declares G.C.4), the constructor succeeds and
leaves `fNEvents = N`; requesting the entries `0, 1, ..., N` in order through
`GetNuisanceEvent` then returns an event for each of the first `N` requests and the null
pointer for entry `N`, and `GetBaseEvent(N)` returns the null pointer, right after construction
and after the read. -/
theorem C1_event_count_and_full_read (fuel sfuel : Nat) (env : Env)
    (handle rawinputs path : String) (file : File) (ri : GenRunInfo) (cs : List String) (X : ℚ)
    (hpath : (formInputs rawinputs).head? = some path) (hfile : env.files path = some file)
    (hne : file.events ≠ []) (hri : file.run_info = some ri)
    (hcs : declaresConventions ri cs) (hX : "G.C.4" ∈ cs → declaresFATX ri X)
    (hfuel : file.events.length < fuel) (hN : file.events.length < 2 ^ 31) :
    ∃ h, NuHepMCInputHandler.new fuel env handle rawinputs = Except.ok h ∧
      h.fNEvents = (file.events.length : Int) ∧
      h.GetBaseEvent sfuel file.events.length = some (h, none) ∧
      ∃ g rs, h.serve sfuel (List.range (file.events.length + 1)) = some (g, rs) ∧
        rs.length = file.events.length + 1 ∧
        (∀ i, i < file.events.length → ∃ ev, rs[i]? = some (some ev)) ∧
        rs[file.events.length]? = some none ∧
        g.GetBaseEvent sfuel file.events.length = some (g, none) := by
  obtain ⟨h, hnew, hcount, hnext, hreader, hhfile, -, hjoint, -, -, -, -, -⟩ :=
    new_ok fuel env handle rawinputs path file ri cs X hpath hfile hne hri hcs hX hfuel
  rw [wrapInt32_of_lt _ hN] at hcount
  have hin := inStep_of_new h file hnext hreader hhfile hjoint
  obtain ⟨a, rs, hs, ain, afile, aev, anext, -, alen, aall⟩ :=
    serve_increasing sfuel file.events.length 0 h hin hnext (by rw [hhfile]; omega)
      (by rw [hhfile]; exact hN)
  obtain ⟨g, r, hg, -, -, gev, -, -, -, hnone⟩ :=
    getNuisanceEvent_inStep sfuel a file.events.length ain hN
  obtain ⟨rfl, -⟩ := hnone (by rw [afile, hhfile])
  have hlast : a.serve sfuel [file.events.length] = some (g, [none]) := by
    simp only [NuHepMCInputHandler.serve, hg]
  have hall := serve_append sfuel h a g _ _ rs [none] hs hlast
  refine ⟨h, hnew, hcount, getBaseEvent_beyond sfuel h _ _ hcount (by omega) le_rfl, g,
    rs ++ [none], ?_, by simp [alen], ?_, ?_,
    getBaseEvent_beyond sfuel g _ _ (by rw [gev, aev, hcount]) (by omega) le_rfl⟩
  · rw [List.range_succ, List.range_eq_range']
    exact hall
  · intro i hi
    have hil : i < rs.length := by rw [alen]; exact hi
    obtain ⟨ev, hev⟩ := aall rs[i] (List.getElem_mem _)
    exact ⟨ev, by rw [List.getElem?_append_left hil, List.getElem?_eq_getElem hil, hev]⟩
  · rw [List.getElem?_append_right (by rw [alen]), alen]
    simp

theorem C1_event_count_and_full_read_witness :
    ∃ h, NuHepMCInputHandler.new 4 (singleFileEnv "nu.hepmc3" fileWithFATX) "sample"
        "(nu.hepmc3)" = Except.ok h ∧
      h.fNEvents = (fileWithFATX.events.length : Int) ∧
      h.GetBaseEvent 0 fileWithFATX.events.length = some (h, none) ∧
      ∃ g rs, h.serve 0 (List.range (fileWithFATX.events.length + 1)) = some (g, rs) ∧
        rs.length = fileWithFATX.events.length + 1 ∧
        (∀ i, i < fileWithFATX.events.length → ∃ ev, rs[i]? = some (some ev)) ∧
        rs[fileWithFATX.events.length]? = some none ∧
        g.GetBaseEvent 0 fileWithFATX.events.length = some (g, none) :=
  C1_event_count_and_full_read 4 0 (singleFileEnv "nu.hepmc3" fileWithFATX) "sample"
    "(nu.hepmc3)" "nu.hepmc3" fileWithFATX
    (sampleRunInfo ["G.C.1", "G.C.4", "E.C.4"] (some (7 / 2)) ["CV"])
    ["G.C.1", "G.C.4", "E.C.4"] (7 / 2) (by decide) (by simp [singleFileEnv])
    (by simp [fileWithFATX]) rfl
    (by simp [declaresConventions, sampleRunInfo, GenRunInfo.payload, List.lookup])
    (fun _ => by simp [declaresFATX, sampleRunInfo, GenRunInfo.payload, List.lookup])
    (by simp [fileWithFATX]) (by simp [fileWithFATX])

/-! ## Lemmas on arbitrary requests -/

theorem skip_file (r : Reader) (n : Int) : (r.skip n).file = r.file := by
  unfold Reader.skip; split_ifs <;> rfl

/-- What seeking leaves untouched, for any request. -/
theorem seek_frame (h : NuHepMCInputHandler) (entry : Nat) (hw : h.fReader.file = h.fFile) :
    (h.seek entry).fFile = h.fFile ∧ (h.seek entry).fReader.file = h.fFile ∧
      (h.seek entry).jointinput = h.jointinput ∧ (h.seek entry).fNEvents = h.fNEvents ∧
      (h.seek entry).fNUISANCEEvent = h.fNUISANCEEvent ∧
      (h.seek entry).nextentry = (entry + 1) % UInt_t.size := by
  rcases seek_cases h entry with ⟨_, hs⟩ | ⟨_, hs⟩ | ⟨_, hs⟩
  · rw [hs]; exact ⟨rfl, hw, rfl, rfl, rfl, rfl⟩
  · rw [hs]; split_ifs
    · exact ⟨rfl, (skip_file _ _).trans hw, rfl, rfl, rfl, rfl⟩
    · exact ⟨rfl, hw, rfl, rfl, rfl, rfl⟩
  · rw [hs]; split_ifs
    · exact ⟨rfl, skip_file _ _, rfl, rfl, rfl, rfl⟩
    · exact ⟨rfl, rfl, rfl, rfl, rfl, rfl⟩

/-- Any request to a handler without joint inputs returns, and leaves the file, the event
count and the joint-input switch as they were; the counter is the entry after the request,
modulo `2 ^ 32`. -/
theorem getNuisanceEvent_frame (fuel : Nat) (h : NuHepMCInputHandler) (entry : Nat)
    (hw : h.fReader.file = h.fFile) (hj : h.jointinput = false) :
    ∃ g r, h.GetNuisanceEvent fuel entry = some (g, r) ∧ g.fReader.file = g.fFile ∧
      g.jointinput = false ∧ g.fFile = h.fFile ∧ g.fNEvents = h.fNEvents ∧
      g.nextentry = (entry + 1) % UInt_t.size ∧ g.reopens = (h.seek entry).reopens ∧
      g.skipped = (h.seek entry).skipped := by
  obtain ⟨s1, s2, s3, s4, -, s6⟩ := seek_frame h entry hw
  by_cases hend : (h.seek entry).fReader.failed = true ∨
      (h.seek entry).fReader.file.events.length ≤ (h.seek entry).fReader.pos
  · exact ⟨_, _, getNuisanceEvent_end fuel h entry hend, s2.trans s1.symm, s3.trans hj, s1, s4,
      s6, rfl, rfl⟩
  · rw [not_or] at hend
    obtain ⟨hf, hp⟩ := hend
    have hf2 : (h.seek entry).fReader.failed = false := by simpa using hf
    have hlt : (h.seek entry).fReader.pos < (h.seek entry).fReader.file.events.length := by
      omega
    exact ⟨_, _, getNuisanceEvent_read fuel h entry _ (s3.trans hj) hf2
      (List.getElem?_eq_getElem hlt), s2.trans s1.symm, s3.trans hj, s1, s4, s6, rfl, rfl⟩

theorem serve_frame (fuel : Nat) (l : List Nat) :
    ∀ (h : NuHepMCInputHandler), h.fReader.file = h.fFile → h.jointinput = false →
      ∃ g rs, h.serve fuel l = some (g, rs) ∧ g.fReader.file = g.fFile ∧
        g.jointinput = false ∧ g.fFile = h.fFile ∧ g.fNEvents = h.fNEvents := by
  induction l with
  | nil => intro h hw hj; exact ⟨h, [], rfl, hw, hj, rfl, rfl⟩
  | cons e l ih =>
    intro h hw hj
    obtain ⟨a, r, ha, aw, aj, af, an, -, -, -⟩ := getNuisanceEvent_frame fuel h e hw hj
    obtain ⟨g, rs, hg, gw, gj, gf, gn⟩ := ih a aw aj
    exact ⟨g, r :: rs, by simp only [NuHepMCInputHandler.serve, ha, hg], gw, gj,
      gf.trans af, gn.trans an⟩

/-- A request behind the counter, below `2 ^ 31`: one new reader, advanced over exactly
`entry` events, so that it stands at `entry` when that index exists. -/
theorem seek_behind (h : NuHepMCInputHandler) (entry : Nat) (hb : entry < h.nextentry)
    (he : entry < 2 ^ 31) :
    (h.seek entry).reopens = h.reopens + 1 ∧
      (h.seek entry).skipped = (if entry = 0 then h.skipped else (entry : Int) :: h.skipped) ∧
      (h.seek entry).fReader =
        (if entry = 0 then deduce_reader h.fFile
         else (deduce_reader h.fFile).skip (entry : Int)) ∧
      (entry < h.fFile.events.length →
        (h.seek entry).fReader = { file := h.fFile, pos := entry, failed := false }) := by
  rcases seek_cases h entry with ⟨hc, _⟩ | ⟨hc, _⟩ | ⟨_, hs⟩
  · omega
  · omega
  · rw [toInt32_of_lt _ he] at hs
    by_cases h0 : entry = 0
    · subst h0
      rw [if_neg (by simp)] at hs
      rw [hs]
      exact ⟨rfl, rfl, rfl, fun _ => rfl⟩
    · rw [if_pos (by omega)] at hs
      rw [hs, if_neg h0, if_neg h0]
      refine ⟨rfl, rfl, rfl, fun hlt => ?_⟩
      show (deduce_reader h.fFile).skip _ = _
      rw [skip_fresh _ _ (by omega), if_pos hlt]

/-- A request at the counter: no new reader and no skip. -/
theorem seek_next (h : NuHepMCInputHandler) (entry : Nat) (hc : h.nextentry = entry) :
    (h.seek entry).reopens = h.reopens ∧ (h.seek entry).skipped = h.skipped := by
  rcases seek_cases h entry with ⟨_, hs⟩ | ⟨hc2, _⟩ | ⟨hc2, _⟩
  · rw [hs]; exact ⟨rfl, rfl⟩
  · omega
  · omega

/-- Reader creations for indices below `2 ^ 31`: after construction from a readable file of
`N ≥ 1` events (`N` below `2 ^ 31`), requesting the indices `0, 1, ..., N - 1` in increasing
order creates no reader at all; and after any history of requests, a request for an index `i`
that follows a request for some `j > i` (with `j` below `2 ^ 31`) creates exactly one reader
and advances it over exactly `i` events (no skip call for `i = 0`), so that the reader stands
at `i` and the event of index `i` is the one read when it exists. -/
theorem reopen_count_below_wrap (fuel sfuel : Nat) (env : Env) (handle rawinputs path : String)
    (file : File) (ri : GenRunInfo) (cs : List String) (X : ℚ)
    (hpath : (formInputs rawinputs).head? = some path) (hfile : env.files path = some file)
    (hne : file.events ≠ []) (hri : file.run_info = some ri)
    (hcs : declaresConventions ri cs) (hX : "G.C.4" ∈ cs → declaresFATX ri X)
    (hfuel : file.events.length < fuel) (hN : file.events.length < 2 ^ 31) :
    ∃ h, NuHepMCInputHandler.new fuel env handle rawinputs = Except.ok h ∧ h.reopens = 0 ∧
      (∃ g rs, h.serve sfuel (List.range file.events.length) = some (g, rs) ∧ g.reopens = 0) ∧
      ∀ (history : List Nat) (i j : Nat), i < j → j < 2 ^ 31 →
        ∃ k rs g r g1 r1, h.serve sfuel history = some (k, rs) ∧
          k.GetNuisanceEvent sfuel j = some (g, r) ∧
          g.GetNuisanceEvent sfuel i = some (g1, r1) ∧
          g1.reopens = g.reopens + 1 ∧
          g1.skipped = (if i = 0 then g.skipped else (i : Int) :: g.skipped) ∧
          (i < file.events.length →
            (g.seek i).fReader = { file := file, pos := i, failed := false } ∧
            ∃ evt, file.events[i]? = some evt ∧ r1 = some (g.built evt)) := by
  obtain ⟨h, hnew, -, hnext, hreader, hhfile, -, hjoint, hreo, -, -, -, -⟩ :=
    new_ok fuel env handle rawinputs path file ri cs X hpath hfile hne hri hcs hX hfuel
  have hin := inStep_of_new h file hnext hreader hhfile hjoint
  refine ⟨h, hnew, hreo, ?_, ?_⟩
  · obtain ⟨g, rs, hs, -, -, -, -, greo, -, -⟩ :=
      serve_increasing sfuel file.events.length 0 h hin hnext (by rw [hhfile]; omega)
        (by rw [hhfile]; exact hN)
    exact ⟨g, rs, by rw [List.range_eq_range']; exact hs, by rw [greo, hreo]⟩
  · intro history i j hij hj
    obtain ⟨k, rs, hk, kw, kj, kf, -⟩ := serve_frame sfuel history h hin.reader_file hjoint
    obtain ⟨g, r, hg, gw, gj, gf, -, gnext, -, -⟩ := getNuisanceEvent_frame sfuel k j kw kj
    have hmod : (j + 1) % UInt_t.size = j + 1 := by unfold UInt_t.size; omega
    rw [hmod] at gnext
    have gfile : g.fFile = file := by rw [gf, kf, hhfile]
    obtain ⟨b1, b2, -, b4⟩ := seek_behind g i (by omega) (by omega)
    obtain ⟨g1, r1, hg1, -, -, -, -, -, g1reo, g1skip⟩ :=
      getNuisanceEvent_frame sfuel g i gw gj
    refine ⟨k, rs, g, r, g1, r1, hk, hg, hg1, by rw [g1reo, b1], by rw [g1skip, b2], ?_⟩
    intro hlt
    have hpos := b4 (by rw [gfile]; exact hlt)
    rw [gfile] at hpos
    refine ⟨hpos, file.events[i], List.getElem?_eq_getElem hlt, ?_⟩
    obtain ⟨-, -, s3, -, s5, -⟩ := seek_frame g i gw
    have hread := getNuisanceEvent_read sfuel g i (file.events[i]) (s3.trans gj)
      (by rw [hpos]) (by rw [hpos]; exact List.getElem?_eq_getElem hlt)
    rw [hread] at hg1
    simp only [Option.some.injEq, Prod.mk.injEq] at hg1
    rw [← hg1.2]
    unfold NuHepMCInputHandler.built
    rw [s5]

theorem reopen_count_below_wrap_witness :
    ∃ h, NuHepMCInputHandler.new 4 (singleFileEnv "nu.hepmc3" fileWithEstimate) "sample"
        "nu.hepmc3" = Except.ok h ∧ h.reopens = 0 ∧
      (∃ g rs, h.serve 0 (List.range fileWithEstimate.events.length) = some (g, rs) ∧
        g.reopens = 0) ∧
      ∀ (history : List Nat) (i j : Nat), i < j → j < 2 ^ 31 →
        ∃ k rs g r g1 r1, h.serve 0 history = some (k, rs) ∧
          k.GetNuisanceEvent 0 j = some (g, r) ∧
          g.GetNuisanceEvent 0 i = some (g1, r1) ∧
          g1.reopens = g.reopens + 1 ∧
          g1.skipped = (if i = 0 then g.skipped else (i : Int) :: g.skipped) ∧
          (i < fileWithEstimate.events.length →
            (g.seek i).fReader = { file := fileWithEstimate, pos := i, failed := false } ∧
            ∃ evt, fileWithEstimate.events[i]? = some evt ∧ r1 = some (g.built evt)) :=
  reopen_count_below_wrap 4 0 (singleFileEnv "nu.hepmc3" fileWithEstimate) "sample" "nu.hepmc3"
    "nu.hepmc3" fileWithEstimate (sampleRunInfo ["E.C.4"] none ["CV"]) ["E.C.4"] 0
    (by decide) (by simp [singleFileEnv]) (by simp [fileWithEstimate]) rfl
    (by simp [declaresConventions, sampleRunInfo, GenRunInfo.payload, List.lookup])
    (fun hg => absurd hg (by decide)) (by simp [fileWithEstimate])
    (by simp [fileWithEstimate])

/-! ## Lemmas on the members set by `CalcNUISANCEKinematics` -/

theorem particleStep_scalars (ev : FitEvent) (p : GenParticle) :
    (particleStep ev p).Mode = ev.Mode ∧ (particleStep ev p).fEventNo = ev.fEventNo ∧
      (particleStep ev p).InputWeight = ev.InputWeight := by
  unfold particleStep storeParticle
  split_ifs <;> exact ⟨rfl, rfl, rfl⟩

theorem foldl_particleStep_scalars (ps : List GenParticle) (ev : FitEvent) :
    (ps.foldl particleStep ev).Mode = ev.Mode ∧
      (ps.foldl particleStep ev).fEventNo = ev.fEventNo ∧
      (ps.foldl particleStep ev).InputWeight = ev.InputWeight := by
  induction ps generalizing ev with
  | nil => exact ⟨rfl, rfl, rfl⟩
  | cons p ps ih =>
    obtain ⟨h1, h2, h3⟩ := particleStep_scalars ev p
    obtain ⟨i1, i2, i3⟩ := ih (particleStep ev p)
    exact ⟨i1.trans h1, i2.trans h2, i3.trans h3⟩

theorem calc_scalars (ev : FitEvent) (evt : GenEvent) :
    (CalcNUISANCEKinematics ev evt).Mode = evt.ProcID ∧
      (CalcNUISANCEKinematics ev evt).fEventNo = evt.event_number ∧
      (CalcNUISANCEKinematics ev evt).InputWeight = ev.InputWeight := by
  unfold CalcNUISANCEKinematics fillStack
  simp only []
  exact ⟨(foldl_particleStep_scalars _ _).1, (foldl_particleStep_scalars _ _).2.1,
    (foldl_particleStep_scalars _ _).2.2⟩

/-- The handler after a request that delivered an event, joint inputs being off. -/
theorem getNuisanceEvent_read_state (fuel : Nat) (h : NuHepMCInputHandler) (entry : Nat)
    (evt : GenEvent) (file : File) (pos : Nat) (hj : (h.seek entry).jointinput = false)
    (hr : (h.seek entry).fReader = { file := file, pos := pos, failed := false })
    (hget : file.events[pos]? = some evt) :
    ∃ g, h.GetNuisanceEvent fuel entry = some (g, some (h.built evt)) ∧
      g.fReader = { file := file, pos := pos + 1, failed := false } ∧
      g.nextentry = (h.seek entry).nextentry ∧ g.jointinput = false ∧
      g.fFile = (h.seek entry).fFile ∧ g.fNUISANCEEvent = h.built evt := by
  have hb : (h.seek entry).built evt = h.built evt := by
    have : (h.seek entry).fNUISANCEEvent = h.fNUISANCEEvent := by
      rcases seek_cases h entry with ⟨_, hs⟩ | ⟨_, hs⟩ | ⟨_, hs⟩ <;> rw [hs] <;>
        (try split_ifs) <;> rfl
    unfold NuHepMCInputHandler.built; rw [this]
  have hread := getNuisanceEvent_read fuel h entry evt hj (by rw [hr])
    (by rw [hr]; exact hget)
  rw [hb] at hread
  exact ⟨_, hread, by simp only [hr], rfl, hj, rfl, rfl⟩

/-- C7 (the code departs from the claim): on a file of two events, after the single prior
request for index `4294967295` the counter has wrapped to `0` while the reader stands behind
the first event; the two consecutive requests for index `0` that follow hand out different
events, the second event of the file and then the first. -/
theorem C7_repeat_after_wrap_differs :
    ∃ h g1 g2 g3 a b c,
      NuHepMCInputHandler.new 3 (singleFileEnv "nu.hepmc3" fileOfTwo) "sample" "nu.hepmc3" =
        Except.ok h ∧
      h.GetNuisanceEvent 0 4294967295 = some (g1, some a) ∧
      g1.GetNuisanceEvent 0 0 = some (g2, some b) ∧
      g2.GetNuisanceEvent 0 0 = some (g3, some c) ∧
      b.fEventNo = 1 ∧ c.fEventNo = 0 := by
  obtain ⟨h, hnew, -, hnext, hreader, hhfile, -, hjoint, -, -, -, -, -⟩ :=
    new_ok 3 (singleFileEnv "nu.hepmc3" fileOfTwo) "sample" "nu.hepmc3" "nu.hepmc3" fileOfTwo
      (sampleRunInfo ["G.C.1"] none ["CV"]) ["G.C.1"] 0 (by decide) (by simp [singleFileEnv])
      (by simp [fileOfTwo]) rfl
      (by simp [declaresConventions, sampleRunInfo, GenRunInfo.payload, List.lookup])
      (fun hg => absurd hg (by decide)) (by simp [fileOfTwo])
  -- the request for 4294967295: a skip by -1, then the first event is read
  have hseek1 : h.seek 4294967295 =
      { h with
        fReader := h.fReader.skip (toInt32 (4294967295 - h.nextentry))
        skipped := toInt32 (4294967295 - h.nextentry) :: h.skipped
        nextentry := (4294967295 + 1) % UInt_t.size } := by
    rcases seek_cases h 4294967295 with ⟨hc, _⟩ | ⟨_, hs⟩ | ⟨hc, _⟩
    · omega
    · rw [hs, if_pos (by rw [hnext]; decide)]
    · omega
  have hr1 : (h.seek 4294967295).fReader = { file := fileOfTwo, pos := 0, failed := false } := by
    rw [hseek1, hnext]
    show h.fReader.skip (toInt32 4294967295) = _
    rw [hreader]
    have : toInt32 4294967295 = -1 := by decide
    rw [this]
    rfl
  obtain ⟨g1, hg1, g1reader, g1next, g1joint, g1file, -⟩ :=
    getNuisanceEvent_read_state 0 h 4294967295 (sampleEvent 0 none) fileOfTwo 0
      (by rw [hseek1]; exact hjoint) hr1 rfl
  have g1next0 : g1.nextentry = 0 := by rw [g1next, hseek1]; rfl
  have g1file2 : g1.fFile = fileOfTwo := by rw [g1file, hseek1]; exact hhfile
  -- the first request for 0: at the counter, the reader delivers the second event
  have hseek2 : g1.seek 0 = { g1 with nextentry := (0 + 1) % UInt_t.size } := by
    rcases seek_cases g1 0 with ⟨_, hs⟩ | ⟨hc, _⟩ | ⟨hc, _⟩
    · exact hs
    · omega
    · omega
  obtain ⟨g2, hg2, -, g2next, g2joint, g2file, -⟩ :=
    getNuisanceEvent_read_state 0 g1 0 (sampleEvent 1 none) fileOfTwo 1
      (by rw [hseek2]; exact g1joint) (by rw [hseek2]; exact g1reader) rfl
  have g2next1 : g2.nextentry = 1 := by rw [g2next, hseek2]; rfl
  have g2file2 : g2.fFile = fileOfTwo := by rw [g2file, hseek2]; exact g1file2
  -- the second request for 0: behind the counter, a new reader delivers the first event
  obtain ⟨-, -, -, b4⟩ := seek_behind g2 0 (by omega) (by norm_num)
  have hr3 := b4 (by rw [g2file2]; decide)
  rw [g2file2] at hr3
  have hj3 : (g2.seek 0).jointinput = false := by
    rcases seek_cases g2 0 with ⟨hc, _⟩ | ⟨hc, _⟩ | ⟨_, hs⟩
    · omega
    · omega
    · rw [hs]; split_ifs <;> exact g2joint
  obtain ⟨g3, hg3, -, -, -, -, -⟩ :=
    getNuisanceEvent_read_state 0 g2 0 (sampleEvent 0 none) fileOfTwo 0 hj3 hr3 rfl
  exact ⟨h, g1, g2, g3, _, _, _, hnew, hg1, hg2, hg3,
    (calc_scalars _ _).2.1, (calc_scalars _ _).2.1⟩

/-- C6 (the code departs from the claim): on a file of two events the request for index
`4294967295` is served with an event and wraps the counter to `0`; the request for index `1`
that follows, although it lies behind the index served last, creates no reader: the old reader
is advanced by one event, runs off the end of the file, and the null pointer is returned for
an index that exists. -/
theorem C6_no_reopen_after_wrap :
    ∃ h g1 a g2,
      NuHepMCInputHandler.new 3 (singleFileEnv "nu.hepmc3" fileOfTwo) "sample" "nu.hepmc3" =
        Except.ok h ∧
      h.GetNuisanceEvent 0 4294967295 = some (g1, some a) ∧ g1.reopens = 0 ∧
      g1.GetNuisanceEvent 0 1 = some (g2, none) ∧ g2.reopens = 0 ∧ g2.skipped = [1, -1] := by
  obtain ⟨h, hnew, -, hnext, hreader, hhfile, -, hjoint, hreo, hskip, -, -, -⟩ :=
    new_ok 3 (singleFileEnv "nu.hepmc3" fileOfTwo) "sample" "nu.hepmc3" "nu.hepmc3" fileOfTwo
      (sampleRunInfo ["G.C.1"] none ["CV"]) ["G.C.1"] 0 (by decide) (by simp [singleFileEnv])
      (by simp [fileOfTwo]) rfl
      (by simp [declaresConventions, sampleRunInfo, GenRunInfo.payload, List.lookup])
      (fun hg => absurd hg (by decide)) (by simp [fileOfTwo])
  have hseek1 : h.seek 4294967295 =
      { h with
        fReader := h.fReader.skip (toInt32 (4294967295 - h.nextentry))
        skipped := toInt32 (4294967295 - h.nextentry) :: h.skipped
        nextentry := (4294967295 + 1) % UInt_t.size } := by
    rcases seek_cases h 4294967295 with ⟨hc, _⟩ | ⟨_, hs⟩ | ⟨hc, _⟩
    · omega
    · rw [hs, if_pos (by rw [hnext]; decide)]
    · omega
  have hm1 : toInt32 4294967295 = -1 := by decide
  have hr1 : (h.seek 4294967295).fReader = { file := fileOfTwo, pos := 0, failed := false } := by
    rw [hseek1, hnext]
    show h.fReader.skip (toInt32 4294967295) = _
    rw [hreader, hm1]
    rfl
  obtain ⟨g1, a, hg1, g1w, g1joint, g1file, -, g1next, g1reo, g1skip⟩ :=
    getNuisanceEvent_frame 0 h 4294967295 (by rw [hreader, hhfile]; rfl) hjoint
  obtain ⟨g1', hg1', g1reader, -, -, -, -⟩ :=
    getNuisanceEvent_read_state 0 h 4294967295 (sampleEvent 0 none) fileOfTwo 0
      (by rw [hseek1]; exact hjoint) hr1 rfl
  rw [hg1] at hg1'
  simp only [Option.some.injEq, Prod.mk.injEq] at hg1'
  obtain ⟨rfl, rfl⟩ := hg1'
  have g1next0 : g1.nextentry = 0 := by rw [g1next]; rfl
  have g1reo0 : g1.reopens = 0 := by rw [g1reo, hseek1]; exact hreo
  have g1skip1 : g1.skipped = [-1] := by
    rw [g1skip, hseek1]
    show toInt32 (4294967295 - h.nextentry) :: h.skipped = _
    rw [hnext, hskip, Nat.sub_zero, hm1]
  have hseek2 : g1.seek 1 =
      { g1 with
        fReader := g1.fReader.skip (toInt32 (1 - g1.nextentry))
        skipped := toInt32 (1 - g1.nextentry) :: g1.skipped
        nextentry := (1 + 1) % UInt_t.size } := by
    rcases seek_cases g1 1 with ⟨hc, _⟩ | ⟨_, hs⟩ | ⟨hc, _⟩
    · omega
    · rw [hs, if_pos (by rw [g1next0]; decide)]
    · omega
  have hr2 : (g1.seek 1).fReader.failed = true := by
    rw [hseek2, g1next0]
    show (g1.fReader.skip (toInt32 1)).failed = true
    rw [g1reader]
    decide
  obtain ⟨g2, r2, hg2, -, -, -, -, -, g2reo, g2skip⟩ :=
    getNuisanceEvent_frame 0 g1 1 g1w g1joint
  have hend := getNuisanceEvent_end 0 g1 1 (Or.inl hr2)
  rw [hg2] at hend
  simp only [Option.some.injEq, Prod.mk.injEq] at hend
  obtain ⟨-, rfl⟩ := hend
  refine ⟨h, g1, _, g2, hnew, hg1, g1reo0, hg2, ?_, ?_⟩
  · rw [g2reo, hseek2]; exact g1reo0
  · rw [g2skip, hseek2]
    show toInt32 (1 - g1.nextentry) :: g1.skipped = _
    rw [g1next0, g1skip1]
    rfl

/-! ## Claims on joint inputs -/

/-- Every event handed out by a handler without joint inputs carries the input weight 1. -/
theorem inputWeight_one (fuel : Nat) (h g : NuHepMCInputHandler) (entry : Nat) (ev : FitEvent)
    (hj : h.jointinput = false) (hw : h.fReader.file = h.fFile)
    (hg : h.GetNuisanceEvent fuel entry = some (g, some ev)) : ev.InputWeight = 1 := by
  obtain ⟨-, -, s3, -, -, -⟩ := seek_frame h entry hw
  by_cases hend : (h.seek entry).fReader.failed = true ∨
      (h.seek entry).fReader.file.events.length ≤ (h.seek entry).fReader.pos
  · rw [getNuisanceEvent_end fuel h entry hend] at hg
    simp at hg
  · rw [not_or] at hend
    obtain ⟨hf, hp⟩ := hend
    have hf2 : (h.seek entry).fReader.failed = false := by simpa using hf
    have hlt : (h.seek entry).fReader.pos < (h.seek entry).fReader.file.events.length := by
      omega
    rw [getNuisanceEvent_read fuel h entry _ (s3.trans hj) hf2
      (List.getElem?_eq_getElem hlt)] at hg
    simp only [Option.some.injEq, Prod.mk.injEq] at hg
    rw [← hg.2]
    exact (calc_scalars _ _).2.2

/-- C9 as stated fails: constructed from the list `(a.hepmc3,b.hepmc3)` of two files with
three and two events, the handler counts three events, not five, keeps joint inputs off, and
returns the null pointer for the global index 3, the first event of the second file. -/
theorem C9_counterexample_second_file_ignored :
    formInputs "(a.hepmc3,b.hepmc3)" = ["a.hepmc3", "b.hepmc3"] ∧
      twoFileEnv.files "a.hepmc3" = some fileWithEstimate ∧
      twoFileEnv.files "b.hepmc3" = some fileOfTwo ∧
      fileWithEstimate.events.length = 3 ∧ fileOfTwo.events.length = 2 ∧
      ∃ h g, NuHepMCInputHandler.new 4 twoFileEnv "joint" "(a.hepmc3,b.hepmc3)" = Except.ok h ∧
        h.fNEvents = 3 ∧ h.fNEvents ≠ 5 ∧ h.jointinput = false ∧
        h.GetNuisanceEvent 0 3 = some (g, none) := by
  refine ⟨by decide, by simp [twoFileEnv], by simp [twoFileEnv], rfl, rfl, ?_⟩
  obtain ⟨h, hnew, hcount, hnext, hreader, hhfile, -, hjoint, -, -, -, -, -⟩ :=
    new_ok 4 twoFileEnv "joint" "(a.hepmc3,b.hepmc3)" "a.hepmc3" fileWithEstimate
      (sampleRunInfo ["E.C.4"] none ["CV"]) ["E.C.4"] 0 (by decide) (by simp [twoFileEnv])
      (by simp [fileWithEstimate]) rfl
      (by simp [declaresConventions, sampleRunInfo, GenRunInfo.payload, List.lookup])
      (fun hg => absurd hg (by decide)) (by simp [fileWithEstimate])
  have hin := inStep_of_new h fileWithEstimate hnext hreader hhfile hjoint
  obtain ⟨g, r, hg, -, -, -, -, -, -, hnone⟩ := getNuisanceEvent_inStep 0 h 3 hin (by norm_num)
  obtain ⟨rfl, -⟩ := hnone (by rw [hhfile]; decide)
  have h3 : h.fNEvents = 3 := by
    rw [hcount, wrapInt32_of_lt _ (by simp [fileWithEstimate])]; rfl
  exact ⟨h, g, hnew, h3, by rw [h3]; decide, hjoint, hg⟩

/-- C9 (amended): for a handler constructed from a list of inputs, however many further
paths `more` follow the first, whose first path opens a readable file of `N ≥ 1` events (`N`
below `2 ^ 31`), only that first file is read: the event count is `N`, joint inputs stay off,
the request for the global index `N` returns the null pointer, and every event handed out,
after any history of requests, carries the input weight 1. -/
theorem C9_first_file_only (fuel sfuel : Nat) (env : Env) (handle rawinputs path : String)
    (more : List String) (file : File) (ri : GenRunInfo) (cs : List String) (X : ℚ)
    (hinputs : formInputs rawinputs = path :: more)
    (hfile : env.files path = some file)
    (hne : file.events ≠ []) (hri : file.run_info = some ri)
    (hcs : declaresConventions ri cs) (hX : "G.C.4" ∈ cs → declaresFATX ri X)
    (hfuel : file.events.length < fuel) (hN : file.events.length < 2 ^ 31) :
    ∃ h, NuHepMCInputHandler.new fuel env handle rawinputs = Except.ok h ∧
      h.fNEvents = (file.events.length : Int) ∧ h.jointinput = false ∧
      (∃ g, h.GetNuisanceEvent sfuel file.events.length = some (g, none)) ∧
      ∀ (history : List Nat) (k : Nat), ∃ g rs g1 r,
        h.serve sfuel history = some (g, rs) ∧ g.GetNuisanceEvent sfuel k = some (g1, r) ∧
        ∀ ev, r = some ev → ev.InputWeight = 1 := by
  obtain ⟨h, hnew, hcount, hnext, hreader, hhfile, -, hjoint, -, -, -, -, -⟩ :=
    new_ok fuel env handle rawinputs path file ri cs X (by rw [hinputs]; rfl) hfile hne hri hcs
      hX hfuel
  rw [wrapInt32_of_lt _ hN] at hcount
  have hin := inStep_of_new h file hnext hreader hhfile hjoint
  refine ⟨h, hnew, hcount, hjoint, ?_, ?_⟩
  · obtain ⟨g, r, hg, -, -, -, -, -, -, hnone⟩ :=
      getNuisanceEvent_inStep sfuel h file.events.length hin hN
    obtain ⟨rfl, -⟩ := hnone (by rw [hhfile])
    exact ⟨g, hg⟩
  · intro history k
    obtain ⟨g, rs, hg, gw, gj, -, -⟩ := serve_frame sfuel history h hin.reader_file hjoint
    obtain ⟨g1, r, hg1, -, -, -, -, -, -, -⟩ := getNuisanceEvent_frame sfuel g k gw gj
    refine ⟨g, rs, g1, r, hg, hg1, ?_⟩
    intro ev hev
    subst hev
    exact inputWeight_one sfuel g g1 k ev gj gw hg1

theorem C9_first_file_only_witness :
    ∃ h, NuHepMCInputHandler.new 4 twoFileEnv "joint" "(a.hepmc3,b.hepmc3)" = Except.ok h ∧
      h.fNEvents = (fileWithEstimate.events.length : Int) ∧ h.jointinput = false ∧
      (∃ g, h.GetNuisanceEvent 0 fileWithEstimate.events.length = some (g, none)) ∧
      ∀ (history : List Nat) (k : Nat), ∃ g rs g1 r,
        h.serve 0 history = some (g, rs) ∧ g.GetNuisanceEvent 0 k = some (g1, r) ∧
        ∀ ev, r = some ev → ev.InputWeight = 1 :=
  C9_first_file_only 4 0 twoFileEnv "joint" "(a.hepmc3,b.hepmc3)" "a.hepmc3" ["b.hepmc3"]
    fileWithEstimate (sampleRunInfo ["E.C.4"] none ["CV"]) ["E.C.4"] 0 (by decide)
    (by simp [twoFileEnv]) (by simp [fileWithEstimate]) rfl
    (by simp [declaresConventions, sampleRunInfo, GenRunInfo.payload, List.lookup])
    (fun hg => absurd hg (by decide)) (by simp [fileWithEstimate])
    (by simp [fileWithEstimate])

/-! ## Lemmas on the joint index table -/

theorem partition_bounds (low high : List Int) (scale : List ℚ) (total : Nat)
    (hp : PartitionsIndexSpace low high scale total) :
    ∀ i, i < low.length → ∃ l u, low[i]? = some l ∧ high[i]? = some u ∧ 0 ≤ l ∧ l ≤ u := by
  intro i
  induction i with
  | zero =>
    intro h0
    have hu : (0 : Nat) < high.length := by rw [hp.length_high]; exact h0
    refine ⟨0, high[0], hp.first, List.getElem?_eq_getElem hu, le_rfl, ?_⟩
    exact hp.ordered 0 0 _ hp.first (List.getElem?_eq_getElem hu)
  | succ i ih =>
    intro hi
    obtain ⟨l, u, hl, hu, h0, hlu⟩ := ih (by omega)
    have hu1 : i + 1 < high.length := by rw [hp.length_high]; exact hi
    have hl1 : low[i + 1]? = some u := by rw [← hp.contiguous i hi]; exact hu
    exact ⟨u, high[i + 1], hl1, List.getElem?_eq_getElem hu1, by omega,
      hp.ordered (i + 1) u _ hl1 (List.getElem?_eq_getElem hu1)⟩

/-- A range that comes earlier ends at or before the start of a later one. -/
theorem partition_separated (low high : List Int) (scale : List ℚ) (total : Nat)
    (hp : PartitionsIndexSpace low high scale total) (i : Nat) :
    ∀ k, i < k → k < low.length → ∀ u l, high[i]? = some u → low[k]? = some l → u ≤ l := by
  intro k
  induction k with
  | zero => intro h; omega
  | succ k ih =>
    intro hik hk u l hu hl
    by_cases hik2 : i = k
    · subst hik2
      rw [hp.contiguous i hk, hl] at hu
      cases hu
      exact le_rfl
    · obtain ⟨lk, uk, hlk, huk, _, hlu⟩ := partition_bounds low high scale total hp k (by omega)
      have h1 := ih (by omega) (by omega) u lk hu hlk
      rw [hp.contiguous k hk, hl] at huk
      cases huk
      omega

/-- Every index below `total` lies in exactly one range of the table. -/
theorem partition_locates (low high : List Int) (scale : List ℚ) (total entry : Nat)
    (hp : PartitionsIndexSpace low high scale total) (he : entry < total) :
    ∃ j l u, j < low.length ∧ low[j]? = some l ∧ high[j]? = some u ∧
      l ≤ (entry : Int) ∧ (entry : Int) < u ∧ 0 ≤ l ∧
      ∀ k lk uk, low[k]? = some lk → high[k]? = some uk →
        lk ≤ (entry : Int) → (entry : Int) < uk → k = j := by
  classical
  have hex : ∃ k, k < low.length ∧ ∃ u, high[k]? = some u ∧ (entry : Int) < u :=
    ⟨low.length - 1, by have := hp.nonempty; omega, total, hp.last, by omega⟩
  obtain ⟨hjn, uj, huj, hej⟩ := Nat.find_spec hex
  have hmin := fun k (hk : k < Nat.find hex) => Nat.find_min hex hk
  generalize Nat.find hex = j at hjn huj hej hmin
  obtain ⟨l, u, hl, hu, h0, hlu⟩ := partition_bounds low high scale total hp j hjn
  rw [huj] at hu
  cases hu
  have hle : l ≤ (entry : Int) := by
    cases j with
    | zero =>
      rw [hp.first] at hl
      cases hl
      omega
    | succ j =>
      obtain ⟨l', u', hl', hu', _, _⟩ := partition_bounds low high scale total hp j (by omega)
      have hnot := hmin j (by omega)
      have hu'e : u' ≤ (entry : Int) := by
        by_contra hc
        exact hnot ⟨by omega, u', hu', by omega⟩
      rw [hp.contiguous j hjn, hl] at hu'
      cases hu'
      exact hu'e
  refine ⟨j, l, uj, hjn, hl, huj, hle, hej, h0, ?_⟩
  intro k lk uk hlk huk h1 h2
  have hkn : k < low.length := by
    by_contra hc
    rw [List.getElem?_eq_none (by omega)] at hlk
    cases hlk
  rcases Nat.lt_trichotomy k j with hkj | hkj | hkj
  · have := partition_separated low high scale total hp k j hkj hjn uk l huk hl
    omega
  · exact hkj
  · have := partition_separated low high scale total hp j k hkj hkn uj lk huj hlk
    omega

theorem partition_upper (low high : List Int) (scale : List ℚ) (total : Nat)
    (hp : PartitionsIndexSpace low high scale total) (k : Nat) (uk : Int)
    (hk : k < low.length) (huk : high[k]? = some uk) : uk ≤ (total : Int) := by
  by_cases hlast : k = low.length - 1
  · subst hlast
    rw [hp.last] at huk
    cases huk
    exact le_rfl
  · obtain ⟨l, u, hl, hu, _, hlu⟩ :=
      partition_bounds low high scale total hp (low.length - 1) (by omega)
    have := partition_separated low high scale total hp k (low.length - 1) (by omega)
      (by omega) uk l huk hl
    rw [hp.last] at hu
    cases hu
    omega

theorem ofInt_of_nonneg (x : Int) (h0 : 0 ≤ x) (h32 : x < 2 ^ 32) :
    ((UInt_t.ofInt x : Nat) : Int) = x := by
  unfold UInt_t.ofInt
  rw [Int.emod_eq_of_lt h0 h32]
  exact Int.toNat_of_nonneg h0

theorem cursorDistance_advance (n j sw : Nat) (hj : j < n) (hsw : sw < n) (hne : sw ≠ j) :
    cursorDistance n j (if sw + 1 = n then 0 else sw + 1) + 1 = cursorDistance n j sw ∧
      (if sw + 1 = n then 0 else sw + 1) < n := by
  unfold cursorDistance
  by_cases h1 : sw + 1 = n
  · simp only [h1, ↓reduceIte]
    split_ifs <;> omega
  · simp only [h1, ↓reduceIte]
    split_ifs <;> omega

/-- The lookup loop from any cursor position: it stops on the sub-file that holds the index,
after `cursorDistance` advances. -/
theorem getInputWeight_loop (h : NuHepMCInputHandler) (total entry j : Nat) (l u : Int)
    (w : ℚ)
    (hp : PartitionsIndexSpace h.jointindexlow h.jointindexhigh h.jointindexscale total)
    (ht : total < 2 ^ 31) (hj : j < h.jointindexlow.length)
    (hl : h.jointindexlow[j]? = some l) (hu : h.jointindexhigh[j]? = some u)
    (hw : h.jointindexscale[j]? = some w)
    (h1 : l ≤ (entry : Int)) (h2 : (entry : Int) < u)
    (huniq : ∀ k lk uk, h.jointindexlow[k]? = some lk → h.jointindexhigh[k]? = some uk →
      lk ≤ (entry : Int) → (entry : Int) < uk → k = j) :
    ∀ (fuel sw : Nat), sw < h.jointindexlow.length →
      cursorDistance h.jointindexlow.length j sw < fuel →
      NuHepMCInputHandler.GetInputWeight fuel { h with jointindexswitch := sw } entry =
        some ({ h with jointindexswitch := j }, w,
          cursorDistance h.jointindexlow.length j sw) := by
  intro fuel
  induction fuel with
  | zero => intro sw _ hd; omega
  | succ fuel ih =>
    intro sw hsw hd
    obtain ⟨lk, uk, hlk, huk, hlk0, hlku⟩ := partition_bounds _ _ _ total hp sw hsw
    have hukt := partition_upper _ _ _ total hp sw uk hsw huk
    have c1 := ofInt_of_nonneg lk hlk0 (by omega)
    have c2 := ofInt_of_nonneg uk (by omega) (by omega)
    unfold NuHepMCInputHandler.GetInputWeight
    simp only [hlk, huk]
    by_cases hin : lk ≤ (entry : Int) ∧ (entry : Int) < uk
    · have hsj : sw = j := huniq sw lk uk hlk huk hin.1 hin.2
      have hcond : ¬ (entry < UInt_t.ofInt lk ∨ entry ≥ UInt_t.ofInt uk) := by omega
      rw [if_neg hcond]
      subst hsj
      simp [hw, cursorDistance]
    · have hsj : sw ≠ j := by
        rintro rfl
        rw [hl] at hlk; rw [hu] at huk
        cases hlk; cases huk
        exact hin ⟨h1, h2⟩
      have hcond : entry < UInt_t.ofInt lk ∨ entry ≥ UInt_t.ofInt uk := by omega
      rw [if_pos hcond]
      obtain ⟨hdist, hlt⟩ := cursorDistance_advance _ j sw hj hsw hsj
      have hrec := ih (if sw + 1 = h.jointindexlow.length then 0 else sw + 1) hlt (by omega)
      simp only [hrec, Option.map_some', hdist]

theorem sampleJoint_partitions (sw : Nat) :
    PartitionsIndexSpace (sampleJointHandler sw).jointindexlow
      (sampleJointHandler sw).jointindexhigh (sampleJointHandler sw).jointindexscale 35 where
  nonempty := by show 0 < 3; omega
  length_high := rfl
  length_scale := rfl
  first := rfl
  last := rfl
  contiguous := by
    intro i hi
    have hi3 : i < 2 := by
      have : i + 1 < 3 := hi
      omega
    interval_cases i <;> rfl
  ordered := by
    intro i l u hl hu
    have hi : i < 3 := by
      by_contra hc
      have : (sampleJointHandler sw).jointindexlow[i]? = none :=
        List.getElem?_eq_none (by show 3 ≤ i; omega)
      rw [this] at hl
      cases hl
    interval_cases i <;>
      simp only [sampleJointHandler, jointHandler, List.getElem?_cons_zero,
        List.getElem?_cons_succ, Option.some.injEq] at hl hu <;> omega

/-- C8: for every handler whose non-empty joint index table partitions `[0, total)`
contiguously (`total` below `2 ^ 31`, the bounds being `int`), every cursor position inside
the table, every global index below `total` and enough fuel, `GetInputWeight` returns after
fewer cursor advances than there are sub-files, with the scale of the one sub-file whose
range holds the index, and leaves the cursor on that sub-file. -/
theorem C8_input_weight (h : NuHepMCInputHandler) (total entry fuel : Nat)
    (hp : PartitionsIndexSpace h.jointindexlow h.jointindexhigh h.jointindexscale total)
    (ht : total < 2 ^ 31) (hsw : h.jointindexswitch < h.jointindexlow.length)
    (he : entry < total) (hfuel : h.jointindexlow.length ≤ fuel) :
    ∃ j l u w adv, h.jointindexlow[j]? = some l ∧ h.jointindexhigh[j]? = some u ∧
      h.jointindexscale[j]? = some w ∧ l ≤ (entry : Int) ∧ (entry : Int) < u ∧
      (∀ k lk uk, h.jointindexlow[k]? = some lk → h.jointindexhigh[k]? = some uk →
        lk ≤ (entry : Int) → (entry : Int) < uk → k = j) ∧
      adv < h.jointindexlow.length ∧
      h.GetInputWeight fuel entry = some ({ h with jointindexswitch := j }, w, adv) := by
  obtain ⟨j, l, u, hj, hl, hu, h1, h2, h0, huniq⟩ :=
    partition_locates h.jointindexlow h.jointindexhigh h.jointindexscale total entry hp he
  have hjs : j < h.jointindexscale.length := by rw [hp.length_scale]; exact hj
  have hw : h.jointindexscale[j]? = some h.jointindexscale[j] := List.getElem?_eq_getElem hjs
  have hd : cursorDistance h.jointindexlow.length j h.jointindexswitch <
      h.jointindexlow.length := by
    unfold cursorDistance; split_ifs <;> omega
  have hloop := getInputWeight_loop h total entry j l u _ hp ht hj hl hu hw h1 h2 huniq fuel
    h.jointindexswitch hsw (by omega)
  exact ⟨j, l, u, _, _, hl, hu, hw, h1, h2, huniq, hd, hloop⟩

theorem C8_input_weight_witness :
    (∃ adv, adv < 3 ∧ (sampleJointHandler 2).GetInputWeight 3 12 =
        some (sampleJointHandler 1, 1 / 3, adv)) ∧
      ∃ adv, adv < 3 ∧ (sampleJointHandler 0).GetInputWeight 3 34 =
        some (sampleJointHandler 2, 1 / 6, adv) := by
  constructor
  · obtain ⟨j, l, u, w, adv, -, -, hw, -, -, huniq, hadv, hres⟩ :=
      C8_input_weight (sampleJointHandler 2) 35 12 3 (sampleJoint_partitions 2) (by norm_num)
        (by decide) (by norm_num) (by decide)
    have hj : 1 = j := huniq 1 10 15 rfl rfl (by norm_num) (by norm_num)
    subst hj
    have hw2 : w = 1 / 3 := by
      simp only [sampleJointHandler, jointHandler, List.getElem?_cons_succ,
        List.getElem?_cons_zero, Option.some.injEq] at hw
      exact hw.symm
    subst hw2
    exact ⟨adv, hadv, hres⟩
  · obtain ⟨j, l, u, w, adv, -, -, hw, -, -, huniq, hadv, hres⟩ :=
      C8_input_weight (sampleJointHandler 0) 35 34 3 (sampleJoint_partitions 0) (by norm_num)
        (by decide) (by norm_num) (by decide)
    have hj : 2 = j := huniq 2 15 35 rfl rfl (by norm_num) (by norm_num)
    subst hj
    have hw2 : w = 1 / 6 := by
      simp only [sampleJointHandler, jointHandler, List.getElem?_cons_succ,
        List.getElem?_cons_zero, Option.some.injEq] at hw
      exact hw.symm
    subst hw2
    exact ⟨adv, hadv, hres⟩

/-! ## Lemmas on repeated requests -/

theorem targetFields_particleStep (ev : FitEvent) (p : GenParticle) :
    (particleStep ev p).targetFields = targetStep ev.targetFields p := by
  unfold particleStep targetStep storeParticle FitEvent.targetFields
  split_ifs <;> rfl

theorem targetFields_foldl (ps : List GenParticle) (ev : FitEvent) :
    (ps.foldl particleStep ev).targetFields = ps.foldl targetStep ev.targetFields := by
  induction ps generalizing ev with
  | nil => rfl
  | cons p ps ih => rw [List.foldl_cons, List.foldl_cons, ih, targetFields_particleStep]

/-- Either a target particle decides the target members for every start, or none touches
them. -/
theorem targetStep_foldl_dichotomy (ps : List GenParticle) :
    ∀ t u : Int × Int × Int × Bool, ps.foldl targetStep t = ps.foldl targetStep u ∨
      (ps.foldl targetStep t = t ∧ ps.foldl targetStep u = u) := by
  induction ps with
  | nil => intro t u; exact Or.inr ⟨rfl, rfl⟩
  | cons p ps ih =>
    intro t u
    simp only [List.foldl_cons]
    by_cases hp : targetStep t p = t ∧ targetStep u p = u
    · rw [hp.1, hp.2]; exact ih t u
    · left
      have : targetStep t p = targetStep u p := by
        unfold targetStep at hp ⊢
        split_ifs at hp ⊢ <;> simp_all
      rw [this]

theorem targetStep_foldl_idem (ps : List GenParticle) (t : Int × Int × Int × Bool) :
    ps.foldl targetStep (ps.foldl targetStep t) = ps.foldl targetStep t := by
  rcases targetStep_foldl_dichotomy ps (ps.foldl targetStep t) t with h | ⟨h, _⟩
  · exact h
  · exact h

theorem particleList_OrderStack (ev : FitEvent) :
    ev.OrderStack.particleList = orderedStack ev.particleList := by
  unfold FitEvent.OrderStack
  simp only []
  have hl : (orderedStack ev.particleList).length = min ev.fNParticles ev.kMaxParticles := by
    rw [length_orderedStack, length_particleList]
  generalize orderedStack ev.particleList = l at hl
  apply List.ext_getElem
  · simp [FitEvent.particleList, hl]
  · intro i h1 h2
    simp [FitEvent.particleList, FitEvent.slot, List.getElem?_eq_getElem h2]

/-- What `CalcNUISANCEKinematics` leaves to see depends on the destination event only through
its target members and its input weight. -/
theorem observed_calc (ev : FitEvent) (evt : GenEvent) :
    (CalcNUISANCEKinematics ev evt).observed =
      (evt.ProcID, evt.event_number, evt.particles.foldl targetStep ev.targetFields,
        ev.InputWeight,
        orderedStack
          (((evt.particles.filter recognisedStatus).map keptRecord).take ev.kMaxParticles)) := by
  obtain ⟨h1, h2, h3⟩ := calc_scalars ev evt
  have h4 : (CalcNUISANCEKinematics ev evt).targetFields =
      evt.particles.foldl targetStep ev.targetFields := by
    unfold CalcNUISANCEKinematics fillStack
    simp only []
    exact targetFields_foldl _ _
  have h5 : (CalcNUISANCEKinematics ev evt).particleList =
      orderedStack
        (((evt.particles.filter recognisedStatus).map keptRecord).take ev.kMaxParticles) := by
    unfold CalcNUISANCEKinematics
    rw [particleList_OrderStack, particleList_fillStack]
  unfold FitEvent.observed
  rw [h1, h2, h3, h4, h5]

/-- Two consecutive requests for the same index below `2 ^ 31` to a handler that is in step
return equal results: both null, or two events with equal mode, event number, target members,
input weight and particle list. -/
theorem repeat_inStep (fuel : Nat) (h : NuHepMCInputHandler) (k : Nat) (hin : h.InStep)
    (hk : k < 2 ^ 31) :
    ∃ g1 r1 g2 r2, h.GetNuisanceEvent fuel k = some (g1, r1) ∧
      g1.GetNuisanceEvent fuel k = some (g2, r2) ∧
      r1.map FitEvent.observed = r2.map FitEvent.observed := by
  obtain ⟨g1, r1, hg1, in1, f1, -, -, -, hs1, hn1⟩ := getNuisanceEvent_inStep fuel h k hin hk
  obtain ⟨g2, r2, hg2, -, -, -, -, -, hs2, hn2⟩ := getNuisanceEvent_inStep fuel g1 k in1 hk
  refine ⟨g1, r1, g2, r2, hg1, hg2, ?_⟩
  by_cases hlt : k < h.fFile.events.length
  · obtain ⟨e1, e2, -⟩ := hs1 _ (List.getElem?_eq_getElem hlt)
    obtain ⟨e3, -, -⟩ := hs2 (h.fFile.events[k]) (by rw [f1]; exact List.getElem?_eq_getElem hlt)
    rw [e1, e3]
    simp only [Option.map_some', Option.some.injEq]
    unfold NuHepMCInputHandler.built
    rw [observed_calc, observed_calc, e2]
    unfold NuHepMCInputHandler.built
    have ht : ∀ ev : FitEvent, ({ ev with InputWeight := 1 } : FitEvent).targetFields =
        ev.targetFields := fun _ => rfl
    rw [ht, ht]
    have hc : (CalcNUISANCEKinematics { h.fNUISANCEEvent with InputWeight := 1 }
        (h.fFile.events[k])).targetFields =
        (h.fFile.events[k]).particles.foldl targetStep h.fNUISANCEEvent.targetFields := by
      have := observed_calc { h.fNUISANCEEvent with InputWeight := 1 } (h.fFile.events[k])
      unfold FitEvent.observed at this
      simp only [Prod.mk.injEq] at this
      rw [this.2.2.1, ht]
    have hcap : ∀ ev : FitEvent, ({ ev with InputWeight := 1 } : FitEvent).kMaxParticles =
        ev.kMaxParticles := fun _ => rfl
    rw [hc, targetStep_foldl_idem, hcap, hcap, kMaxParticles_calc, hcap]
  · obtain ⟨e1, -⟩ := hn1 (by omega)
    obtain ⟨e3, -⟩ := hn2 (by rw [f1]; omega)
    rw [e1, e3]

/-- Histories of requests below `2 ^ 31` keep a handler in step. -/
theorem serve_inStep (fuel : Nat) (l : List Nat) :
    ∀ (h : NuHepMCInputHandler), h.InStep → (∀ e ∈ l, e < 2 ^ 31) →
      ∃ g rs, h.serve fuel l = some (g, rs) ∧ g.InStep ∧ g.fFile = h.fFile ∧
        g.fNEvents = h.fNEvents := by
  induction l with
  | nil => intro h hin _; exact ⟨h, [], rfl, hin, rfl, rfl⟩
  | cons e l ih =>
    intro h hin hall
    obtain ⟨a, r, ha, ain, af, an, -, -, -, -⟩ :=
      getNuisanceEvent_inStep fuel h e hin (hall e (List.mem_cons_self _ _))
    obtain ⟨g, rs, hg, gin, gf, gn⟩ := ih a ain (fun x hx => hall x (List.mem_cons_of_mem _ hx))
    exact ⟨g, r :: rs, by simp only [NuHepMCInputHandler.serve, ha, hg], gin, gf.trans af,
      gn.trans an⟩

/-- Repeated requests below `2 ^ 31`: after construction from a readable file and any history
of requests below `2 ^ 31`, two consecutive requests for an index `k` below `2 ^ 31` return
equal results. -/
theorem repeat_below_wrap (fuel sfuel : Nat) (env : Env) (handle rawinputs path : String)
    (file : File) (ri : GenRunInfo) (cs : List String) (X : ℚ)
    (hpath : (formInputs rawinputs).head? = some path) (hfile : env.files path = some file)
    (hne : file.events ≠ []) (hri : file.run_info = some ri)
    (hcs : declaresConventions ri cs) (hX : "G.C.4" ∈ cs → declaresFATX ri X)
    (hfuel : file.events.length < fuel) :
    ∃ h, NuHepMCInputHandler.new fuel env handle rawinputs = Except.ok h ∧
      ∀ (history : List Nat) (k : Nat), (∀ e ∈ history, e < 2 ^ 31) → k < 2 ^ 31 →
        ∃ g rs g1 r1 g2 r2, h.serve sfuel history = some (g, rs) ∧
          g.GetNuisanceEvent sfuel k = some (g1, r1) ∧
          g1.GetNuisanceEvent sfuel k = some (g2, r2) ∧
          r1.map FitEvent.observed = r2.map FitEvent.observed := by
  obtain ⟨h, hnew, -, hnext, hreader, hhfile, -, hjoint, -, -, -, -, -⟩ :=
    new_ok fuel env handle rawinputs path file ri cs X hpath hfile hne hri hcs hX hfuel
  have hin := inStep_of_new h file hnext hreader hhfile hjoint
  refine ⟨h, hnew, ?_⟩
  intro history k hall hk
  obtain ⟨g, rs, hg, gin, -, -⟩ := serve_inStep sfuel history h hin hall
  obtain ⟨g1, r1, g2, r2, h1, h2, heq⟩ := repeat_inStep sfuel g k gin hk
  exact ⟨g, rs, g1, r1, g2, r2, hg, h1, h2, heq⟩

/-! ## Lemmas on failing construction -/

theorem checkedAttributeValue_error_what {α : Type} (read : Attribute → Option α)
    (obj : Option GenRunInfo) (name : String) (e : Failure)
    (h : NuHepMC.CheckedAttributeValue read obj name = Except.error e) :
    e = Failure.runtime_error "CheckedAttributeValue" := by
  unfold NuHepMC.CheckedAttributeValue at h
  split at h
  · cases h; rfl
  · split_ifs at h
    · cases h; rfl
    · split at h <;> cases h
      rfl

/-- The convention list is either readable, for every convention asked about, or asking
raises. -/
theorem conventions_readable_or_raise (obj : Option GenRunInfo) :
    (∃ ri cs, obj = some ri ∧ declaresConventions ri cs) ∨
      ∀ c, NuHepMC.SignalsConvention obj c =
        Except.error (Failure.runtime_error "CheckedAttributeValue") := by
  cases hc : NuHepMC.CheckedAttributeValue Attribute.asVectorString obj "NuHepMC.Conventions" with
  | error e =>
    right
    intro c
    have := checkedAttributeValue_error_what _ _ _ _ hc
    subst this
    simp only [NuHepMC.SignalsConvention, hc, bind, Except.bind]
  | ok cs =>
    left
    unfold NuHepMC.CheckedAttributeValue at hc
    cases obj with
    | none => simp at hc
    | some ri =>
      refine ⟨ri, cs, rfl, ?_⟩
      simp only at hc
      split_ifs at hc
      cases hp : ri.payload "NuHepMC.Conventions" with
      | none => simp [hp] at hc
      | some a =>
        cases a <;> simp [hp, Attribute.asVectorString] at hc
        subst hc
        exact hp

theorem scanLoop_empty (fuel : Nat) (file : File) (hnil : file.events = []) :
    scanLoop (fuel + 1) (ScanState.start file) = Except.ok
      { ScanState.start file with
        fReader := { (ScanState.start file).fReader with failed := true } } :=
  scanLoop_succ_end fuel _ rfl (by simp [ScanState.start, deduce_reader, hnil])

theorem scanLoop_raise (fuel : Nat) (file : File) (e : GenEvent) (rest : List GenEvent)
    (hev : file.events = e :: rest)
    (hraise : ∀ c, NuHepMC.SignalsConvention file.run_info c =
      Except.error (Failure.runtime_error "CheckedAttributeValue")) :
    scanLoop (fuel + 1) (ScanState.start file) =
      Except.error (Failure.runtime_error "CheckedAttributeValue") := by
  have hget : (ScanState.start file).fReader.file.events[(ScanState.start file).fReader.pos]? =
      some e := by
    simp [ScanState.start, deduce_reader, hev]
  rw [scanLoop, if_neg (by simp [ScanState.start, deduce_reader]),
    read_event_of_lt _ _ (by simp [ScanState.start, deduce_reader]) hget]
  simp only [ScanState.start, deduce_reader, Option.getD_some, Bool.not_false, ↓reduceIte,
    Option.isNone_none, captureRunInfo, hraise, bind, Except.bind]

theorem new_abort (fuel : Nat) (env : Env) (handle rawinputs path : String) (file : File)
    (hpath : (formInputs rawinputs).head? = some path) (hfile : env.files path = some file)
    (hnil : file.events = []) (hfuel : 0 < fuel) :
    NuHepMCInputHandler.new fuel env handle rawinputs =
      Except.error (Failure.abort "Could not read run_info from input NuHepMC file") := by
  obtain ⟨fuel, rfl⟩ : ∃ k, fuel = k + 1 := ⟨fuel - 1, by omega⟩
  unfold NuHepMCInputHandler.new
  simp only [hpath, hfile, scanLoop_empty fuel file hnil, bind, Except.bind, pure, Except.pure]
  rfl

theorem new_raise_conventions (fuel : Nat) (env : Env) (handle rawinputs path : String)
    (file : File) (hpath : (formInputs rawinputs).head? = some path)
    (hfile : env.files path = some file) (hne : file.events ≠ [])
    (hraise : ∀ c, NuHepMC.SignalsConvention file.run_info c =
      Except.error (Failure.runtime_error "CheckedAttributeValue"))
    (hfuel : 0 < fuel) :
    NuHepMCInputHandler.new fuel env handle rawinputs =
      Except.error (Failure.runtime_error "CheckedAttributeValue") := by
  obtain ⟨fuel, rfl⟩ : ∃ k, fuel = k + 1 := ⟨fuel - 1, by omega⟩
  obtain ⟨e, rest, hev⟩ := List.exists_cons_of_ne_nil hne
  unfold NuHepMCInputHandler.new
  simp only [hpath, hfile, scanLoop_raise fuel file e rest hev hraise, bind, Except.bind, pure,
    Except.pure]

theorem new_raise_fatx (fuel : Nat) (env : Env) (handle rawinputs path : String) (file : File)
    (ri : GenRunInfo) (cs : List String)
    (hpath : (formInputs rawinputs).head? = some path) (hfile : env.files path = some file)
    (hne : file.events ≠ []) (hri : file.run_info = some ri)
    (hcs : declaresConventions ri cs) (hG : "G.C.4" ∈ cs)
    (hno : NuHepMC.CheckedAttributeValue Attribute.asDouble (some ri)
      "NuHepMC.FluxAveragedTotalCrossSection" =
        Except.error (Failure.runtime_error "CheckedAttributeValue"))
    (hfuel : file.events.length < fuel) :
    NuHepMCInputHandler.new fuel env handle rawinputs =
      Except.error (Failure.runtime_error "CheckedAttributeValue") := by
  obtain ⟨t, ht, -, h2, h3, -, -, -⟩ := scanLoop_result fuel file ri cs hne hri hcs hfuel
  have hf : fatx_cm2 t = Except.error (Failure.runtime_error "CheckedAttributeValue") := by
    unfold fatx_cm2
    rw [h3, h2]
    simp only [hG, decide_True, ↓reduceIte, hno, bind, Except.bind]
  unfold NuHepMCInputHandler.new
  simp only [hpath, hfile, ht, h2, hf, bind, Except.bind, pure, Except.pure,
    Option.isNone_some, Bool.false_eq_true, ↓reduceIte]

/-! ## Claims on failing construction -/

/-- The flux-averaged total cross section is either declared as a double, or reading it
raises. -/
theorem fatx_readable_or_raise (ri : GenRunInfo) :
    (∃ X, declaresFATX ri X) ∨
      NuHepMC.CheckedAttributeValue Attribute.asDouble (some ri)
        "NuHepMC.FluxAveragedTotalCrossSection" =
          Except.error (Failure.runtime_error "CheckedAttributeValue") := by
  cases hx : NuHepMC.CheckedAttributeValue Attribute.asDouble (some ri)
      "NuHepMC.FluxAveragedTotalCrossSection" with
  | error e =>
    right
    rw [checkedAttributeValue_error_what _ _ _ _ hx]
  | ok X =>
    left
    refine ⟨X, ?_⟩
    unfold NuHepMC.CheckedAttributeValue at hx
    simp only at hx
    split_ifs at hx
    cases hp : ri.payload "NuHepMC.FluxAveragedTotalCrossSection" with
    | none => simp [hp] at hx
    | some a =>
      cases a <;> simp [hp, Attribute.asDouble] at hx
      subst hx
      exact hp

/-- C1 as stated fails: the file `fileWithoutConventions` holds one decodable event, and its
run metadata carries no convention list. Reading the list at the first event of the pre-scan
raises the runtime error of `CheckedAttributeValue`: no handler is constructed, so no event
count is left and no entry can be requested. -/
theorem C1_counterexample_unreadable_metadata :
    fileWithoutConventions.events.length = 1 ∧
      NuHepMCInputHandler.new 2 (singleFileEnv "nu.hepmc3" fileWithoutConventions) "sample"
        "nu.hepmc3" = Except.error (Failure.runtime_error "CheckedAttributeValue") ∧
      ¬ ∃ h, NuHepMCInputHandler.new 2 (singleFileEnv "nu.hepmc3" fileWithoutConventions)
        "sample" "nu.hepmc3" = Except.ok h := by
  have hraise : NuHepMCInputHandler.new 2 (singleFileEnv "nu.hepmc3" fileWithoutConventions)
      "sample" "nu.hepmc3" = Except.error (Failure.runtime_error "CheckedAttributeValue") :=
    new_raise_conventions 2 (singleFileEnv "nu.hepmc3" fileWithoutConventions) "sample"
      "nu.hepmc3" "nu.hepmc3" fileWithoutConventions (by decide) (by simp [singleFileEnv])
      (by simp [fileWithoutConventions]) (fun _ => rfl) (by decide)
  refine ⟨rfl, hraise, ?_⟩
  rintro ⟨h, hh⟩
  rw [hraise] at hh
  cases hh

/-- C11: for every input whose first path opens, with enough loop fuel, construction ends in
the fatal abort exactly when the file holds no event (the run metadata is never captured). For
every file with at least one event the abort branch is not taken: when the run metadata is
readable the handler is constructed and, the number of events being below `2 ^ 31`, its event
count is that number and at least 1; when it is not readable, reading it raises the runtime
error. -/
theorem C11_abort_iff_no_event (fuel : Nat) (env : Env) (handle rawinputs path : String)
    (file : File) (hpath : (formInputs rawinputs).head? = some path)
    (hfile : env.files path = some file) (hfuel : file.events.length < fuel) :
    ((∃ message, NuHepMCInputHandler.new fuel env handle rawinputs =
        Except.error (Failure.abort message)) ↔ file.events = []) ∧
      (file.events ≠ [] →
        (readableMetadata file → file.events.length < 2 ^ 31 →
          ∃ h, NuHepMCInputHandler.new fuel env handle rawinputs = Except.ok h ∧
            h.fNEvents = (file.events.length : Int) ∧ 1 ≤ h.fNEvents) ∧
        (readableMetadata file →
          ∃ h, NuHepMCInputHandler.new fuel env handle rawinputs = Except.ok h) ∧
        (¬ readableMetadata file →
          NuHepMCInputHandler.new fuel env handle rawinputs =
            Except.error (Failure.runtime_error "CheckedAttributeValue"))) := by
  have hok : file.events ≠ [] → readableMetadata file →
      ∃ h, NuHepMCInputHandler.new fuel env handle rawinputs = Except.ok h ∧
        h.fNEvents = wrapInt32 (file.events.length : Int) := by
    rintro hne ⟨ri, cs, hri, hcs, hX⟩
    by_cases hG : "G.C.4" ∈ cs
    · obtain ⟨X, hXd⟩ := hX hG
      obtain ⟨h, hnew, hcount, -⟩ :=
        new_ok fuel env handle rawinputs path file ri cs X hpath hfile hne hri hcs
          (fun _ => hXd) hfuel
      exact ⟨h, hnew, hcount⟩
    · obtain ⟨h, hnew, hcount, -⟩ :=
        new_ok fuel env handle rawinputs path file ri cs 0 hpath hfile hne hri hcs
          (fun hg => absurd hg hG) hfuel
      exact ⟨h, hnew, hcount⟩
  have hraise : file.events ≠ [] → ¬ readableMetadata file →
      NuHepMCInputHandler.new fuel env handle rawinputs =
        Except.error (Failure.runtime_error "CheckedAttributeValue") := by
    intro hne hnot
    rcases conventions_readable_or_raise file.run_info with ⟨ri, cs, hri, hcs⟩ | hr
    · by_cases hG : "G.C.4" ∈ cs
      · rcases fatx_readable_or_raise ri with ⟨X, hXd⟩ | hno
        · exact absurd ⟨ri, cs, hri, hcs, fun _ => ⟨X, hXd⟩⟩ hnot
        · exact new_raise_fatx fuel env handle rawinputs path file ri cs hpath hfile hne hri
            hcs hG hno hfuel
      · exact absurd ⟨ri, cs, hri, hcs, fun hg => absurd hg hG⟩ hnot
    · exact new_raise_conventions fuel env handle rawinputs path file hpath hfile hne hr
        (by omega)
  refine ⟨⟨?_, ?_⟩, fun hne => ⟨?_, ?_, hraise hne⟩⟩
  · rintro ⟨message, hm⟩
    by_contra hne
    by_cases hr : readableMetadata file
    · obtain ⟨h, hnew, -⟩ := hok hne hr
      rw [hnew] at hm; cases hm
    · rw [hraise hne hr] at hm; cases hm
  · intro hnil
    exact ⟨_, new_abort fuel env handle rawinputs path file hpath hfile hnil (by omega)⟩
  · intro hr hN
    obtain ⟨h, hnew, hcount⟩ := hok hne hr
    rw [wrapInt32_of_lt _ hN] at hcount
    have hlen : 0 < file.events.length := List.length_pos.mpr hne
    exact ⟨h, hnew, hcount, by rw [hcount]; omega⟩
  · intro hr
    obtain ⟨h, hnew, -⟩ := hok hne hr
    exact ⟨h, hnew⟩

theorem C11_abort_iff_no_event_witness :
    (fileWithFATX.events ≠ [] ∧ readableMetadata fileWithFATX ∧
      ((∃ message, NuHepMCInputHandler.new 4 (singleFileEnv "nu.hepmc3" fileWithFATX) "sample"
        "nu.hepmc3" = Except.error (Failure.abort message)) ↔ fileWithFATX.events = []) ∧
      ∃ h, NuHepMCInputHandler.new 4 (singleFileEnv "nu.hepmc3" fileWithFATX) "sample"
          "nu.hepmc3" = Except.ok h ∧
        h.fNEvents = (fileWithFATX.events.length : Int) ∧ 1 ≤ h.fNEvents) ∧
      (fileWithoutConventions.events ≠ [] ∧ ¬ readableMetadata fileWithoutConventions ∧
        NuHepMCInputHandler.new 2 (singleFileEnv "nu.hepmc3" fileWithoutConventions) "sample"
          "nu.hepmc3" = Except.error (Failure.runtime_error "CheckedAttributeValue")) := by
  have hne : fileWithFATX.events ≠ [] := by simp [fileWithFATX]
  have hr : readableMetadata fileWithFATX :=
    ⟨_, ["G.C.1", "G.C.4", "E.C.4"], rfl, rfl, fun _ => ⟨7 / 2, rfl⟩⟩
  have hne2 : fileWithoutConventions.events ≠ [] := by simp [fileWithoutConventions]
  have hr2 : ¬ readableMetadata fileWithoutConventions := by
    rintro ⟨ri, cs, hri, hcs, -⟩
    simp only [fileWithoutConventions, Option.some.injEq] at hri
    subst hri
    simp [declaresConventions, GenRunInfo.payload, List.lookup] at hcs
  have t1 := C11_abort_iff_no_event 4 (singleFileEnv "nu.hepmc3" fileWithFATX) "sample"
    "nu.hepmc3" "nu.hepmc3" fileWithFATX (by decide) (by simp [singleFileEnv])
    (by simp [fileWithFATX])
  have t2 := C11_abort_iff_no_event 2 (singleFileEnv "nu.hepmc3" fileWithoutConventions)
    "sample" "nu.hepmc3" "nu.hepmc3" fileWithoutConventions (by decide)
    (by simp [singleFileEnv]) (by simp [fileWithoutConventions])
  exact ⟨⟨hne, hr, t1.1, (t1.2 hne).1 hr (by simp [fileWithFATX])⟩,
    hne2, hr2, (t2.2 hne2).2.2 hr2⟩

/-! ## Claims on the target nucleus -/

theorem targetStep_other (t : Int × Int × Int × Bool) (q : GenParticle) (hq : q.status ≠ 11) :
    targetStep t q = t := by
  unfold targetStep
  simp only [NuHepMC.ParticleStatus.kTargetParticle, hq, ↓reduceIte, ite_self]

theorem targetStep_foldl_other (qs : List GenParticle) (t : Int × Int × Int × Bool)
    (hq : ∀ q ∈ qs, q.status ≠ 11) : qs.foldl targetStep t = t := by
  induction qs generalizing t with
  | nil => rfl
  | cons q qs ih =>
    rw [List.foldl_cons, targetStep_other t q (hq q (List.mem_cons_self _ _))]
    exact ih t (fun x hx => hq x (List.mem_cons_of_mem _ hx))

theorem targetFields_calc (ev : FitEvent) (evt : GenEvent) :
    (CalcNUISANCEKinematics ev evt).targetFields =
      evt.particles.foldl targetStep ev.targetFields := by
  unfold CalcNUISANCEKinematics fillStack
  simp only []
  exact targetFields_foldl _ _

/-- C12: for every raw event whose last particle of status 11 in source order carries the
nuclear code `1000000000 + L*10000000 + Z*10000 + A*10 + I` (`0 ≤ L ≤ 9`, `0 ≤ Z ≤ 999`,
`0 ≤ A ≤ 999`, `0 ≤ I ≤ 9`), whatever target particles precede it, `CalcNUISANCEKinematics`
leaves the target mass number `A`, the target charge `Z`, the H member 0, and the bound flag
true exactly when the code is 1000010010; and a particle of any other status leaves the four
members as they are. -/
theorem C12_target_members (ev : FitEvent) (evt : GenEvent) (pre post : List GenParticle)
    (p : GenParticle) (L Z A I : Int) (hps : evt.particles = pre ++ p :: post)
    (hst : p.status = 11) (hpost : ∀ q ∈ post, q.status ≠ 11)
    (hpid : p.pid = nuclearCode L Z A I) (hL : 0 ≤ L ∧ L ≤ 9) (hZ : 0 ≤ Z ∧ Z ≤ 999)
    (hA : 0 ≤ A ∧ A ≤ 999) (hI : 0 ≤ I ∧ I ≤ 9) :
    (CalcNUISANCEKinematics ev evt).fTargetA = A ∧
      (CalcNUISANCEKinematics ev evt).fTargetZ = Z ∧
      (CalcNUISANCEKinematics ev evt).fTargetH = 0 ∧
      ((CalcNUISANCEKinematics ev evt).fBound = true ↔ p.pid = 1000010010) ∧
      ∀ (dest : FitEvent) (q : GenParticle), q.status ≠ 11 →
        (particleStep dest q).fTargetA = dest.fTargetA ∧
        (particleStep dest q).fTargetZ = dest.fTargetZ ∧
        (particleStep dest q).fTargetH = dest.fTargetH ∧
        (particleStep dest q).fBound = dest.fBound := by
  have hT : (CalcNUISANCEKinematics ev evt).targetFields =
      ((p.pid.tdiv 10).tmod 1000, (p.pid.tdiv 10000).tmod 1000, 0,
        decide (p.pid = 1000010010)) := by
    rw [targetFields_calc, hps, List.foldl_append, List.foldl_cons,
      targetStep_foldl_other post _ hpost]
    unfold targetStep
    simp [NuHepMC.ParticleStatus.kIncomingBeamParticle, NuHepMC.ParticleStatus.kTargetParticle,
      hst]
  have harith : (p.pid.tdiv 10).tmod 1000 = A ∧ (p.pid.tdiv 10000).tmod 1000 = Z := by
    have hp : p.pid = 1000000000 + L * 10000000 + Z * 10000 + A * 10 + I := hpid
    have h0 : 0 ≤ p.pid := by omega
    rw [Int.tdiv_eq_ediv h0 (by norm_num), Int.tdiv_eq_ediv h0 (by norm_num),
      Int.tmod_eq_emod (by omega) (by norm_num), Int.tmod_eq_emod (by omega) (by norm_num)]
    omega
  unfold FitEvent.targetFields at hT
  simp only [Prod.mk.injEq] at hT
  obtain ⟨hTA, hTZ, hTH, hTB⟩ := hT
  refine ⟨hTA.trans harith.1, hTZ.trans harith.2, hTH, by rw [hTB]; simp, ?_⟩
  intro dest q hq
  have hstep := targetFields_particleStep dest q
  rw [targetStep_other _ q hq] at hstep
  unfold FitEvent.targetFields at hstep
  simp only [Prod.mk.injEq] at hstep
  exact hstep

theorem C12_target_members_witness :
    (CalcNUISANCEKinematics FitEvent.blank eventWithTwoTargets).fTargetA = 16 ∧
      (CalcNUISANCEKinematics FitEvent.blank eventWithTwoTargets).fTargetZ = 8 ∧
      (CalcNUISANCEKinematics FitEvent.blank eventWithTwoTargets).fTargetH = 0 ∧
      ((CalcNUISANCEKinematics FitEvent.blank eventWithTwoTargets).fBound = true ↔
        (1000080160 : Int) = 1000010010) ∧
      ∀ (dest : FitEvent) (q : GenParticle), q.status ≠ 11 →
        (particleStep dest q).fTargetA = dest.fTargetA ∧
        (particleStep dest q).fTargetZ = dest.fTargetZ ∧
        (particleStep dest q).fTargetH = dest.fTargetH ∧
        (particleStep dest q).fBound = dest.fBound :=
  C12_target_members FitEvent.blank eventWithTwoTargets sampleParticles
    [{ status := 1, pid := 211, momentum := { px := 1, py := 2, pz := 3, e := 140 },
       production_vertex_status := 1 }]
    { status := 11, pid := 1000080160, momentum := { px := 0, py := 0, pz := 0, e := 14895 },
      production_vertex_status := 0 }
    0 8 16 0 (by simp [eventWithTwoTargets]) rfl (by decide) (by decide) (by decide) (by decide)
    (by decide) (by decide)

/-! ## Lemmas on the list of inputs -/

theorem splitPieces_ne_nil (del : Char) (cs : List Char) : splitPieces del cs ≠ [] := by
  cases cs with
  | nil => simp [splitPieces]
  | cons c cs =>
    unfold splitPieces
    split_ifs
    · simp
    · split <;> simp

theorem splitPieces_cons_of_ne (del c : Char) (cs : List Char) (hc : c ≠ del) :
    ∃ w ws, splitPieces del cs = w :: ws ∧ splitPieces del (c :: cs) = (c :: w) :: ws := by
  cases hs : splitPieces del cs with
  | nil => exact absurd hs (splitPieces_ne_nil del cs)
  | cons w ws =>
    refine ⟨w, ws, rfl, ?_⟩
    rw [splitPieces, if_neg hc, hs]

theorem splitPieces_append_del (del : Char) (cs : List Char) :
    splitPieces del (cs ++ [del]) = splitPieces del cs ++ [[]] := by
  induction cs with
  | nil => simp [splitPieces]
  | cons c cs ih =>
    by_cases hc : c = del
    · subst hc
      rw [List.cons_append, splitPieces, if_pos rfl, ih, splitPieces, if_pos rfl]
      rfl
    · obtain ⟨w, ws, h1, h2⟩ := splitPieces_cons_of_ne del c cs hc
      obtain ⟨w', ws', h1', h2'⟩ := splitPieces_cons_of_ne del c (cs ++ [del]) hc
      rw [List.cons_append, h2', h2]
      rw [ih, h1] at h1'
      simp only [List.cons_append, List.cons.injEq] at h1'
      obtain ⟨rfl, rfl⟩ := h1'
      rfl

theorem splitPieces_append_char (del c : Char) (cs : List Char) (hc : c ≠ del) :
    ∃ ws w, splitPieces del cs = ws ++ [w] ∧
      splitPieces del (cs ++ [c]) = ws ++ [w ++ [c]] := by
  induction cs with
  | nil => exact ⟨[], [], by simp [splitPieces], by simp [splitPieces, hc]⟩
  | cons a cs ih =>
    obtain ⟨ws, w, h1, h2⟩ := ih
    by_cases ha : a = del
    · refine ⟨[] :: ws, w, ?_, ?_⟩
      · simp only [splitPieces, ha, ↓reduceIte, h1, List.cons_append]
      · subst ha
        rw [List.cons_append, splitPieces, if_pos rfl, h2]
        rfl
    · obtain ⟨v, vs, e1, e2⟩ := splitPieces_cons_of_ne del a cs ha
      obtain ⟨v', vs', e1', e2'⟩ := splitPieces_cons_of_ne del a (cs ++ [c]) ha
      rw [List.cons_append, e2', e2]
      rw [h1] at e1
      rw [h2] at e1'
      cases ws with
      | nil =>
        simp only [List.nil_append, List.cons.injEq] at e1 e1'
        obtain ⟨rfl, rfl⟩ := e1
        obtain ⟨rfl, rfl⟩ := e1'
        exact ⟨[], a :: w, rfl, rfl⟩
      | cons u us =>
        simp only [List.cons_append, List.cons.injEq] at e1 e1'
        obtain ⟨rfl, rfl⟩ := e1
        obtain ⟨rfl, rfl⟩ := e1'
        exact ⟨(a :: u) :: us, w, rfl, rfl⟩

theorem stripFront_split (cs : List Char) :
    stripFront ((splitPieces ',' cs).map String.mk) =
      (splitPieces ',' (dropOpen cs)).map String.mk := by
  cases cs with
  | nil => simp [splitPieces, stripFront, dropOpen]
  | cons c cs =>
    by_cases hc : c = ','
    · subst hc
      simp [splitPieces, stripFront, dropOpen]
    · obtain ⟨w, ws, h1, h2⟩ := splitPieces_cons_of_ne ',' c cs hc
      rw [h2]
      by_cases hp : c = '('
      · subst hp
        simp [stripFront, dropOpen, h1]
      · have hd : dropOpen (c :: cs) = c :: cs := by
          unfold dropOpen
          split
          · rename_i heq
            simp only [List.cons.injEq] at heq
            exact absurd heq.1.symm (by simpa [eq_comm] using hp)
          · rfl
        rw [hd, h2]
        simp [stripFront, hp]

theorem stripBack_split (cs : List Char) :
    stripBack ((splitPieces ',' cs).map String.mk) =
      (splitPieces ',' (dropClose cs)).map String.mk := by
  rcases List.eq_nil_or_concat cs with rfl | ⟨xs, c, rfl⟩
  · simp [splitPieces, stripBack, dropClose]
  · by_cases hc : c = ','
    · subst hc
      simp [splitPieces_append_del, stripBack, dropClose]
    · obtain ⟨ws, w, h1, h2⟩ := splitPieces_append_char ',' c xs hc
      rw [List.concat_eq_append, h2]
      by_cases hp : c = ')'
      · subst hp
        have hd : dropClose (xs ++ [')']) = xs := by simp [dropClose]
        rw [hd, h1]
        simp [stripBack]
      · have hd : dropClose (xs ++ [c]) = xs ++ [c] := by simp [dropClose, hp]
        rw [hd, h2]
        simp [stripBack, hp]

theorem dropOpen_of_head (cs : List Char) :
    (cs.head? = some '(' → dropOpen cs = cs.drop 1) ∧ (cs.head? ≠ some '(' → dropOpen cs = cs) := by
  cases cs with
  | nil => exact ⟨fun h => by simp at h, fun _ => rfl⟩
  | cons c cs =>
    by_cases hc : c = '('
    · subst hc
      exact ⟨fun _ => rfl, fun h => absurd rfl h⟩
    · refine ⟨fun h => absurd (by simpa using h) hc, fun _ => ?_⟩
      unfold dropOpen
      split
      · rename_i heq
        simp only [List.cons.injEq] at heq
        exact absurd heq.1 hc
      · rfl

theorem formInputs_eq_stripEach (rawinputs : String) :
    formInputs rawinputs = stripEachThenSplit rawinputs := by
  unfold formInputs stripEachThenSplit GeneralUtils.ParseToStr
  rw [stripFront_split, stripBack_split]

/-! ## Claims on the list of inputs -/

/-- C13 as stated fails: for the raw input `(a.hepmc3,b.hepmc3`, which opens a parenthesis
and never closes it, the constructor ends with the paths `a.hepmc3` and `b.hepmc3`, while
stripping the wrapping parentheses from the whole string (there are none) and splitting at
commas gives `(a.hepmc3` and `b.hepmc3`. -/
theorem C13_counterexample_lone_parenthesis :
    formInputs "(a.hepmc3,b.hepmc3" = ["a.hepmc3", "b.hepmc3"] ∧
      stripThenSplit "(a.hepmc3,b.hepmc3" = ["(a.hepmc3", "b.hepmc3"] ∧
      formInputs "(a.hepmc3,b.hepmc3" ≠ stripThenSplit "(a.hepmc3,b.hepmc3" := by
  decide

/-- C13 (amended): for every raw input string, the list of input paths the constructor ends
with equals the list obtained by first removing from the whole string a leading `(` and a
trailing `)`, each on its own when present, and then splitting it at commas; and it equals
the list obtained by stripping the wrapping parentheses and then splitting whenever the
string starts with `(` exactly when it ends with `)`. -/
theorem C13_strip_each_then_split :
    (∀ rawinputs : String, formInputs rawinputs = stripEachThenSplit rawinputs) ∧
      ∀ rawinputs : String,
        (rawinputs.data.head? = some '(' ↔ rawinputs.data.getLast? = some ')') →
        formInputs rawinputs = stripThenSplit rawinputs := by
  refine ⟨formInputs_eq_stripEach, ?_⟩
  intro rawinputs hiff
  rw [formInputs_eq_stripEach]
  unfold stripEachThenSplit stripThenSplit
  congr 1
  unfold stripWrapping
  by_cases hh : rawinputs.data.head? = some '('
  · have hl := hiff.mp hh
    rw [if_pos ⟨hh, hl⟩, (dropOpen_of_head _).1 hh]
    congr 1
    cases hd : rawinputs.data with
    | nil => rw [hd] at hh; simp at hh
    | cons c cs =>
      rw [hd] at hl
      cases cs with
      | nil =>
        rw [hd] at hh
        simp only [List.head?_cons, Option.some.injEq] at hh
        simp only [List.getLast?_singleton, Option.some.injEq] at hl
        rw [hh] at hl
        exact absurd hl (by decide)
      | cons d ds =>
        rw [List.getLast?_cons_cons] at hl
        simp only [List.drop_succ_cons, List.drop_zero, dropClose, hl, ↓reduceIte]
  · have hl : rawinputs.data.getLast? ≠ some ')' := fun h => hh (hiff.mpr h)
    rw [if_neg (fun h => hh h.1), (dropOpen_of_head _).2 hh]
    simp only [dropClose, hl, ↓reduceIte]

theorem C13_strip_each_then_split_witness :
    formInputs "(a.hepmc3,b.hepmc3)" = stripEachThenSplit "(a.hepmc3,b.hepmc3)" ∧
      formInputs "(a.hepmc3,b.hepmc3)" = stripThenSplit "(a.hepmc3,b.hepmc3)" :=
  ⟨C13_strip_each_then_split.1 "(a.hepmc3,b.hepmc3)",
    C13_strip_each_then_split.2 "(a.hepmc3,b.hepmc3)" (by decide)⟩

/-! ## Claims on arbitrary sequences of requests -/

/-- Histories of requests below `2 ^ 31` to a handler that is in step: every request is
answered with the event built from the event of that index, or with the null pointer when the
index is at or beyond the number of events, and the handler stays in step. -/
theorem serve_answers (fuel : Nat) (l : List Nat) :
    ∀ (h : NuHepMCInputHandler), h.InStep → (∀ e ∈ l, e < 2 ^ 31) →
      ∃ g rs, h.serve fuel l = some (g, rs) ∧ g.InStep ∧ g.fFile = h.fFile ∧
        List.Forall₂ (answersIndex h.fFile) l rs := by
  induction l with
  | nil => intro h hin _; exact ⟨h, [], rfl, hin, rfl, List.Forall₂.nil⟩
  | cons e l ih =>
    intro h hin hall
    obtain ⟨a, r, ha, ain, af, -, -, -, hsome, hnone⟩ :=
      getNuisanceEvent_inStep fuel h e hin (hall e (List.mem_cons_self _ _))
    obtain ⟨g, rs, hg, gin, gf, hrs⟩ :=
      ih a ain (fun x hx => hall x (List.mem_cons_of_mem _ hx))
    refine ⟨g, r :: rs, by simp only [NuHepMCInputHandler.serve, ha, hg], gin, gf.trans af,
      List.Forall₂.cons ?_ (af ▸ hrs)⟩
    unfold answersIndex
    cases hk : h.fFile.events[e]? with
    | none =>
      have hge : h.fFile.events.length ≤ e := by
        by_contra hc
        rw [List.getElem?_eq_getElem (by omega)] at hk
        cases hk
      exact (hnone hge).1
    | some evt => exact ⟨_, rfl, (hsome evt hk).1⟩

/-- Requests below `2 ^ 31`: after construction from a readable file, every finite sequence
of requests for indices below `2 ^ 31`, in any order, is answered index by index with the
event built from the event of that index or, from the number of events on, with the null
pointer; afterwards the reader is at `nextentry` unless it has failed. -/
theorem requests_below_wrap (fuel sfuel : Nat) (env : Env) (handle rawinputs path : String)
    (file : File) (ri : GenRunInfo) (cs : List String) (X : ℚ)
    (hpath : (formInputs rawinputs).head? = some path) (hfile : env.files path = some file)
    (hne : file.events ≠ []) (hri : file.run_info = some ri)
    (hcs : declaresConventions ri cs) (hX : "G.C.4" ∈ cs → declaresFATX ri X)
    (hfuel : file.events.length < fuel) :
    ∃ h, NuHepMCInputHandler.new fuel env handle rawinputs = Except.ok h ∧
      ∀ (requests : List Nat), (∀ e ∈ requests, e < 2 ^ 31) →
        ∃ g rs, h.serve sfuel requests = some (g, rs) ∧
          List.Forall₂ (answersIndex file) requests rs ∧
          (g.fReader.failed = false → g.fReader.pos = g.nextentry) := by
  obtain ⟨h, hnew, -, hnext, hreader, hhfile, -, hjoint, -, -, -, -, -⟩ :=
    new_ok fuel env handle rawinputs path file ri cs X hpath hfile hne hri hcs hX hfuel
  have hin := inStep_of_new h file hnext hreader hhfile hjoint
  refine ⟨h, hnew, ?_⟩
  intro requests hall
  obtain ⟨g, rs, hg, gin, -, hrs⟩ := serve_answers sfuel requests h hin hall
  exact ⟨g, rs, hg, hhfile ▸ hrs, gin.position⟩

/-- C14 (the code departs from the claim): on a file of two events the first request after
construction, for the out-of-range index `2147483649`, is not answered with the null pointer:
the skip count is `-2147483647`, nothing is skipped, and the event built from the first event
of the file is handed out; afterwards the reader has not failed and stands at position 1
while `nextentry` is `2147483650`. -/
theorem C14_large_index_served :
    fileOfTwo.events.length = 2 ∧
      ∃ h g a,
        NuHepMCInputHandler.new 3 (singleFileEnv "nu.hepmc3" fileOfTwo) "sample" "nu.hepmc3" =
          Except.ok h ∧
        h.GetNuisanceEvent 0 2147483649 = some (g, some a) ∧
        a = h.built (sampleEvent 0 none) ∧ a.fEventNo = 0 ∧
        g.skipped = [-2147483647] ∧
        g.fReader.failed = false ∧ g.fReader.pos = 1 ∧ g.nextentry = 2147483650 := by
  refine ⟨rfl, ?_⟩
  obtain ⟨h, hnew, -, hnext, hreader, hhfile, -, hjoint, -, hskip, -, -, -⟩ :=
    new_ok 3 (singleFileEnv "nu.hepmc3" fileOfTwo) "sample" "nu.hepmc3" "nu.hepmc3" fileOfTwo
      (sampleRunInfo ["G.C.1"] none ["CV"]) ["G.C.1"] 0 (by decide) (by simp [singleFileEnv])
      (by simp [fileOfTwo]) rfl
      (by simp [declaresConventions, sampleRunInfo, GenRunInfo.payload, List.lookup])
      (fun hg => absurd hg (by decide)) (by simp [fileOfTwo])
  have hseek : h.seek 2147483649 =
      { h with
        fReader := h.fReader.skip (toInt32 (2147483649 - h.nextentry))
        skipped := toInt32 (2147483649 - h.nextentry) :: h.skipped
        nextentry := (2147483649 + 1) % UInt_t.size } := by
    rcases seek_cases h 2147483649 with ⟨hc, _⟩ | ⟨_, hs⟩ | ⟨hc, _⟩
    · omega
    · rw [hs, if_pos (by rw [hnext]; decide)]
    · omega
  have hm : toInt32 2147483649 = -2147483647 := by decide
  have hr : (h.seek 2147483649).fReader = { file := fileOfTwo, pos := 0, failed := false } := by
    rw [hseek, hnext]
    show h.fReader.skip (toInt32 2147483649) = _
    rw [hreader, hm]
    rfl
  obtain ⟨g, hg, greader, gnext, -, -, -⟩ :=
    getNuisanceEvent_read_state 0 h 2147483649 (sampleEvent 0 none) fileOfTwo 0
      (by rw [hseek]; exact hjoint) hr rfl
  obtain ⟨g', r', hg', -, -, -, -, -, -, gskip⟩ :=
    getNuisanceEvent_frame 0 h 2147483649 (by rw [hreader, hhfile]; rfl) hjoint
  rw [hg] at hg'
  simp only [Option.some.injEq, Prod.mk.injEq] at hg'
  obtain ⟨rfl, -⟩ := hg'
  refine ⟨h, g, _, hnew, hg, rfl, (calc_scalars _ _).2.1, ?_, by rw [greader], by rw [greader],
    by rw [gnext, hseek]; rfl⟩
  rw [gskip, hseek]
  show toInt32 (2147483649 - h.nextentry) :: h.skipped = _
  rw [hnext, hskip, Nat.sub_zero, hm]

/-! ## Claims on attribute access -/

theorem checkedAttributeValue_ok_iff {α : Type} (read : Attribute → Option α)
    (obj : Option GenRunInfo) (name : String) (v : α) :
    NuHepMC.CheckedAttributeValue read obj name = Except.ok v ↔
      ∃ o, obj = some o ∧ name ∈ o.attribute_names ∧ (o.payload name).bind read = some v := by
  unfold NuHepMC.CheckedAttributeValue
  cases obj with
  | none => simp
  | some o =>
    by_cases hm : name ∈ o.attribute_names
    · cases hb : (o.payload name).bind read with
      | none => simp [NuHepMC.HasAttribute, hm, hb]
      | some w => simp [NuHepMC.HasAttribute, hm, hb]
    · simp [NuHepMC.HasAttribute, hm]

theorem checkedAttributeValue_error_iff {α : Type} (read : Attribute → Option α)
    (obj : Option GenRunInfo) (name : String) :
    NuHepMC.CheckedAttributeValue read obj name =
        Except.error (Failure.runtime_error "CheckedAttributeValue") ↔
      obj = none ∨ ∃ o, obj = some o ∧
        (name ∉ o.attribute_names ∨ (o.payload name).bind read = none) := by
  unfold NuHepMC.CheckedAttributeValue
  cases obj with
  | none => simp
  | some o =>
    by_cases hm : name ∈ o.attribute_names
    · cases hb : (o.payload name).bind read with
      | none =>
        simp only [NuHepMC.HasAttribute, hm, decide_True, Bool.not_true, Bool.false_eq_true,
          ↓reduceIte, hb, true_iff]
        exact Or.inr ⟨o, rfl, Or.inr hb⟩
      | some w =>
        simp only [NuHepMC.HasAttribute, hm, decide_True, Bool.not_true, Bool.false_eq_true,
          ↓reduceIte, hb]
        constructor
        · intro h; cases h
        · rintro (h | ⟨o', ho, h | h⟩)
          · cases h
          · cases ho; exact absurd hm h
          · cases ho; rw [hb] at h; cases h
    · simp [NuHepMC.HasAttribute, hm]

theorem checkedAttributeValueD_eq {α : Type} (read : Attribute → Option α)
    (obj : Option GenRunInfo) (name : String) (defval : α) :
    NuHepMC.CheckedAttributeValueD read obj name defval =
      match obj with
      | some o =>
        if name ∈ o.attribute_names then NuHepMC.CheckedAttributeValue read obj name
        else Except.ok defval
      | none => NuHepMC.CheckedAttributeValue read obj name := by
  unfold NuHepMC.CheckedAttributeValueD NuHepMC.CheckedAttributeValue
  cases obj with
  | none => rfl
  | some o =>
    by_cases hm : name ∈ o.attribute_names
    · simp [NuHepMC.HasAttribute, hm]
    · simp [NuHepMC.HasAttribute, hm]

/-- C15: `CheckedAttributeValue` without a default returns a value exactly when the object is
not null, the name is among its attribute names and the attribute reads as the requested type,
the value being the one read; it raises exactly when the object is null, the name is not among
the attribute names, or the attribute cannot be read as the requested type. The variant with a
default agrees with it except that it returns the default when the name is absent. Hence, for
a file with at least one event, construction raises when the run metadata has no convention
list, and when it declares G.C.4 without a flux-averaged cross-section attribute, whatever
else is declared. -/
theorem C15_checked_attribute_value {α : Type} (read : Attribute → Option α)
    (obj : Option GenRunInfo) (name : String) (defval : α) :
    (∀ v, NuHepMC.CheckedAttributeValue read obj name = Except.ok v ↔
      ∃ o, obj = some o ∧ name ∈ o.attribute_names ∧ (o.payload name).bind read = some v) ∧
    (NuHepMC.CheckedAttributeValue read obj name =
        Except.error (Failure.runtime_error "CheckedAttributeValue") ↔
      obj = none ∨ ∃ o, obj = some o ∧
        (name ∉ o.attribute_names ∨ (o.payload name).bind read = none)) ∧
    (NuHepMC.CheckedAttributeValueD read obj name defval =
      match obj with
      | some o =>
        if name ∈ o.attribute_names then NuHepMC.CheckedAttributeValue read obj name
        else Except.ok defval
      | none => NuHepMC.CheckedAttributeValue read obj name) ∧
    ∀ (fuel : Nat) (env : Env) (handle rawinputs path : String) (file : File)
      (ri : GenRunInfo), (formInputs rawinputs).head? = some path →
      env.files path = some file → file.events ≠ [] → file.run_info = some ri →
      file.events.length < fuel →
      ("NuHepMC.Conventions" ∉ ri.attribute_names →
        NuHepMCInputHandler.new fuel env handle rawinputs =
          Except.error (Failure.runtime_error "CheckedAttributeValue")) ∧
      ∀ cs, declaresConventions ri cs → "G.C.4" ∈ cs →
        "NuHepMC.FluxAveragedTotalCrossSection" ∉ ri.attribute_names →
        NuHepMCInputHandler.new fuel env handle rawinputs =
          Except.error (Failure.runtime_error "CheckedAttributeValue") := by
  refine ⟨fun v => checkedAttributeValue_ok_iff read obj name v,
    checkedAttributeValue_error_iff read obj name,
    checkedAttributeValueD_eq read obj name defval, ?_⟩
  intro fuel env handle rawinputs path file ri hpath hfile hne hri hfuel
  refine ⟨?_, ?_⟩
  · intro hno
    apply new_raise_conventions fuel env handle rawinputs path file hpath hfile hne _ (by omega)
    intro c
    rw [hri]
    have hraise := (checkedAttributeValue_error_iff Attribute.asVectorString (some ri)
      "NuHepMC.Conventions").mpr (Or.inr ⟨ri, rfl, Or.inl hno⟩)
    simp only [NuHepMC.SignalsConvention, hraise, bind, Except.bind]
  · intro cs hcs hG hno
    exact new_raise_fatx fuel env handle rawinputs path file ri cs hpath hfile hne hri hcs hG
      ((checkedAttributeValue_error_iff Attribute.asDouble (some ri)
        "NuHepMC.FluxAveragedTotalCrossSection").mpr (Or.inr ⟨ri, rfl, Or.inl hno⟩)) hfuel

theorem C15_checked_attribute_value_witness :
    NuHepMCInputHandler.new 2 (singleFileEnv "nu.hepmc3" fileWithoutConventions) "sample"
        "nu.hepmc3" = Except.error (Failure.runtime_error "CheckedAttributeValue") ∧
      NuHepMCInputHandler.new 2 (singleFileEnv "nu.hepmc3" fileWithoutFATX) "sample"
        "nu.hepmc3" = Except.error (Failure.runtime_error "CheckedAttributeValue") :=
  ⟨((C15_checked_attribute_value Attribute.asDouble none "" 0).2.2.2 2
      (singleFileEnv "nu.hepmc3" fileWithoutConventions) "sample" "nu.hepmc3" "nu.hepmc3"
      fileWithoutConventions { attributes := [], weight_names := ["CV"] } (by decide)
      (by simp [singleFileEnv]) (by simp [fileWithoutConventions]) rfl
      (by simp [fileWithoutConventions])).1 (by simp [GenRunInfo.attribute_names]),
    ((C15_checked_attribute_value Attribute.asDouble none "" 0).2.2.2 2
      (singleFileEnv "nu.hepmc3" fileWithoutFATX) "sample" "nu.hepmc3" "nu.hepmc3"
      fileWithoutFATX (sampleRunInfo ["G.C.4", "E.C.4"] none ["CV"]) (by decide)
      (by simp [singleFileEnv]) (by simp [fileWithoutFATX]) rfl
      (by simp [fileWithoutFATX])).2 ["G.C.4", "E.C.4"]
      (by simp [declaresConventions, sampleRunInfo, GenRunInfo.payload, List.lookup])
      (by decide) (by simp [GenRunInfo.attribute_names, sampleRunInfo])⟩
